import Mathlib

/-!
# Lip install pipeline

A shallow embedding of `cmd/install/install.go` (the `Run` entry point of
`lip install`), `localfile/localfile.go` and `utils/download/download.go`,
followed by theorems about the resolver, the upgrade and reinstall pre-pass,
the main install pass and the downloader.

Packages that `Run` calls but whose source is not available (`versions`,
`specifiers`, `toothfile`, `toothrecord`, `toothrepo`, the uninstaller and the
extractor) enter either as fields of `Env` or as definitions modelled from the
specification. The parsing of the command line, for which `Run` calls the
`flag` package of the Go standard library, follows that package (`Parse` and
`parseOne` of `FlagSet`, with `strconv.ParseBool` for boolean values).
-/

namespace Lip

/-! ## Data model -/

/-- Modelled from the spec: the value type `versions.Version`, a tuple of major,
minor and patch numbers with an optional pre-release tag and an optional build
tag. Go compares two such values with `==` field by field. -/
structure Version where
  major : Nat
  minor : Nat
  patch : Nat
  preRelease : Option String
  build : Option String
deriving DecidableEq, Repr

/-- Modelled from the spec: the seven operators of an atomic version predicate. -/
inductive MatchKind where
  | equal
  | notEqual
  | greater
  | greaterOrEqual
  | less
  | lessOrEqual
  | compatible
deriving DecidableEq, Repr

/-- Modelled from the spec: the type `versions.VersionMatch`, one operator applied
to one version. -/
structure VersionMatch where
  kind : MatchKind
  version : Version
deriving DecidableEq, Repr

/-- A version range as `Run` iterates it: an outer list of inner lists. -/
abbrev VersionRange := List (List VersionMatch)

/-- Modelled from the spec: the three kinds of `specifiers.Specifier`; the source
names only `RequirementKind`. -/
inductive SpecifierKind where
  | LocalArchiveKind
  | RemoteArchiveKind
  | RequirementKind
deriving DecidableEq, Repr

/-- Modelled from the spec: the type `specifiers.Specifier`, seen through the
three accessors that `Run` uses: `Type()`, `ToothRepo()` and `String()`. -/
structure Specifier where
  kind : SpecifierKind
  toothRepo : String
  canonical : String
deriving DecidableEq, Repr

/-- Modelled from the spec: the manifest of an archive, the fields that `Run`
reads through `toothFile.Metadata()`. The Go map `Dependencies` is listed in
the order in which `range` happens to visit it. -/
structure Metadata where
  ToothPath : String
  Version : Version
  Dependencies : List (String × VersionRange)
  Possession : List String
deriving DecidableEq, Repr

/-- Modelled from the spec: the type `toothfile.ToothFile`, an opened archive
with its `FilePath()` and its `Metadata()`. -/
structure ToothFile where
  filePath : String
  metadata : Metadata
deriving DecidableEq, Repr

/-- Modelled from the spec: the type `toothrecord.ToothRecord`, the entry of the
record store for one installed tooth. -/
structure Record where
  ToothPath : String
  Version : Version
  Possession : List String
  IsManuallyInstalled : Bool
deriving DecidableEq, Repr

/-- The flags of `lip install`, as `flagSet.Parse` leaves them. -/
structure FlagDict where
  helpFlag : Bool
  upgradeFlag : Bool
  forceReinstallFlag : Bool
  yesFlag : Bool
  numericProgressFlag : Bool
  noDependenciesFlag : Bool
deriving DecidableEq, Repr

/-- The part of the file systems that the pipeline reads and writes: the files
of the cache directory (a path maps to `some m` when the file is a readable
archive with manifest `m`, and to `none` when it is any other file), and the
record store of the workspace. -/
structure World where
  files : List (String × Option Metadata)
  records : List Record
deriving DecidableEq, Repr

/-- An observable action of the pipeline. -/
inductive Event where
  /-- A call of `getTooth` for a specifier returned; `isCached` tells whether
  the archive was already in the cache. -/
  | fetched (specifier : String) (isCached : Bool) (path : String)
  /-- A call of `os.Remove` on a downloaded archive. -/
  | removed (path : String)
  /-- A call of `cmdlipuninstall.Uninstall` that went through. -/
  | uninstalled (recordFileName : String) (possessionList : List String)
  /-- A call of `install` that went through. -/
  | installed (toothFile : ToothFile) (isManuallyInstalled : Bool)
deriving DecidableEq, Repr

/-- The reason of an `os.Exit(1)` in `Run`, named after the error taxonomy of the
specification; the payload is what the logged message mentions. Errors that
`Run` only passes on carry the message of the callee. The last reason,
`BadFlag`, is that of the exit inside `flagSet.Parse`, which `Run` sets up with
`flag.ExitOnError`; its payload is the argument that the parser rejects. -/
inductive Failure where
  | TooFewArguments
  | InvalidSpecifier (message : String)
  | FetchFailed (message : String)
  | CorruptArchive (message : String)
  | ToothPathMismatch
  | RecordCorrupt (message : String)
  | IndexUnavailable (message : String)
  | UnsatisfiedInstalledDependency (toothPath : String) (specifier : String)
  | NoMatchingVersion (toothPath : String) (specifier : String)
  | ConflictingFlags
  | FileError (message : String)
  | ConfirmationRequired (message : String)
  | DependencyCycle (message : String)
  | ExtractFailed (message : String)
  | BadFlag (argument : String)
deriving DecidableEq, Repr

/-- The operations that `Run` calls in packages whose source is not available,
and the servers it talks to. -/
structure Env where
  /-- The function `versions.GreaterThan`. -/
  GreaterThan : Version → Version → Bool
  /-- The method `VersionMatch.Match`. -/
  Match : VersionMatch → Version → Bool
  /-- The method `Version.String`. -/
  versionString : Version → String
  /-- The function `specifiers.New`. -/
  specifiersNew : String → Except String Specifier
  /-- The function `toothrepo.FetchVersionList`: the answer of the index. -/
  FetchVersionList : String → Except String (List Version)
  /-- What the origin of a specifier (a local file, a URL, the proxy) delivers:
  `none` when the transfer fails, otherwise the content of the file. -/
  origin : Specifier → Option (Option Metadata)
  /-- The function `localfile.GetRecordFileName`. -/
  GetRecordFileName : String → String
  /-- The function `sortToothFiles` of the install package. -/
  sortToothFiles : List ToothFile → Except String (List ToothFile)
  /-- The result of `os.UserHomeDir`. -/
  UserHomeDir : Option String
  /-- The result of `os.Getwd`. -/
  Getwd : Option String
  /-- Whether a prompt can be answered when `--yes` is not given. -/
  interactive : Bool
  /-- The error, if any, with which extracting an archive fails. -/
  extractError : ToothFile → Option String

/-! ## `localfile` -/

/-- The bytes of the UTF-8 encoding of one code point, as Go stores it in a
string. -/
def utf8EncodeCodePoint (c : Nat) : List Nat :=
  if c < 0x80 then [c]
  else if c < 0x800 then [0xC0 + c / 64, 0x80 + c % 64]
  else if c < 0x10000 then [0xE0 + c / 4096, 0x80 + c / 64 % 64, 0x80 + c % 64]
  else [0xF0 + c / 262144, 0x80 + c / 4096 % 64, 0x80 + c / 64 % 64, 0x80 + c % 64]

/-- The conversion `[]byte(s)` of a Go string to its bytes. -/
def stringBytes (s : String) : List Nat :=
  s.data.flatMap fun c => utf8EncodeCodePoint c.toNat

/-- The character code of the digit `n` of the standard base64 alphabet
`A..Z a..z 0..9 + /` (RFC 4648, section 4), which `base64.StdEncoding` uses. -/
def stdAlphabetCode (n : Nat) : Nat :=
  if n < 26 then 65 + n
  else if n < 52 then 97 + (n - 26)
  else if n < 62 then 48 + (n - 52)
  else if n = 62 then 43
  else 47

/-- The character codes of `base64.StdEncoding.EncodeToString` on a byte
sequence: three bytes give four digits, and a last group of one or two bytes is
padded with `=` (code 61). -/
def stdEncodeCodes : List Nat → List Nat
  | [] => []
  | [a] => [stdAlphabetCode (a / 4), stdAlphabetCode (a % 4 * 16), 61, 61]
  | [a, b] =>
    [stdAlphabetCode (a / 4), stdAlphabetCode (a % 4 * 16 + b / 16),
      stdAlphabetCode (b % 16 * 4), 61]
  | a :: b :: c :: rest =>
    stdAlphabetCode (a / 4) :: stdAlphabetCode (a % 4 * 16 + b / 16) ::
      stdAlphabetCode (b % 16 * 4 + c / 64) :: stdAlphabetCode (c % 64) ::
      stdEncodeCodes rest

/-- The call `base64.StdEncoding.EncodeToString([]byte(s))`. -/
def stdEncodeToString (s : String) : String :=
  String.mk ((stdEncodeCodes (stringBytes s)).map Char.ofNat)

/-- The function `GetCachedToothFileName` of `localfile.go`. -/
def GetCachedToothFileName (fullSpecifier : String) : String :=
  stdEncodeToString fullSpecifier ++ ".tt"

/-- The function `HomeLipDir` of `localfile.go`. -/
def HomeLipDir (env : Env) : Except String String :=
  match env.UserHomeDir with
  | none => .error "failed to get user home directory"
  | some dirname => .ok (dirname ++ "/.lip")

/-- The function `CacheDir` of `localfile.go`. -/
def CacheDir (env : Env) : Except String String :=
  match HomeLipDir env with
  | .error err => .error err
  | .ok homeLipDir => .ok (homeLipDir ++ "/cache")

/-- The function `WorkspaceLipDir` of `localfile.go`. -/
def WorkspaceLipDir (env : Env) : Except String String :=
  match env.Getwd with
  | none => .error "failed to get current directory"
  | some dirname => .ok (dirname ++ "/.lip")

/-- The function `RecordDir` of `localfile.go`. -/
def RecordDir (env : Env) : Except String String :=
  match WorkspaceLipDir env with
  | .error err => .error err
  | .ok workspaceLipDir => .ok (workspaceLipDir ++ "/records")

/-! ## The state of a run -/

/-- The file systems together with the actions performed so far. -/
structure Sys where
  world : World
  trace : List Event
deriving DecidableEq, Repr

/-- How a part of `Run` ends: it either goes on with a value, or the process
leaves through `os.Exit(code)` after logging `failure`, in the state `sys`. -/
inductive Outcome (α : Type) where
  | ok (value : α)
  | exit (code : Nat) (failure : Failure) (sys : Sys)
deriving DecidableEq, Repr

/-- The state of the fetch loop of `Run`: the queue `specifiersToFetch` and the
map `downloadedToothFilePathMap` from specifier strings to archive paths. -/
structure FetchState where
  sys : Sys
  specifiersToFetch : List Specifier
  downloadedToothFilePathMap : List (String × String)
deriving DecidableEq, Repr

/-- The state in which the fetch loop of `Run` starts on the root specifiers. -/
def initialState (w : World) (requirementSpecifierList : List Specifier) : FetchState :=
  { sys := { world := w, trace := [] }, specifiersToFetch := requirementSpecifierList,
    downloadedToothFilePathMap := [] }

/-- The assignment `m[key] = value` on a Go map kept as a list of entries. -/
def mapSet (m : List (String × String)) (key value : String) : List (String × String) :=
  if (m.lookup key).isSome then m.map fun e => if e.1 = key then (key, value) else e
  else m ++ [(key, value)]

/-! ## Record store, archives, fetcher, installer and uninstaller -/

/-- Modelled from the spec: `toothrecord.IsToothInstalled`, the operation
`is_installed(name)` of the record store, whose source is not available. It
answers with a bool, so the error branch of its callers is never taken. -/
def IsToothInstalled (w : World) (toothPath : String) : Bool :=
  w.records.any fun r => r.ToothPath == toothPath

/-- Modelled from the spec: `toothrecord.Get`, `toothrecord.New` and
`toothrecord.NewFromFile` on the record file of a tooth path, the operation
`get(name)` of the record store, whose source is not available. -/
def toothrecordGet (w : World) (toothPath : String) : Except String Record :=
  match w.records.find? fun r => r.ToothPath == toothPath with
  | some record => .ok record
  | none => .error ("the tooth " ++ toothPath ++ " is not installed")

/-- Modelled from the spec: `toothfile.New`, the archive reader, whose source is
not available. It opens the file at a path and fails when there is no readable
archive. -/
def toothfileNew (w : World) (filePath : String) : Except String ToothFile :=
  match w.files.lookup filePath with
  | some (some metadata) => .ok { filePath := filePath, metadata := metadata }
  | _ => .error ("cannot open the tooth file " ++ filePath)

/-- The call `os.Remove(path)`. -/
def osRemove (w : World) (path : String) : World :=
  { w with files := w.files.filter fun e => e.1 != path }

/-- Modelled from the spec: `getTooth`, the fetcher, whose source is not
available. The cache file name is the encoding of the canonical form of
the specifier; a readable archive at that name is a cache hit; otherwise the
archive is obtained from its origin and written under that name, and a failed
transfer leaves no file under that name. The result is the pair
`(isCached, path)` or an error, and the world after the call. -/
def getTooth (env : Env) (w : World) (specifier : Specifier) :
    Except String (Bool × String) × World :=
  match CacheDir env with
  | .error err => (.error err, w)
  | .ok cacheDir =>
    let path := cacheDir ++ "/" ++ GetCachedToothFileName specifier.canonical
    match w.files.lookup path with
    | some (some _) => (.ok (true, path), w)
    | _ =>
      match env.origin specifier with
      | none => (.error ("cannot fetch " ++ specifier.canonical), osRemove w path)
      | some content =>
        (.ok (false, path),
          { osRemove w path with files := (osRemove w path).files ++ [(path, content)] })

/-- Modelled from the spec: `cmdlipuninstall.Uninstall`, whose source is not
available. Without `--yes` and without a way to answer the prompt it
fails; otherwise it removes the record stored under the record file name (and
the files that the possession list covers, which the model keeps in the event). -/
def Uninstall (env : Env) (sys : Sys) (recordFileName : String)
    (possessionList : List String) (yesFlag : Bool) : Except String Sys :=
  if !yesFlag && !env.interactive then .error "confirmation required"
  else .ok
    { world := { sys.world with
        records := sys.world.records.filter fun r =>
          env.GetRecordFileName r.ToothPath != recordFileName }
      trace := sys.trace ++ [Event.uninstalled recordFileName possessionList] }

/-- Modelled from the spec: `install` of one archive, whose source is not
available. When the extraction fails nothing is recorded; otherwise the
record of the tooth is written with the given manual mark. -/
def install (env : Env) (sys : Sys) (toothFile : ToothFile)
    (isManuallyInstalled : Bool) (_yesFlag : Bool) : Except String Sys :=
  match env.extractError toothFile with
  | some err => .error err
  | none => .ok
    { world := { sys.world with
        records := sys.world.records ++
          [{ ToothPath := toothFile.metadata.ToothPath
             Version := toothFile.metadata.Version
             Possession := toothFile.metadata.Possession
             IsManuallyInstalled := isManuallyInstalled }] }
      trace := sys.trace ++ [Event.installed toothFile isManuallyInstalled] }

/-! ## `Run`, part 1: validating the specifiers -/

/-- The loop of `Run` that turns the arguments into `requirementSpecifierList`:
the first argument that `specifiers.New` rejects ends the run. -/
def validateSpecifiers (env : Env) : List String → Except String (List Specifier)
  | [] => .ok []
  | specifierString :: rest =>
    match env.specifiersNew specifierString with
    | .error err => .error err
    | .ok specifier =>
      match validateSpecifiers env rest with
      | .error err => .error err
      | .ok specifiers => .ok (specifier :: specifiers)

/-! ## `Run`, part 2: resolving dependencies and fetching -/

/-- The inner loop over the atoms of one clause: `isAllMatched` starts as true
and the first atom that does not match sets it to false and breaks. -/
def isAllMatched (env : Env) (version : Version) : List VersionMatch → Bool
  | [] => true
  | versionMatch :: rest =>
    if !env.Match versionMatch version then false else isAllMatched env version rest

/-- The outer loop over the clauses of a range: `isAnyMatched` starts as false
and the first clause of which all atoms match sets it to true and breaks. -/
def isAnyMatched (env : Env) (version : Version) : VersionRange → Bool
  | [] => false
  | innerVersionRange :: rest =>
    if isAllMatched env version innerVersionRange then true
    else isAnyMatched env version rest

/-- The check of `Run` on a fetched archive whose tooth may be installed already:
`true` lets the iteration go on, `false` is the `continue` of the source. -/
def checkInstalled (env : Env) (flagDict : FlagDict) (sys : Sys) (toothFile : ToothFile) :
    Outcome Bool :=
  if IsToothInstalled sys.world toothFile.metadata.ToothPath then
    if !flagDict.forceReinstallFlag && !flagDict.upgradeFlag then .ok false
    else if !flagDict.forceReinstallFlag && flagDict.upgradeFlag then
      match toothrecordGet sys.world toothFile.metadata.ToothPath with
      | .error err => .exit 1 (.RecordCorrupt err) sys
      | .ok record =>
        if record.Version = toothFile.metadata.Version then .ok false
        else if env.GreaterThan record.Version toothFile.metadata.Version then .ok false
        else .ok true
    else if flagDict.forceReinstallFlag && !flagDict.upgradeFlag then .ok true
    else if flagDict.forceReinstallFlag && flagDict.upgradeFlag then .ok true
    else .ok true
  else .ok true

/-- The loop of `Run` over the version list of a dependency: the first version
that the range matches is made into a specifier, pushed to the back of the
queue, and ends the loop; `none` means that `isMatched` stayed false. -/
def selectVersion (env : Env) (toothPath : String) (versionRange : VersionRange)
    (specifiersToFetch : List Specifier) : List Version → Except String (Option (List Specifier))
  | [] => .ok none
  | version :: rest =>
    if isAnyMatched env version versionRange then
      match env.specifiersNew (toothPath ++ "@" ++ env.versionString version) with
      | .error err => .error err
      | .ok specifier => .ok (some (specifiersToFetch ++ [specifier]))
    else selectVersion env toothPath versionRange specifiersToFetch rest

/-- The body of the loop of `Run` over the dependencies of a fetched archive,
for the dependency `toothPath` with range `versionRange` of `specifier`. -/
def resolveDependency (env : Env) (specifier : Specifier) (st : FetchState)
    (toothPath : String) (versionRange : VersionRange) : Outcome FetchState :=
  match env.FetchVersionList toothPath with
  | .error err => .exit 1 (.IndexUnavailable err) st.sys
  | .ok versionList =>
    if IsToothInstalled st.sys.world toothPath then
      match toothrecordGet st.sys.world toothPath with
      | .error err => .exit 1 (.RecordCorrupt err) st.sys
      | .ok record =>
        if isAnyMatched env record.Version versionRange then .ok st
        else .exit 1 (.UnsatisfiedInstalledDependency toothPath specifier.canonical) st.sys
    else
      match selectVersion env toothPath versionRange st.specifiersToFetch versionList with
      | .error err => .exit 1 (.InvalidSpecifier err) st.sys
      | .ok none => .exit 1 (.NoMatchingVersion toothPath specifier.canonical) st.sys
      | .ok (some queue) => .ok { st with specifiersToFetch := queue }

/-- The loop of `Run` over the dependencies of a fetched archive. -/
def resolveDependencies (env : Env) (specifier : Specifier) :
    FetchState → List (String × VersionRange) → Outcome FetchState
  | st, [] => .ok st
  | st, (toothPath, versionRange) :: rest =>
    match resolveDependency env specifier st toothPath versionRange with
    | .exit code failure sys => .exit code failure sys
    | .ok st1 => resolveDependencies env specifier st1 rest

/-- One iteration of the fetch loop of `Run`, for the specifier that was just
taken from the front of the queue; `st` holds the rest of the queue. -/
def fetchIteration (env : Env) (flagDict : FlagDict) (st : FetchState)
    (specifier : Specifier) : Outcome FetchState :=
  if (st.downloadedToothFilePathMap.lookup specifier.canonical).isSome then .ok st
  else
    match getTooth env st.sys.world specifier with
    | (.error err, w) => .exit 1 (.FetchFailed err) { st.sys with world := w }
    | (.ok (isCached, downloadedToothFilePath), w) =>
      let sys1 : Sys :=
        { world := w
          trace := st.sys.trace ++
            [Event.fetched specifier.canonical isCached downloadedToothFilePath] }
      match toothfileNew w downloadedToothFilePath with
      | .error err => .exit 1 (.CorruptArchive err) sys1
      | .ok toothFile =>
        if specifier.kind = SpecifierKind.RequirementKind ∧
            toothFile.metadata.ToothPath ≠ specifier.toothRepo then
          .exit 1 .ToothPathMismatch
            { world := osRemove w downloadedToothFilePath
              trace := sys1.trace ++ [Event.removed downloadedToothFilePath] }
        else
          match checkInstalled env flagDict sys1 toothFile with
          | .exit code failure sys => .exit code failure sys
          | .ok false => .ok { st with sys := sys1 }
          | .ok true =>
            let st1 : FetchState :=
              { st with
                sys := sys1
                downloadedToothFilePathMap :=
                  mapSet st.downloadedToothFilePathMap specifier.canonical
                    downloadedToothFilePath }
            if !flagDict.noDependenciesFlag then
              resolveDependencies env specifier st1 toothFile.metadata.Dependencies
            else .ok st1

/-- The fetch loop of `Run`, run for at most `fuel` iterations; `none` means that
the queue was not yet empty when the fuel ran out. -/
def fetchLoop (env : Env) (flagDict : FlagDict) : Nat → FetchState → Option (Outcome FetchState)
  | fuel, st =>
    match st.specifiersToFetch with
    | [] => some (.ok st)
    | specifier :: rest =>
      match fuel with
      | 0 => none
      | fuel + 1 =>
        match fetchIteration env flagDict { st with specifiersToFetch := rest } specifier with
        | .exit code failure sys => some (.exit code failure sys)
        | .ok st1 => fetchLoop env flagDict fuel st1

/-! ## `Run`, part 3: the force-reinstall flag and the upgrade flag -/

/-- The body of the loop of `Run` over `requirementSpecifierList` that uninstalls
the tooths to be reinstalled or upgraded. -/
def prePassIteration (env : Env) (flagDict : FlagDict)
    (downloadedToothFilePathMap : List (String × String)) (sys : Sys)
    (specifier : Specifier) : Outcome Sys :=
  if specifier.kind ≠ SpecifierKind.RequirementKind then .ok sys
  else
    match downloadedToothFilePathMap.lookup specifier.canonical with
    | none => .ok sys
    | some path =>
      match toothfileNew sys.world path with
      | .error err => .exit 1 (.CorruptArchive err) sys
      | .ok toothFile =>
        if !IsToothInstalled sys.world toothFile.metadata.ToothPath then .ok sys
        else
          match RecordDir env with
          | .error err => .exit 1 (.FileError err) sys
          | .ok _recordDir =>
            match toothrecordGet sys.world toothFile.metadata.ToothPath with
            | .error err => .exit 1 (.RecordCorrupt err) sys
            | .ok toothRecord =>
              if !flagDict.forceReinstallFlag &&
                  !env.GreaterThan toothFile.metadata.Version toothRecord.Version then
                .ok sys
              else
                let possessionList := toothFile.metadata.Possession
                let recordFileName := env.GetRecordFileName toothFile.metadata.ToothPath
                match Uninstall env sys recordFileName possessionList flagDict.yesFlag with
                | .error err => .exit 1 (.ConfirmationRequired err) sys
                | .ok sys1 => .ok sys1

/-- The loop of `Run` over `requirementSpecifierList` in part 3. -/
def prePassLoop (env : Env) (flagDict : FlagDict)
    (downloadedToothFilePathMap : List (String × String)) : Sys → List Specifier → Outcome Sys
  | sys, [] => .ok sys
  | sys, specifier :: rest =>
    match prePassIteration env flagDict downloadedToothFilePathMap sys specifier with
    | .exit code failure sys1 => .exit code failure sys1
    | .ok sys1 => prePassLoop env flagDict downloadedToothFilePathMap sys1 rest

/-- Part 3 of `Run`. -/
def prePass (env : Env) (flagDict : FlagDict) (requirementSpecifierList : List Specifier)
    (downloadedToothFilePathMap : List (String × String)) (sys : Sys) : Outcome Sys :=
  if flagDict.forceReinstallFlag || flagDict.upgradeFlag then
    if flagDict.forceReinstallFlag && flagDict.upgradeFlag then .exit 1 .ConflictingFlags sys
    else prePassLoop env flagDict downloadedToothFilePathMap sys requirementSpecifierList
  else .ok sys

/-! ## `Run`, part 4: installing -/

/-- The loop of `Run` over `downloadedToothFilePathMap` that opens every
downloaded archive and notes the file paths of those whose specifier string is
the string of a specifier of `requirementSpecifierList`. The order in which Go
visits a map is not fixed; the model visits the entries in the order of the
list. -/
def collectToothFiles (requirementSpecifierList : List Specifier) (sys : Sys) :
    List (String × String) → List ToothFile → List String →
      Outcome (List ToothFile × List String)
  | [], downloadedToothFileList, manuallyInstalledToothFilePathList =>
    .ok (downloadedToothFileList, manuallyInstalledToothFilePathList)
  | (specifierString, downloadedToothFilePath) :: rest, downloadedToothFileList,
      manuallyInstalledToothFilePathList =>
    match toothfileNew sys.world downloadedToothFilePath with
    | .error err => .exit 1 (.CorruptArchive err) sys
    | .ok toothFile =>
      let isManuallyInstalled :=
        requirementSpecifierList.any fun requirementSpecifier =>
          requirementSpecifier.canonical == specifierString
      collectToothFiles requirementSpecifierList sys rest
        (downloadedToothFileList ++ [toothFile])
        (if isManuallyInstalled then manuallyInstalledToothFilePathList ++ [toothFile.filePath]
          else manuallyInstalledToothFilePathList)

/-- The last loop of `Run`: every sorted archive whose tooth is not installed is
installed, marked manual when its file path was noted. -/
def installLoop (env : Env) (flagDict : FlagDict)
    (manuallyInstalledToothFilePathList : List String) : Sys → List ToothFile → Outcome Sys
  | sys, [] => .ok sys
  | sys, toothFile :: rest =>
    if IsToothInstalled sys.world toothFile.metadata.ToothPath then
      installLoop env flagDict manuallyInstalledToothFilePathList sys rest
    else
      let isManuallyInstalled :=
        manuallyInstalledToothFilePathList.any fun manuallyInstalledToothFilePath =>
          toothFile.filePath == manuallyInstalledToothFilePath
      match install env sys toothFile isManuallyInstalled flagDict.yesFlag with
      | .error err => .exit 1 (.ExtractFailed err) sys
      | .ok sys1 => installLoop env flagDict manuallyInstalledToothFilePathList sys1 rest

/-- Part 4 of `Run`. -/
def mainPass (env : Env) (flagDict : FlagDict) (requirementSpecifierList : List Specifier)
    (downloadedToothFilePathMap : List (String × String)) (sys : Sys) : Outcome Sys :=
  match collectToothFiles requirementSpecifierList sys downloadedToothFilePathMap [] [] with
  | .exit code failure sys1 => .exit code failure sys1
  | .ok (downloadedToothFileList, manuallyInstalledToothFilePathList) =>
    match env.sortToothFiles downloadedToothFileList with
    | .error err => .exit 1 (.DependencyCycle err) sys
    | .ok sortedToothFileList =>
      installLoop env flagDict manuallyInstalledToothFilePathList sys sortedToothFileList

/-! ## `Run` -/

/-- Parts 3 and 4 of `Run`, after the fetch loop has ended in the state `st`. -/
def afterFetch (env : Env) (flagDict : FlagDict) (requirementSpecifierList : List Specifier)
    (st : FetchState) : Outcome Sys :=
  match prePass env flagDict requirementSpecifierList st.downloadedToothFilePathMap st.sys with
  | .exit code failure sys => .exit code failure sys
  | .ok sys1 =>
    mainPass env flagDict requirementSpecifierList st.downloadedToothFilePathMap sys1

/-- The entry point `Run` of `lip install` from the line after `flagSet.Parse`
on (lines 70 to 485), on the flags and the remaining arguments that
`flagSet.Parse` has produced, in the world `w`; `RunFromArguments` below puts
the parsing of the flags (lines 52 to 68) in front. The fetch loop runs for at
most `fuel` iterations and the result is `none` when that is not enough. An
outcome `ok` is a return from `Run`, that is exit code 0. -/
def Run (env : Env) (flagDict : FlagDict) (args : List String) (fuel : Nat) (w : World) :
    Option (Outcome Sys) :=
  if flagDict.helpFlag then some (.ok { world := w, trace := [] })
  else if args.length = 0 then some (.exit 1 .TooFewArguments { world := w, trace := [] })
  else
    match validateSpecifiers env args with
    | .error err => some (.exit 1 (.InvalidSpecifier err) { world := w, trace := [] })
    | .ok requirementSpecifierList =>
      match fetchLoop env flagDict fuel
          { sys := { world := w, trace := [] }
            specifiersToFetch := requirementSpecifierList
            downloadedToothFilePathMap := [] } with
      | none => none
      | some (.exit code failure sys) => some (.exit code failure sys)
      | some (.ok st) => some (afterFetch env flagDict requirementSpecifierList st)

/-- The exit code of the process for an outcome of `Run`: a return from `Run` is
exit code 0. -/
def Outcome.exitCode : Outcome Sys → Nat
  | .ok _ => 0
  | .exit code _ _ => code

/-! ## `Run`, from the command line: parsing the flags -/

/-- The flags before `flagSet.Parse`: `var flagDict FlagDict`, and every
`BoolVar` call of `Run` gives the default `false`. -/
def defaultFlagDict : FlagDict :=
  { helpFlag := false, upgradeFlag := false, forceReinstallFlag := false,
    yesFlag := false, numericProgressFlag := false, noDependenciesFlag := false }

/-- The names that the eight `BoolVar` calls of `Run` define on the flag set. -/
def flagNames : List String :=
  ["help", "h", "upgrade", "force-reinstall", "yes", "y", "numeric-progress",
    "no-dependencies"]

/-- The assignment that the flag set makes for the defined flag `name`: each
name writes the field of `flagDict` that its `BoolVar` call binds, so `help`
and `h` write the same field, and so do `yes` and `y`. -/
def setFlag (flagDict : FlagDict) (name : String) (value : Bool) : FlagDict :=
  if name = "help" ∨ name = "h" then { flagDict with helpFlag := value }
  else if name = "upgrade" then { flagDict with upgradeFlag := value }
  else if name = "force-reinstall" then { flagDict with forceReinstallFlag := value }
  else if name = "yes" ∨ name = "y" then { flagDict with yesFlag := value }
  else if name = "numeric-progress" then { flagDict with numericProgressFlag := value }
  else if name = "no-dependencies" then { flagDict with noDependenciesFlag := value }
  else flagDict

/-- The function `strconv.ParseBool`, with which a boolean flag reads the value
of `-name=value`; `none` is its error. -/
def parseBool (value : String) : Option Bool :=
  if value ∈ ["1", "t", "T", "true", "TRUE", "True"] then some true
  else if value ∈ ["0", "f", "F", "false", "FALSE", "False"] then some false
  else none

/-- The split of a flag at its first equals sign, on the characters after the
first one of the name (the loop `for i := 1; i < len(name); i++` of the flag
package): the rest of the name, and the value if there is an equals sign. -/
def splitValue : List Char → List Char × Option (List Char)
  | [] => ([], none)
  | c :: rest =>
    if c = '=' then ([], some rest)
    else (c :: (splitValue rest).1, (splitValue rest).2)

/-- What the method `parseOne` of the flag package does with the first
argument that is left: it sees a flag and assigns it, or it meets the
terminator `--`, which it consumes, or an argument that is no flag, which it
leaves, or it fails, or it fails with `ErrHelp`. -/
inductive ParseOne where
  | seen (flagDict : FlagDict)
  | terminator
  | positional
  | failed
  | errHelp
deriving DecidableEq, Repr

/-- The method `parseOne` of the flag package of Go, on the flag set of `Run`
and the first argument `s` that is left. The package tests bytes of `s`; the
bytes it tests for, the minus and the equals sign, are single bytes of
characters of their own in UTF-8, so the tests are made on characters here.
An argument shorter than two bytes or not starting with a minus is no flag; one
or two minuses start a flag; a name that is empty or starts with a minus or an
equals sign is bad syntax; a name that no `BoolVar` defines is an error
(`ErrHelp` when it is `help` or `h`); a boolean flag takes a value only in the
form `-name=value`, read by `strconv.ParseBool`, and is `true` without one. -/
def parseOne (flagDict : FlagDict) (s : String) : ParseOne :=
  match s.data with
  | [] => .positional
  | [_] => .positional
  | first :: second :: tail =>
    if first ≠ '-' then .positional
    else if second = '-' ∧ tail = [] then .terminator
    else
      match (if second = '-' then tail else second :: tail) with
      | [] => .failed
      | c :: more =>
        if c = '-' ∨ c = '=' then .failed
        else
          if String.mk (c :: (splitValue more).1) ∈ flagNames then
            match (splitValue more).2 with
            | none => .seen (setFlag flagDict (String.mk (c :: (splitValue more).1)) true)
            | some value =>
              match parseBool (String.mk value) with
              | some b => .seen (setFlag flagDict (String.mk (c :: (splitValue more).1)) b)
              | none => .failed
          else if String.mk (c :: (splitValue more).1) = "help" ∨
              String.mk (c :: (splitValue more).1) = "h" then .errHelp
          else .failed

/-- The result of `flagSet.Parse` under `flag.ExitOnError`: the flags and the
arguments that are left (`flagSet.Args()`), or the exit of the process with a
code, at the argument that the parser was reading. -/
inductive Parsed where
  | ok (flagDict : FlagDict) (args : List String)
  | exit (code : Nat) (argument : String)
deriving DecidableEq, Repr

/-- The method `Parse` of the flag package on a flag set made with
`flag.ExitOnError` (line 52): it calls `parseOne` while that sees flags; when
`parseOne` fails it exits, with code 0 for `ErrHelp` and with code 2 for every
other error. -/
def flagSetParse (flagDict : FlagDict) : List String → Parsed
  | [] => .ok flagDict []
  | s :: rest =>
    match parseOne flagDict s with
    | .seen flagDict1 => flagSetParse flagDict1 rest
    | .terminator => .ok flagDict rest
    | .positional => .ok flagDict (s :: rest)
    | .failed => .exit 2 s
    | .errHelp => .exit 0 s

/-- The entry point `Run(args)` of `lip install` from its first line: the flag
set parses the arguments (lines 52 to 68), which ends the process when the
parser rejects one, and the rest of `Run` goes on with the flags and with the
arguments that are left. Nothing has been done when the parser exits. -/
def RunFromArguments (env : Env) (arguments : List String) (fuel : Nat) (w : World) :
    Option (Outcome Sys) :=
  match flagSetParse defaultFlagDict arguments with
  | .exit code argument => some (.exit code (.BadFlag argument) { world := w, trace := [] })
  | .ok flagDict args => Run env flagDict args fuel w

/-- The command line that sets every flag to the value it has in `flagDict` and
hands on the arguments `args`, after the terminator `--`. -/
def commandLine (flagDict : FlagDict) (args : List String) : List String :=
  [if flagDict.helpFlag then "-h=true" else "-h=false",
    if flagDict.upgradeFlag then "--upgrade=true" else "--upgrade=false",
    if flagDict.forceReinstallFlag then "--force-reinstall=true" else "--force-reinstall=false",
    if flagDict.yesFlag then "-y=true" else "-y=false",
    if flagDict.numericProgressFlag then "--numeric-progress=true"
    else "--numeric-progress=false",
    if flagDict.noDependenciesFlag then "--no-dependencies=true"
    else "--no-dependencies=false",
    "--"] ++ args

/-! ## `download` -/

/-- What `http.DefaultClient.Do` hands back for a request that went through: the
status code, and the body as the reader delivers it, that is the bytes that
arrive and the error, if any, that ends the body before its end. -/
structure HttpResponse where
  StatusCode : Nat
  received : List Nat
  readError : Option String
deriving DecidableEq, Repr

/-- The surroundings of `DownloadFile`: the answer of the network to a GET of a
url, and the error, if any, with which `os.Create` fails on a path. -/
structure DownloadEnv where
  httpDo : String → Except String HttpResponse
  createError : String → Option String

/-- The call `os.Create(filePath)` when it goes through: the file exists
afterwards and is empty. -/
def osCreate (fs : List (String × List Nat)) (filePath : String) : List (String × List Nat) :=
  (fs.filter fun e => e.1 != filePath) ++ [(filePath, [])]

/-- The call `io.Copy(io.MultiWriter(file, bar), resp.Body)`: the bytes that
arrive are appended to the file, and the error that ends the body early, if
any, is the second result of `io.Copy`. -/
def ioCopy (fs : List (String × List Nat)) (filePath : String) (resp : HttpResponse) :
    List (String × List Nat) × Option String :=
  (fs.map fun e => if e.1 = filePath then (e.1, e.2 ++ resp.received) else e, resp.readError)

/-- The function `DownloadFile` of `download.go`, on a file system that maps
paths to file contents. The result is the returned error (`ok` for `nil`) and
the file system after the call. The source drops both results of `io.Copy`. -/
def DownloadFile (net : DownloadEnv) (fs : List (String × List Nat)) (url filePath : String) :
    Except String Unit × List (String × List Nat) :=
  match net.httpDo url with
  | .error err => (.error err, fs)
  | .ok resp =>
    if resp.StatusCode ≠ 200 then
      (.error ("cannot download file (HTTP CODE " ++ toString resp.StatusCode ++ "): " ++ url), fs)
    else
      match net.createError filePath with
      | some err => (.error err, fs)
      | none =>
        let copied := ioCopy (osCreate fs filePath) filePath resp
        (.ok (), copied.1)

/-! ## Phases of a run, read off the trace -/

/-- Whether an event belongs to the fetch loop: a fetch, or the removal of a
fetched archive. -/
def Event.isFetch : Event → Bool
  | .fetched _ _ _ => true
  | .removed _ => true
  | _ => false

/-- Whether an event is a call of `Uninstall`. -/
def Event.isUninstall : Event → Bool
  | .uninstalled _ _ => true
  | _ => false

/-- Whether an event is a call of `install`. -/
def Event.isInstall : Event → Bool
  | .installed _ _ => true
  | _ => false

/-- The state `s1` comes from `s0` by fetching only: the record store is the
same and the trace has grown by fetch events. -/
def FetchOnly (s0 s1 : Sys) : Prop :=
  s1.world.records = s0.world.records ∧
    ∃ t, s1.trace = s0.trace ++ t ∧ ∀ e ∈ t, e.isFetch = true

/-- The state `s1` comes from `s0` by uninstalling only: the cache is the same
and the trace has grown by calls of `Uninstall`. -/
def UninstallOnly (s0 s1 : Sys) : Prop :=
  s1.world.files = s0.world.files ∧
    ∃ t, s1.trace = s0.trace ++ t ∧ ∀ e ∈ t, e.isUninstall = true

/-- The state `s1` comes from `s0` by installing only: the cache is the same and
the trace has grown by calls of `install`. -/
def InstallOnly (s0 s1 : Sys) : Prop :=
  s1.world.files = s0.world.files ∧
    ∃ t, s1.trace = s0.trace ++ t ∧ ∀ e ∈ t, e.isInstall = true

/-- The failures with which the fetch loop can end. -/
def Failure.isFetchFailure : Failure → Bool
  | .FetchFailed _ => true
  | .CorruptArchive _ => true
  | .ToothPathMismatch => true
  | .RecordCorrupt _ => true
  | .IndexUnavailable _ => true
  | .UnsatisfiedInstalledDependency _ _ => true
  | .NoMatchingVersion _ _ => true
  | .InvalidSpecifier _ => true
  | _ => false

/-- The failures with which the parts of `Run` after the fetch loop can end. -/
def Failure.isAfterFetchFailure : Failure → Bool
  | .ConflictingFlags => true
  | .CorruptArchive _ => true
  | .FileError _ => true
  | .RecordCorrupt _ => true
  | .ConfirmationRequired _ => true
  | .DependencyCycle _ => true
  | .ExtractFailed _ => true
  | _ => false

/-- The state in which an outcome of the fetch loop leaves the system. -/
def Outcome.fetchSys : Outcome FetchState → Sys
  | .ok st => st.sys
  | .exit _ _ sys => sys

/-- The state in which an outcome of a later part of `Run` leaves the system. -/
def Outcome.finalSys : Outcome Sys → Sys
  | .ok sys => sys
  | .exit _ _ sys => sys

/-- Whether an event is a call of `getTooth` for the specifier string `s`. -/
def Event.isFetchOf (s : String) : Event → Bool
  | .fetched specifier _ _ => specifier == s
  | _ => false

/-- The invariant of `downloaded` in the fetch loop: no specifier string is a key
twice, and every entry maps a specifier string to its file in the cache. -/
def DownloadedInv (env : Env) (m : List (String × String)) : Prop :=
  (m.map Prod.fst).Nodup ∧
    ∀ e ∈ m, ∃ cacheDir, CacheDir env = .ok cacheDir ∧
      e.2 = cacheDir ++ "/" ++ GetCachedToothFileName e.1

/-! ## What the fetch loop can reach -/

/-- The manifest `m` belongs to an archive that a fetch of the specifier string
`canonical` can open in a run that starts in the world `w`: the archive is in
the cache under the name of that string, or the origin of a specifier with that
string delivers it. -/
def ArchiveOf (env : Env) (w : World) (canonical : String) (m : Metadata) : Prop :=
  (∃ cacheDir, CacheDir env = .ok cacheDir ∧
      w.files.lookup (cacheDir ++ "/" ++ GetCachedToothFileName canonical) = some (some m)) ∨
    ∃ specifier : Specifier, specifier.canonical = canonical ∧
      env.origin specifier = some (some m)

/-- The specifier `s` is one that resolving the dependency list `dependencies`
can push on the queue: for one of the dependencies, the index lists a version
that the range matches, and `specifiers.New` makes `s` of the tooth path and
that version. -/
def EnqueuedFrom (env : Env) (dependencies : List (String × VersionRange)) (s : Specifier) :
    Prop :=
  ∃ toothPath versionRange versionList version,
    (toothPath, versionRange) ∈ dependencies ∧
    env.FetchVersionList toothPath = .ok versionList ∧ version ∈ versionList ∧
    isAnyMatched env version versionRange = true ∧
    env.specifiersNew (toothPath ++ "@" ++ env.versionString version) = .ok s

/-- The finite list `reachable` of specifier strings is closed under
dependencies: whatever can be pushed on the queue while an archive of one of
its strings is resolved has its string in the list again. -/
def DependencyClosed (env : Env) (w : World) (reachable : List String) : Prop :=
  ∀ canonical ∈ reachable, ∀ m, ArchiveOf env w canonical m →
    ∀ s, EnqueuedFrom env m.Dependencies s → s.canonical ∈ reachable

/-- Every readable archive in the cache of `w1` under the name of a specifier
string is an archive of that string with respect to the world `w`. -/
def FilesInv (env : Env) (w w1 : World) : Prop :=
  ∀ cacheDir canonical m, CacheDir env = .ok cacheDir →
    w1.files.lookup (cacheDir ++ "/" ++ GetCachedToothFileName canonical) = some (some m) →
    ArchiveOf env w canonical m

/-- The invariant of the fetch loop in a run from the world `w` with the
specifier strings `reachable`: the strings of the queue and the keys of
`downloaded` are among them, no key occurs twice, and the cache holds only
archives of their strings. -/
def LoopInv (env : Env) (w : World) (reachable : List String) (st : FetchState) : Prop :=
  (∀ s ∈ st.specifiersToFetch, s.canonical ∈ reachable) ∧
    (∀ key ∈ st.downloadedToothFilePathMap.map Prod.fst, key ∈ reachable) ∧
    (st.downloadedToothFilePathMap.map Prod.fst).Nodup ∧
    FilesInv env w st.sys.world

/-! ## A small concrete environment -/

/-- The order on release versions by major, minor and patch number, used as
`versions.GreaterThan` in the examples. -/
def exampleGreaterThan (a b : Version) : Bool :=
  decide (a.major > b.major) ||
    (decide (a.major = b.major) &&
      (decide (a.minor > b.minor) ||
        (decide (a.minor = b.minor) && decide (a.patch > b.patch))))

/-- The seven operators on release versions, used as `VersionMatch.Match` in the
examples. -/
def exampleMatch (m : VersionMatch) (v : Version) : Bool :=
  match m.kind with
  | .equal => decide (v = m.version)
  | .notEqual => decide (v ≠ m.version)
  | .greater => exampleGreaterThan v m.version
  | .greaterOrEqual => exampleGreaterThan v m.version || decide (v = m.version)
  | .less => exampleGreaterThan m.version v
  | .lessOrEqual => exampleGreaterThan m.version v || decide (v = m.version)
  | .compatible =>
    decide (v.major = m.version.major) &&
      (exampleGreaterThan v m.version || decide (v = m.version))

/-- The release version with the given numbers. -/
def release (major minor patch : Nat) : Version :=
  { major := major, minor := minor, patch := patch, preRelease := none, build := none }

/-- The requirement specifier of a repository at a version, with its
canonical string. -/
def requirement (toothRepo : String) (canonical : String) : Specifier :=
  { kind := .RequirementKind, toothRepo := toothRepo, canonical := canonical }

/-- An environment given by tables: `repo` lists the specifiers that exist, each
with the manifest of the archive that its origin delivers, and `index` lists the
versions of each repository. The planner keeps the order of its input, nothing
fails to extract, and there is no terminal to answer prompts. -/
def exampleEnv (repo : List (Specifier × Metadata)) (index : List (String × List Version)) : Env where
  GreaterThan := exampleGreaterThan
  Match := exampleMatch
  versionString := fun v =>
    toString v.major ++ "." ++ toString v.minor ++ "." ++ toString v.patch
  specifiersNew := fun str =>
    match repo.find? fun e => e.1.canonical == str with
    | some e => .ok e.1
    | none => .error ("invalid specifier " ++ str)
  FetchVersionList := fun toothPath =>
    match index.lookup toothPath with
    | some versionList => .ok versionList
    | none => .error ("no such repository " ++ toothPath)
  origin := fun specifier => (repo.lookup specifier).map some
  GetRecordFileName := fun toothPath => toothPath ++ ".json"
  sortToothFiles := fun toothFileList => .ok toothFileList
  UserHomeDir := some "/home/u"
  Getwd := some "/work"
  interactive := false
  extractError := fun _ => none

/-- The flags of a plain `lip install -y`. -/
def plainFlags : FlagDict :=
  { helpFlag := false, upgradeFlag := false, forceReinstallFlag := false,
    yesFlag := true, numericProgressFlag := false, noDependenciesFlag := false }

/-- A manifest without dependencies. -/
def manifest (toothPath : String) (version : Version) (possession : List String) : Metadata :=
  { ToothPath := toothPath, Version := version, Dependencies := [], Possession := possession }

/-- The record of a manually installed tooth. -/
def recordOf (toothPath : String) (version : Version) (possession : List String) : Record :=
  { ToothPath := toothPath, Version := version, Possession := possession,
    IsManuallyInstalled := true }

/-! ## Example data: a repository `x.io/x` that is installed at version 2.0.0 -/

/-- The specifier `x.io/x@1.5.0`. -/
def x15 : Specifier := requirement "x.io/x" "x.io/x@1.5.0"

/-- The specifier `x.io/x@2.1.0`. -/
def x21 : Specifier := requirement "x.io/x" "x.io/x@2.1.0"

/-- The manifest of the archive of `x.io/x@1.5.0`. -/
def x15Manifest : Metadata := manifest "x.io/x" (release 1 5 0) ["x/"]

/-- The manifest of the archive of `x.io/x@2.1.0`, which owns one more path
than the older versions. -/
def x21Manifest : Metadata := manifest "x.io/x" (release 2 1 0) ["x/", "y/"]

/-- The environment in which `x.io/x` has the versions 2.1.0 and 1.5.0. -/
def xEnv : Env :=
  exampleEnv [(x15, x15Manifest), (x21, x21Manifest)] [("x.io/x", [release 2 1 0, release 1 5 0])]

/-- The world with an empty cache in which `x.io/x@2.0.0` is installed. -/
def xWorld : World :=
  { files := [], records := [recordOf "x.io/x" (release 2 0 0) ["x/"]] }

/-- The flags of `lip install --upgrade -y`. -/
def upgradeFlags : FlagDict := { plainFlags with upgradeFlag := true }

/-- The flags of `lip install --force-reinstall -y`. -/
def forceReinstallFlags : FlagDict := { plainFlags with forceReinstallFlag := true }

/-- The flags of `lip install --force-reinstall --upgrade -y`. -/
def bothFlags : FlagDict := { plainFlags with forceReinstallFlag := true, upgradeFlag := true }

/-- The cache path of the archive of `x.io/x@1.5.0`. -/
def x15Path : String := "/home/u/.lip/cache/eC5pby94QDEuNS4w.tt"

/-- The cache path of the archive of `x.io/x@2.1.0`. -/
def x21Path : String := "/home/u/.lip/cache/eC5pby94QDIuMS4w.tt"

/-! ## Example data: an application `example.com/app` that requires
`example.com/lib` at version 2.0.0 or later -/

/-- The specifier `example.com/app@1.0.0`. -/
def app : Specifier := requirement "example.com/app" "example.com/app@1.0.0"

/-- The specifier `example.com/lib@2.0.0`. -/
def lib2 : Specifier := requirement "example.com/lib" "example.com/lib@2.0.0"

/-- The range `>=2.0.0`. -/
def atLeast2 : VersionRange := [[{ kind := .greaterOrEqual, version := release 2 0 0 }]]

/-- The manifest of the archive of `example.com/app@1.0.0`. -/
def appManifest : Metadata :=
  { ToothPath := "example.com/app", Version := release 1 0 0,
    Dependencies := [("example.com/lib", atLeast2)], Possession := ["app/"] }

/-- The manifest of the archive of `example.com/lib@2.0.0`. -/
def lib2Manifest : Metadata := manifest "example.com/lib" (release 2 0 0) ["lib/"]

/-- The environment in which the index lists the versions 1.0.0, 2.0.0 and 3.0.0
of `example.com/lib`, in this order, and the archive of 2.0.0 can be fetched. -/
def libEnv : Env :=
  exampleEnv [(app, appManifest), (lib2, lib2Manifest)]
    [("example.com/lib", [release 1 0 0, release 2 0 0, release 3 0 0])]

/-- The world with an empty cache in which `example.com/lib@1.0.0` is installed. -/
def libWorld : World :=
  { files := [], records := [recordOf "example.com/lib" (release 1 0 0) ["lib/"]] }

/-- The world with an empty cache and an empty record store. -/
def emptyWorld : World := { files := [], records := [] }

/-- The cache path of the archive of `example.com/app@1.0.0`. -/
def appPath : String := "/home/u/.lip/cache/ZXhhbXBsZS5jb20vYXBwQDEuMC4w.tt"

/-- The cache path of the archive of `example.com/lib@2.0.0`. -/
def lib2Path : String := "/home/u/.lip/cache/ZXhhbXBsZS5jb20vbGliQDIuMC4w.tt"

/-- The state in which the fetch loop ends when `example.com/app` is requested,
once or twice, in an empty workspace: the application and the library were
fetched once each. -/
def appFetched : FetchState :=
  { sys :=
      { world :=
          { files := [(appPath, some appManifest), (lib2Path, some lib2Manifest)]
            records := [] }
        trace :=
          [Event.fetched "example.com/app@1.0.0" false appPath,
            Event.fetched "example.com/lib@2.0.0" false lib2Path] }
    specifiersToFetch := []
    downloadedToothFilePathMap := [(app.canonical, appPath), (lib2.canonical, lib2Path)] }

/-- The state in which `lip install example.com/app@1.0.0` ends in an empty
workspace: the application is installed as manual, the library as a
dependency. -/
def appInstalled : Sys :=
  { world :=
      { files := appFetched.sys.world.files
        records :=
          [{ ToothPath := "example.com/app", Version := release 1 0 0, Possession := ["app/"],
             IsManuallyInstalled := true },
            { ToothPath := "example.com/lib", Version := release 2 0 0, Possession := ["lib/"],
              IsManuallyInstalled := false }] }
    trace :=
      appFetched.sys.trace ++
        [Event.installed { filePath := appPath, metadata := appManifest } true,
          Event.installed { filePath := lib2Path, metadata := lib2Manifest } false] }

/-! ## Example data: a download whose body breaks off -/

/-- A network in which every GET is answered with status 200 and a body of
which two bytes arrive before the connection breaks; files can be created. -/
def brokenBodyNet : DownloadEnv :=
  { httpDo := fun _ =>
      .ok { StatusCode := 200, received := [80, 75], readError := some "unexpected EOF" }
    createError := fun _ => none }

/-! ## The URL-safe encoding of the specification -/

/-- The character code of the digit `n` of the URL-safe base64 alphabet
`A..Z a..z 0..9 - _` (RFC 4648, section 5). -/
def urlAlphabetCode (n : Nat) : Nat :=
  if n < 26 then 65 + n
  else if n < 52 then 97 + (n - 26)
  else if n < 62 then 48 + (n - 52)
  else if n = 62 then 45
  else 95

/-- The character codes of the URL-safe base64 encoding of a byte sequence, with
padding. -/
def urlEncodeCodes : List Nat → List Nat
  | [] => []
  | [a] => [urlAlphabetCode (a / 4), urlAlphabetCode (a % 4 * 16), 61, 61]
  | [a, b] =>
    [urlAlphabetCode (a / 4), urlAlphabetCode (a % 4 * 16 + b / 16),
      urlAlphabetCode (b % 16 * 4), 61]
  | a :: b :: c :: rest =>
    urlAlphabetCode (a / 4) :: urlAlphabetCode (a % 4 * 16 + b / 16) ::
      urlAlphabetCode (b % 16 * 4 + c / 64) :: urlAlphabetCode (c % 64) ::
      urlEncodeCodes rest

/-- The cache file name as the specification words it: the URL-safe base64
encoding of the canonical specifier string, followed by `.tt`. -/
def urlSafeCachedToothFileName (fullSpecifier : String) : String :=
  String.mk ((urlEncodeCodes (stringBytes fullSpecifier)).map Char.ofNat) ++ ".tt"

/-! ## Example data: two tooths that depend on each other -/

/-- The range `>=1.0.0`. -/
def atLeast1 : VersionRange := [[{ kind := .greaterOrEqual, version := release 1 0 0 }]]

/-- The specifier `c.io/a@1.0.0`. -/
def cycleA : Specifier := requirement "c.io/a" "c.io/a@1.0.0"

/-- The specifier `c.io/b@1.0.0`. -/
def cycleB : Specifier := requirement "c.io/b" "c.io/b@1.0.0"

/-- The manifest of `c.io/a@1.0.0`, which depends on `c.io/b`. -/
def cycleAManifest : Metadata :=
  { ToothPath := "c.io/a", Version := release 1 0 0,
    Dependencies := [("c.io/b", atLeast1)], Possession := ["a/"] }

/-- The manifest of `c.io/b@1.0.0`, which depends on `c.io/a`. -/
def cycleBManifest : Metadata :=
  { ToothPath := "c.io/b", Version := release 1 0 0,
    Dependencies := [("c.io/a", atLeast1)], Possession := ["b/"] }

/-- The environment with the two tooths, each in version 1.0.0. -/
def cycleEnv : Env :=
  exampleEnv [(cycleA, cycleAManifest), (cycleB, cycleBManifest)]
    [("c.io/a", [release 1 0 0]), ("c.io/b", [release 1 0 0])]

/-- The cache path of the archive of `c.io/a@1.0.0`. -/
def cycleAPath : String := "/home/u/.lip/cache/Yy5pby9hQDEuMC4w.tt"

/-- The cache path of the archive of `c.io/b@1.0.0`. -/
def cycleBPath : String := "/home/u/.lip/cache/Yy5pby9iQDEuMC4w.tt"

/-- The state in which the fetch loop ends on the root `c.io/a@1.0.0` in an empty
workspace: both archives were fetched once, and the second request for
`c.io/a@1.0.0`, which the dependency of `c.io/b` pushed, was dropped. -/
def cycleFetched : FetchState :=
  { sys :=
      { world :=
          { files := [(cycleAPath, some cycleAManifest), (cycleBPath, some cycleBManifest)]
            records := [] }
        trace :=
          [Event.fetched "c.io/a@1.0.0" false cycleAPath,
            Event.fetched "c.io/b@1.0.0" false cycleBPath] }
    specifiersToFetch := []
    downloadedToothFilePathMap :=
      [("c.io/a@1.0.0", cycleAPath), ("c.io/b@1.0.0", cycleBPath)] }

/-! ## Basic facts about the model -/

theorem toothrecordGet_of_installed (w : World) (toothPath : String)
    (h : IsToothInstalled w toothPath = true) :
    ∃ record, toothrecordGet w toothPath = .ok record ∧ record.ToothPath = toothPath ∧
      record ∈ w.records := by
  unfold IsToothInstalled at h
  unfold toothrecordGet
  cases hf : w.records.find? fun r => r.ToothPath == toothPath with
  | none =>
    rw [List.find?_eq_none] at hf
    rw [List.any_eq_true] at h
    obtain ⟨r, hr, hrt⟩ := h
    exact absurd hrt (hf r hr)
  | some record =>
    refine ⟨record, rfl, ?_, List.mem_of_find?_eq_some hf⟩
    have := List.find?_some hf
    simpa using this

theorem resolveDependency_ok {env : Env} {specifier : Specifier} {st st1 : FetchState}
    {toothPath : String} {versionRange : VersionRange}
    (h : resolveDependency env specifier st toothPath versionRange = .ok st1) :
    st1.sys = st.sys ∧ st1.downloadedToothFilePathMap = st.downloadedToothFilePathMap := by
  unfold resolveDependency at h
  split at h
  · cases h
  · split at h
    · split at h
      · cases h
      · split at h
        · cases h; exact ⟨rfl, rfl⟩
        · cases h
    · split at h
      · cases h
      · cases h
      · cases h; exact ⟨rfl, rfl⟩

theorem resolveDependency_exit {env : Env} {specifier : Specifier} {st : FetchState}
    {toothPath : String} {versionRange : VersionRange} {code : Nat} {failure : Failure}
    {sys : Sys}
    (h : resolveDependency env specifier st toothPath versionRange = .exit code failure sys) :
    sys = st.sys ∧ code = 1 := by
  unfold resolveDependency at h
  split at h
  · cases h; exact ⟨rfl, rfl⟩
  · split at h
    · split at h
      · cases h; exact ⟨rfl, rfl⟩
      · split at h
        · cases h
        · cases h; exact ⟨rfl, rfl⟩
    · split at h
      · cases h; exact ⟨rfl, rfl⟩
      · cases h; exact ⟨rfl, rfl⟩
      · cases h

theorem resolveDependencies_ok {env : Env} {specifier : Specifier}
    (dependencies : List (String × VersionRange)) {st st1 : FetchState}
    (h : resolveDependencies env specifier st dependencies = .ok st1) :
    st1.sys = st.sys ∧ st1.downloadedToothFilePathMap = st.downloadedToothFilePathMap := by
  induction dependencies generalizing st with
  | nil =>
    simp only [resolveDependencies, Outcome.ok.injEq] at h
    subst h
    exact ⟨rfl, rfl⟩
  | cons dependency rest ih =>
    obtain ⟨toothPath, versionRange⟩ := dependency
    simp only [resolveDependencies] at h
    split at h
    · cases h
    · rename_i st2 h2
      have h3 := resolveDependency_ok h2
      have h4 := ih h
      exact ⟨h4.1.trans h3.1, h4.2.trans h3.2⟩

theorem resolveDependencies_exit {env : Env} {specifier : Specifier}
    (dependencies : List (String × VersionRange)) {st : FetchState} {code : Nat}
    {failure : Failure} {sys : Sys}
    (h : resolveDependencies env specifier st dependencies = .exit code failure sys) :
    sys = st.sys ∧ code = 1 := by
  induction dependencies generalizing st with
  | nil => simp [resolveDependencies] at h
  | cons dependency rest ih =>
    obtain ⟨toothPath, versionRange⟩ := dependency
    simp only [resolveDependencies] at h
    split at h
    · rename_i h2
      cases h
      exact resolveDependency_exit h2
    · rename_i st2 h2
      have h3 := resolveDependency_ok h2
      have h4 := ih h
      exact ⟨h4.1.trans h3.1, h4.2⟩

theorem lookup_mapSet_self (m : List (String × String)) (key value : String)
    (h : m.lookup key = none) : (mapSet m key value).lookup key = some value := by
  unfold mapSet
  simp only [h, Option.isSome_none, Bool.false_eq_true, ↓reduceIte]
  induction m with
  | nil => simp [List.lookup]
  | cons e rest ih =>
    obtain ⟨k, v⟩ := e
    simp only [List.lookup] at h
    split at h
    · cases h
    · rename_i hk
      simp only [List.cons_append, List.lookup, hk]
      exact ih h

/-! ## C1: the policy for a tooth that is already installed -/

theorem fetchIteration_fetched (env : Env) (flagDict : FlagDict) (st : FetchState)
    (specifier : Specifier) (isCached : Bool) (path : String) (w : World) (toothFile : ToothFile)
    (hnew : st.downloadedToothFilePathMap.lookup specifier.canonical = none)
    (hget : getTooth env st.sys.world specifier = (.ok (isCached, path), w))
    (hopen : toothfileNew w path = .ok toothFile)
    (hvalid : specifier.kind = SpecifierKind.RequirementKind →
      toothFile.metadata.ToothPath = specifier.toothRepo) :
    fetchIteration env flagDict st specifier =
      match checkInstalled env flagDict
          { world := w
            trace := st.sys.trace ++ [Event.fetched specifier.canonical isCached path] }
          toothFile with
      | .exit code failure sys => .exit code failure sys
      | .ok false =>
        .ok { st with
          sys :=
            { world := w
              trace := st.sys.trace ++ [Event.fetched specifier.canonical isCached path] } }
      | .ok true =>
        if !flagDict.noDependenciesFlag then
          resolveDependencies env specifier
            { st with
              sys :=
                { world := w
                  trace := st.sys.trace ++ [Event.fetched specifier.canonical isCached path] }
              downloadedToothFilePathMap :=
                mapSet st.downloadedToothFilePathMap specifier.canonical path }
            toothFile.metadata.Dependencies
        else
          .ok { st with
            sys :=
              { world := w
                trace := st.sys.trace ++ [Event.fetched specifier.canonical isCached path] }
            downloadedToothFilePathMap :=
              mapSet st.downloadedToothFilePathMap specifier.canonical path } := by
  unfold fetchIteration
  simp only [hnew, Option.isSome_none, Bool.false_eq_true, ↓reduceIte, hget, hopen]
  have hv : ¬ (specifier.kind = SpecifierKind.RequirementKind ∧
      toothFile.metadata.ToothPath ≠ specifier.toothRepo) := fun h => h.2 (hvalid h.1)
  simp only [hv, ↓reduceIte]

theorem checkInstalled_skip (env : Env) (flagDict : FlagDict) (sys : Sys) (toothFile : ToothFile)
    (h : IsToothInstalled sys.world toothFile.metadata.ToothPath = true ∧
      flagDict.forceReinstallFlag = false ∧
      (flagDict.upgradeFlag = false ∨
        ∃ record, toothrecordGet sys.world toothFile.metadata.ToothPath = .ok record ∧
          (record.Version = toothFile.metadata.Version ∨
            env.GreaterThan record.Version toothFile.metadata.Version = true))) :
    checkInstalled env flagDict sys toothFile = .ok false := by
  obtain ⟨hinst, hforce, hup⟩ := h
  unfold checkInstalled
  simp only [hinst, hforce, ↓reduceIte, Bool.not_false, Bool.true_and]
  cases hu : flagDict.upgradeFlag with
  | false => simp
  | true =>
    rcases hup with hup | ⟨record, hrec, hver⟩
    · rw [hu] at hup; cases hup
    · simp only [Bool.not_true, Bool.false_eq_true, ↓reduceIte, hrec]
      rcases hver with hver | hver
      · simp [hver]
      · simp [hver]

theorem checkInstalled_proceed (env : Env) (flagDict : FlagDict) (sys : Sys)
    (toothFile : ToothFile)
    (h : ¬ (IsToothInstalled sys.world toothFile.metadata.ToothPath = true ∧
      flagDict.forceReinstallFlag = false ∧
      (flagDict.upgradeFlag = false ∨
        ∃ record, toothrecordGet sys.world toothFile.metadata.ToothPath = .ok record ∧
          (record.Version = toothFile.metadata.Version ∨
            env.GreaterThan record.Version toothFile.metadata.Version = true)))) :
    checkInstalled env flagDict sys toothFile = .ok true := by
  unfold checkInstalled
  cases hinst : IsToothInstalled sys.world toothFile.metadata.ToothPath with
  | false => simp
  | true =>
    obtain ⟨record, hrec, -, -⟩ := toothrecordGet_of_installed _ _ hinst
    cases hforce : flagDict.forceReinstallFlag with
    | true => cases hu : flagDict.upgradeFlag <;> simp
    | false =>
      cases hu : flagDict.upgradeFlag with
      | false => exact absurd ⟨hinst, hforce, Or.inl hu⟩ h
      | true =>
        simp only [↓reduceIte, Bool.not_false, Bool.not_true, Bool.and_self, Bool.false_eq_true,
          Bool.true_and, hrec]
        have hno : ¬ (record.Version = toothFile.metadata.Version ∨
            env.GreaterThan record.Version toothFile.metadata.Version = true) :=
          fun hv => h ⟨hinst, hforce, Or.inr ⟨record, hrec, hv⟩⟩
        rw [not_or] at hno
        simp [hno.1, hno.2]

/-- C1. Resolver policy for a tooth that is already installed. Take a specifier
that is not yet in `downloaded`, whose archive was fetched and opened, and
which passed the tooth path validation. Call it skipped by policy when its
tooth path has a record, `--force-reinstall` is not set, and either `--upgrade`
is not set or the recorded version is equal to or greater than the version of
the manifest. If it is skipped by policy the iteration ends with `downloaded`
unchanged and nothing resolved; otherwise (no record, or `--force-reinstall`,
or `--upgrade` with an older recorded version) the specifier is entered in
`downloaded` under the fetched path and the iteration goes on to resolve its
dependencies (unless `--no-dependencies` is set). Whenever the iteration
returns, the specifier is a key of `downloaded` exactly when it was not skipped
by policy. -/
theorem installed_policy (env : Env) (flagDict : FlagDict) (st : FetchState)
    (specifier : Specifier) (isCached : Bool) (path : String) (w : World) (toothFile : ToothFile)
    (hnew : st.downloadedToothFilePathMap.lookup specifier.canonical = none)
    (hget : getTooth env st.sys.world specifier = (.ok (isCached, path), w))
    (hopen : toothfileNew w path = .ok toothFile)
    (hvalid : specifier.kind = SpecifierKind.RequirementKind →
      toothFile.metadata.ToothPath = specifier.toothRepo) :
    let sys1 : Sys :=
      { world := w, trace := st.sys.trace ++ [Event.fetched specifier.canonical isCached path] }
    let st1 : FetchState :=
      { st with
        sys := sys1
        downloadedToothFilePathMap :=
          mapSet st.downloadedToothFilePathMap specifier.canonical path }
    let skipped : Prop :=
      IsToothInstalled w toothFile.metadata.ToothPath = true ∧
        flagDict.forceReinstallFlag = false ∧
        (flagDict.upgradeFlag = false ∨
          ∃ record, toothrecordGet w toothFile.metadata.ToothPath = .ok record ∧
            (record.Version = toothFile.metadata.Version ∨
              env.GreaterThan record.Version toothFile.metadata.Version = true))
    (skipped → fetchIteration env flagDict st specifier = .ok { st with sys := sys1 }) ∧
    (¬ skipped → fetchIteration env flagDict st specifier =
      if flagDict.noDependenciesFlag then .ok st1
      else resolveDependencies env specifier st1 toothFile.metadata.Dependencies) ∧
    (∀ st2, fetchIteration env flagDict st specifier = .ok st2 →
      (st2.downloadedToothFilePathMap.lookup specifier.canonical = some path ↔ ¬ skipped) ∧
      (st2.downloadedToothFilePathMap.lookup specifier.canonical = none ↔ skipped)) := by
  intro sys1 st1 skipped
  have hiter := fetchIteration_fetched env flagDict st specifier isCached path w toothFile
    hnew hget hopen hvalid
  have hskip : skipped → fetchIteration env flagDict st specifier = .ok { st with sys := sys1 } := by
    intro hs
    rw [hiter, checkInstalled_skip env flagDict sys1 toothFile hs]
  have hproceed : ¬ skipped → fetchIteration env flagDict st specifier =
      if flagDict.noDependenciesFlag then .ok st1
      else resolveDependencies env specifier st1 toothFile.metadata.Dependencies := by
    intro hs
    rw [hiter, checkInstalled_proceed env flagDict sys1 toothFile hs]
    cases flagDict.noDependenciesFlag <;> simp [st1, sys1]
  refine ⟨hskip, hproceed, ?_⟩
  intro st2 h2
  have hst1 : st1.downloadedToothFilePathMap.lookup specifier.canonical = some path :=
    lookup_mapSet_self _ _ _ hnew
  by_cases hs : skipped
  · rw [hskip hs] at h2
    cases h2
    simp only [hnew, reduceCtorEq, false_iff, not_not, true_iff]
    exact ⟨hs, hs⟩
  · rw [hproceed hs] at h2
    have hmap : st2.downloadedToothFilePathMap = st1.downloadedToothFilePathMap := by
      split at h2
      · cases h2; rfl
      · exact (resolveDependencies_ok _ h2).2
    rw [hmap, hst1]
    simp only [true_iff, reduceCtorEq, false_iff]
    exact ⟨hs, hs⟩

/-- Witness of C1: with `--upgrade` and `x.io/x@2.0.0` installed, the fetched
`x.io/x@1.5.0` is skipped by policy and `downloaded` stays empty. -/
theorem installed_policy_witness :
    fetchIteration xEnv upgradeFlags (initialState xWorld []) x15 =
      .ok { sys :=
              { world := { xWorld with files := [(x15Path, some x15Manifest)] }
                trace := [Event.fetched "x.io/x@1.5.0" false x15Path] }
            specifiersToFetch := []
            downloadedToothFilePathMap := [] } :=
  (installed_policy xEnv upgradeFlags (initialState xWorld []) x15 false x15Path
    { xWorld with files := [(x15Path, some x15Manifest)] }
    { filePath := x15Path, metadata := x15Manifest }
    (by decide) (by rfl) (by rfl) (by decide)).1
    ⟨by decide, by decide,
      Or.inr ⟨recordOf "x.io/x" (release 2 0 0) ["x/"], by rfl, Or.inr (by decide)⟩⟩

/-! ## C3, C4, C8: resolving one dependency -/

theorem isAllMatched_eq_all (env : Env) (version : Version) (clause : List VersionMatch) :
    isAllMatched env version clause = clause.all fun m => env.Match m version := by
  induction clause with
  | nil => rfl
  | cons m rest ih =>
    simp only [isAllMatched, List.all_cons, ih]
    cases env.Match m version <;> simp

theorem isAnyMatched_eq_any (env : Env) (version : Version) (versionRange : VersionRange) :
    isAnyMatched env version versionRange =
      versionRange.any fun clause => clause.all fun m => env.Match m version := by
  induction versionRange with
  | nil => rfl
  | cons clause rest ih =>
    simp only [isAnyMatched, List.any_cons, ih, isAllMatched_eq_all]
    cases (clause.all fun m => env.Match m version) <;> simp

theorem selectVersion_first (env : Env) (toothPath : String) (versionRange : VersionRange)
    (queue : List Specifier) (pre : List Version) (v : Version) (post : List Version)
    (hpre : ∀ u ∈ pre, isAnyMatched env u versionRange = false)
    (hv : isAnyMatched env v versionRange = true) :
    selectVersion env toothPath versionRange queue (pre ++ v :: post) =
      match env.specifiersNew (toothPath ++ "@" ++ env.versionString v) with
      | .error err => .error err
      | .ok specifier => .ok (some (queue ++ [specifier])) := by
  induction pre with
  | nil => simp [selectVersion, hv]
  | cons u rest ih =>
    have hu := hpre u (List.mem_cons_self _ _)
    simp only [List.cons_append, selectVersion, hu, Bool.false_eq_true, ↓reduceIte]
    exact ih fun x hx => hpre x (List.mem_cons_of_mem _ hx)

theorem selectVersion_none (env : Env) (toothPath : String) (versionRange : VersionRange)
    (queue : List Specifier) (versionList : List Version) :
    selectVersion env toothPath versionRange queue versionList = .ok none ↔
      ∀ v ∈ versionList, isAnyMatched env v versionRange = false := by
  induction versionList with
  | nil => simp [selectVersion]
  | cons u rest ih =>
    simp only [selectVersion, List.mem_cons, forall_eq_or_imp]
    cases hu : isAnyMatched env u versionRange with
    | false => simpa using ih
    | true =>
      simp only [↓reduceIte, Bool.true_eq_false, false_and, iff_false]
      cases env.specifiersNew (toothPath ++ "@" ++ env.versionString u) <;> simp

/-- C3. First-match version selection. For a dependency that is not installed and
whose index query returned `versionList`, with `range.match(v)` read as
any clause of the range of which all atoms match `v`: if `v` is the first
element of `versionList` that the range matches (no element before it
matches) and `specifiers.New` accepts the string of the tooth path, an at sign
and `v`, then resolving the dependency returns with exactly that one specifier
added at the back of the queue and nothing else changed, whatever follows `v`
in the list; if no element matches, the run exits with code 1 and
`NoMatchingVersion` in an unchanged state; and `NoMatchingVersion` is never
the failure when some element matches. -/
theorem first_match_selection (env : Env) (specifier : Specifier) (st : FetchState)
    (toothPath : String) (versionRange : VersionRange) (versionList : List Version)
    (hindex : env.FetchVersionList toothPath = .ok versionList)
    (hnot : IsToothInstalled st.sys.world toothPath = false) :
    (∀ pre v post newSpecifier, versionList = pre ++ v :: post →
      (∀ u ∈ pre, (versionRange.any fun clause => clause.all fun m => env.Match m u) = false) →
      (versionRange.any fun clause => clause.all fun m => env.Match m v) = true →
      env.specifiersNew (toothPath ++ "@" ++ env.versionString v) = .ok newSpecifier →
      resolveDependency env specifier st toothPath versionRange =
        .ok { st with specifiersToFetch := st.specifiersToFetch ++ [newSpecifier] }) ∧
    ((∀ v ∈ versionList,
        (versionRange.any fun clause => clause.all fun m => env.Match m v) = false) →
      resolveDependency env specifier st toothPath versionRange =
        .exit 1 (.NoMatchingVersion toothPath specifier.canonical) st.sys) ∧
    (∀ code a b sys,
      resolveDependency env specifier st toothPath versionRange =
        .exit code (.NoMatchingVersion a b) sys →
      ∀ v ∈ versionList,
        (versionRange.any fun clause => clause.all fun m => env.Match m v) = false) := by
  have hunfold : resolveDependency env specifier st toothPath versionRange =
      match selectVersion env toothPath versionRange st.specifiersToFetch versionList with
      | .error err => .exit 1 (.InvalidSpecifier err) st.sys
      | .ok none => .exit 1 (.NoMatchingVersion toothPath specifier.canonical) st.sys
      | .ok (some queue) => .ok { st with specifiersToFetch := queue } := by
    unfold resolveDependency
    simp only [hindex, hnot, Bool.false_eq_true, ↓reduceIte]
  refine ⟨?_, ?_, ?_⟩
  · intro pre v post newSpecifier hlist hpre hv hnew
    simp only [← isAnyMatched_eq_any] at hpre hv
    rw [hunfold, hlist, selectVersion_first env toothPath versionRange _ pre v post hpre hv, hnew]
  · intro hnone
    simp only [← isAnyMatched_eq_any] at hnone
    rw [hunfold, (selectVersion_none env toothPath versionRange _ versionList).2 hnone]
  · intro code a b sys hexit
    simp only [← isAnyMatched_eq_any]
    rw [← selectVersion_none env toothPath versionRange st.specifiersToFetch versionList]
    rw [hunfold] at hexit
    split at hexit
    · cases hexit
    · assumption
    · cases hexit

theorem resolveDependency_installed (env : Env) (specifier : Specifier) (st : FetchState)
    (toothPath : String) (versionRange : VersionRange) (versionList : List Version)
    (hindex : env.FetchVersionList toothPath = .ok versionList)
    (hinst : IsToothInstalled st.sys.world toothPath = true) :
    ∃ record, toothrecordGet st.sys.world toothPath = .ok record ∧
      record.ToothPath = toothPath ∧ record ∈ st.sys.world.records ∧
      ((versionRange.any fun clause => clause.all fun m => env.Match m record.Version) = true →
        resolveDependency env specifier st toothPath versionRange = .ok st) ∧
      ((versionRange.any fun clause => clause.all fun m => env.Match m record.Version) = false →
        resolveDependency env specifier st toothPath versionRange =
          .exit 1 (.UnsatisfiedInstalledDependency toothPath specifier.canonical) st.sys) := by
  obtain ⟨record, hrec, hpath, hmem⟩ := toothrecordGet_of_installed _ _ hinst
  refine ⟨record, hrec, hpath, hmem, ?_, ?_⟩
  · intro hm
    rw [← isAnyMatched_eq_any] at hm
    unfold resolveDependency
    simp only [hindex, hinst, ↓reduceIte, hrec, hm]
  · intro hm
    rw [← isAnyMatched_eq_any] at hm
    unfold resolveDependency
    simp only [hindex, hinst, ↓reduceIte, hrec, hm, Bool.false_eq_true]

/-! ## The fetch loop only fetches -/

theorem FetchOnly_refl (s : Sys) : FetchOnly s s :=
  ⟨rfl, [], by simp, by simp⟩

theorem FetchOnly_trans {s0 s1 s2 : Sys} (h1 : FetchOnly s0 s1) (h2 : FetchOnly s1 s2) :
    FetchOnly s0 s2 := by
  obtain ⟨hr1, t1, ht1, he1⟩ := h1
  obtain ⟨hr2, t2, ht2, he2⟩ := h2
  refine ⟨hr2.trans hr1, t1 ++ t2, by rw [ht2, ht1, List.append_assoc], ?_⟩
  intro e he
  rcases List.mem_append.1 he with h | h
  · exact he1 e h
  · exact he2 e h

theorem getTooth_records (env : Env) (w : World) (specifier : Specifier) :
    (getTooth env w specifier).2.records = w.records := by
  unfold getTooth
  cases CacheDir env with
  | error err => rfl
  | ok cacheDir =>
    simp only
    cases hl : w.files.lookup (cacheDir ++ "/" ++ GetCachedToothFileName specifier.canonical) with
    | none => cases env.origin specifier <;> rfl
    | some content =>
      cases content with
      | none => cases env.origin specifier <;> rfl
      | some metadata => rfl

theorem checkInstalled_exit {env : Env} {flagDict : FlagDict} {sys sys1 : Sys}
    {toothFile : ToothFile} {code : Nat} {failure : Failure}
    (h : checkInstalled env flagDict sys toothFile = .exit code failure sys1) :
    sys1 = sys ∧ code = 1 ∧ failure.isFetchFailure = true := by
  unfold checkInstalled at h
  split at h
  · split at h
    · cases h
    · split at h
      · split at h
        · cases h; exact ⟨rfl, rfl, rfl⟩
        · split at h
          · cases h
          · split at h <;> cases h
      · split at h
        · cases h
        · split at h <;> cases h
  · cases h

theorem resolveDependency_failure {env : Env} {specifier : Specifier} {st : FetchState}
    {toothPath : String} {versionRange : VersionRange} {code : Nat} {failure : Failure}
    {sys : Sys}
    (h : resolveDependency env specifier st toothPath versionRange = .exit code failure sys) :
    failure.isFetchFailure = true := by
  unfold resolveDependency at h
  split at h
  · cases h; rfl
  · split at h
    · split at h
      · cases h; rfl
      · split at h
        · cases h
        · cases h; rfl
    · split at h
      · cases h; rfl
      · cases h; rfl
      · cases h

theorem resolveDependencies_failure {env : Env} {specifier : Specifier}
    (dependencies : List (String × VersionRange)) {st : FetchState} {code : Nat}
    {failure : Failure} {sys : Sys}
    (h : resolveDependencies env specifier st dependencies = .exit code failure sys) :
    failure.isFetchFailure = true := by
  induction dependencies generalizing st with
  | nil => simp [resolveDependencies] at h
  | cons dependency rest ih =>
    obtain ⟨toothPath, versionRange⟩ := dependency
    simp only [resolveDependencies] at h
    split at h
    · rename_i h2
      cases h
      exact resolveDependency_failure h2
    · exact ih h

theorem fetchIteration_dropped (env : Env) (flagDict : FlagDict) (st : FetchState)
    (specifier : Specifier)
    (h : (st.downloadedToothFilePathMap.lookup specifier.canonical).isSome = true) :
    fetchIteration env flagDict st specifier = .ok st := by
  unfold fetchIteration
  simp only [h, ↓reduceIte]

theorem fetchIteration_fetchFailed (env : Env) (flagDict : FlagDict) (st : FetchState)
    (specifier : Specifier) (err : String) (w : World)
    (hnew : st.downloadedToothFilePathMap.lookup specifier.canonical = none)
    (hget : getTooth env st.sys.world specifier = (.error err, w)) :
    fetchIteration env flagDict st specifier =
      .exit 1 (.FetchFailed err) { st.sys with world := w } := by
  unfold fetchIteration
  simp only [hnew, Option.isSome_none, Bool.false_eq_true, ↓reduceIte, hget]

theorem fetchIteration_corrupt (env : Env) (flagDict : FlagDict) (st : FetchState)
    (specifier : Specifier) (isCached : Bool) (path : String) (w : World) (err : String)
    (hnew : st.downloadedToothFilePathMap.lookup specifier.canonical = none)
    (hget : getTooth env st.sys.world specifier = (.ok (isCached, path), w))
    (hopen : toothfileNew w path = .error err) :
    fetchIteration env flagDict st specifier =
      .exit 1 (.CorruptArchive err)
        { world := w
          trace := st.sys.trace ++ [Event.fetched specifier.canonical isCached path] } := by
  unfold fetchIteration
  simp only [hnew, Option.isSome_none, Bool.false_eq_true, ↓reduceIte, hget, hopen]

theorem fetchIteration_mismatch (env : Env) (flagDict : FlagDict) (st : FetchState)
    (specifier : Specifier) (isCached : Bool) (path : String) (w : World) (toothFile : ToothFile)
    (hnew : st.downloadedToothFilePathMap.lookup specifier.canonical = none)
    (hget : getTooth env st.sys.world specifier = (.ok (isCached, path), w))
    (hopen : toothfileNew w path = .ok toothFile)
    (hbad : specifier.kind = SpecifierKind.RequirementKind ∧
      toothFile.metadata.ToothPath ≠ specifier.toothRepo) :
    fetchIteration env flagDict st specifier =
      .exit 1 .ToothPathMismatch
        { world := osRemove w path
          trace := st.sys.trace ++
            [Event.fetched specifier.canonical isCached path] ++ [Event.removed path] } := by
  unfold fetchIteration
  simp only [hnew, Option.isSome_none, Bool.false_eq_true, ↓reduceIte, hget, hopen, hbad,
    ne_eq, not_false_eq_true, and_self]

theorem fetchIteration_fetchOnly {env : Env} {flagDict : FlagDict} {st : FetchState}
    {specifier : Specifier} {out : Outcome FetchState}
    (h : fetchIteration env flagDict st specifier = out) :
    FetchOnly st.sys out.fetchSys ∧
      ∀ code failure sys, out = .exit code failure sys →
        code = 1 ∧ failure.isFetchFailure = true := by
  subst h
  cases hnew : st.downloadedToothFilePathMap.lookup specifier.canonical with
  | some p =>
    rw [fetchIteration_dropped env flagDict st specifier (by simp [hnew])]
    exact ⟨FetchOnly_refl _, fun _ _ _ h => by cases h⟩
  | none =>
    have hrec := getTooth_records env st.sys.world specifier
    rcases hget : getTooth env st.sys.world specifier with ⟨res, w⟩
    rw [hget] at hrec
    simp only at hrec
    cases res with
    | error err =>
      rw [fetchIteration_fetchFailed env flagDict st specifier err w hnew hget]
      refine ⟨⟨hrec, [], by simp [Outcome.fetchSys], by simp⟩, ?_⟩
      intro code failure sys h
      cases h
      exact ⟨rfl, rfl⟩
    | ok res =>
      obtain ⟨isCached, path⟩ := res
      have hsys1 : FetchOnly st.sys
          { world := w
            trace := st.sys.trace ++ [Event.fetched specifier.canonical isCached path] } :=
        ⟨hrec, [Event.fetched specifier.canonical isCached path], rfl, by simp [Event.isFetch]⟩
      cases hopen : toothfileNew w path with
      | error err =>
        rw [fetchIteration_corrupt env flagDict st specifier isCached path w err hnew hget hopen]
        refine ⟨hsys1, ?_⟩
        intro code failure sys h
        cases h
        exact ⟨rfl, rfl⟩
      | ok toothFile =>
        by_cases hbad : specifier.kind = SpecifierKind.RequirementKind ∧
            toothFile.metadata.ToothPath ≠ specifier.toothRepo
        · rw [fetchIteration_mismatch env flagDict st specifier isCached path w toothFile
            hnew hget hopen hbad]
          refine ⟨⟨?_, [Event.fetched specifier.canonical isCached path, Event.removed path],
            by simp [Outcome.fetchSys], by simp [Event.isFetch]⟩, ?_⟩
          · simpa [Outcome.fetchSys, osRemove] using hrec
          · intro code failure sys h
            cases h
            exact ⟨rfl, rfl⟩
        · rw [fetchIteration_fetched env flagDict st specifier isCached path w toothFile
            hnew hget hopen (fun hk => by_contra fun hne => hbad ⟨hk, hne⟩)]
          cases hcheck : checkInstalled env flagDict
              { world := w
                trace := st.sys.trace ++ [Event.fetched specifier.canonical isCached path] }
              toothFile with
          | exit code failure sys =>
            obtain ⟨h1, h2, h3⟩ := checkInstalled_exit hcheck
            subst h1
            refine ⟨hsys1, ?_⟩
            intro code1 failure1 sys1 h
            cases h
            exact ⟨h2, h3⟩
          | ok proceed =>
            cases proceed with
            | false => exact ⟨hsys1, fun _ _ _ h => by cases h⟩
            | true =>
              simp only
              split
              · cases hres : resolveDependencies env specifier
                    { st with
                      sys :=
                        { world := w
                          trace := st.sys.trace ++
                            [Event.fetched specifier.canonical isCached path] }
                      downloadedToothFilePathMap :=
                        mapSet st.downloadedToothFilePathMap specifier.canonical path }
                    toothFile.metadata.Dependencies with
                | ok st2 =>
                  have h2 := (resolveDependencies_ok _ hres).1
                  refine ⟨?_, fun _ _ _ h => by cases h⟩
                  simp only [Outcome.fetchSys, h2]
                  exact hsys1
                | exit code failure sys =>
                  have h2 := resolveDependencies_exit _ hres
                  have h3 := resolveDependencies_failure _ hres
                  refine ⟨?_, ?_⟩
                  · simp only [Outcome.fetchSys, h2.1]
                    exact hsys1
                  · intro code1 failure1 sys1 h
                    cases h
                    exact ⟨h2.2, h3⟩
              · exact ⟨hsys1, fun _ _ _ h => by cases h⟩

theorem fetchLoop_fetchOnly {env : Env} {flagDict : FlagDict} (fuel : Nat) {st : FetchState}
    {out : Outcome FetchState} (h : fetchLoop env flagDict fuel st = some out) :
    FetchOnly st.sys out.fetchSys ∧
      ∀ code failure sys, out = .exit code failure sys →
        code = 1 ∧ failure.isFetchFailure = true := by
  induction fuel generalizing st with
  | zero =>
    unfold fetchLoop at h
    split at h
    · cases h
      exact ⟨FetchOnly_refl _, fun _ _ _ h => by cases h⟩
    · cases h
  | succ fuel ih =>
    unfold fetchLoop at h
    split at h
    · cases h
      exact ⟨FetchOnly_refl _, fun _ _ _ h => by cases h⟩
    · rename_i specifier rest hq
      simp only at h
      split at h
      · rename_i code failure sys hiter
        cases h
        have h1 := fetchIteration_fetchOnly hiter
        exact h1
      · rename_i st1 hiter
        have h0 := fetchIteration_fetchOnly hiter
        have h1 : FetchOnly st.sys st1.sys := h0.1
        have h2 := ih h
        exact ⟨FetchOnly_trans h1 h2.1, h2.2⟩

/-! ## The parts after the fetch loop -/

theorem UninstallOnly_refl (s : Sys) : UninstallOnly s s :=
  ⟨rfl, [], by simp, by simp⟩

theorem UninstallOnly_trans {s0 s1 s2 : Sys} (h1 : UninstallOnly s0 s1)
    (h2 : UninstallOnly s1 s2) : UninstallOnly s0 s2 := by
  obtain ⟨hr1, t1, ht1, he1⟩ := h1
  obtain ⟨hr2, t2, ht2, he2⟩ := h2
  refine ⟨hr2.trans hr1, t1 ++ t2, by rw [ht2, ht1, List.append_assoc], ?_⟩
  intro e he
  rcases List.mem_append.1 he with h | h
  · exact he1 e h
  · exact he2 e h

theorem InstallOnly_refl (s : Sys) : InstallOnly s s :=
  ⟨rfl, [], by simp, by simp⟩

theorem InstallOnly_trans {s0 s1 s2 : Sys} (h1 : InstallOnly s0 s1)
    (h2 : InstallOnly s1 s2) : InstallOnly s0 s2 := by
  obtain ⟨hr1, t1, ht1, he1⟩ := h1
  obtain ⟨hr2, t2, ht2, he2⟩ := h2
  refine ⟨hr2.trans hr1, t1 ++ t2, by rw [ht2, ht1, List.append_assoc], ?_⟩
  intro e he
  rcases List.mem_append.1 he with h | h
  · exact he1 e h
  · exact he2 e h

theorem Uninstall_ok {env : Env} {sys sys1 : Sys} {recordFileName : String}
    {possessionList : List String} {yesFlag : Bool}
    (h : Uninstall env sys recordFileName possessionList yesFlag = .ok sys1) :
    sys1.world.files = sys.world.files ∧
      sys1.trace = sys.trace ++ [Event.uninstalled recordFileName possessionList] ∧
      sys1.world.records =
        sys.world.records.filter fun r => env.GetRecordFileName r.ToothPath != recordFileName := by
  unfold Uninstall at h
  split at h
  · cases h
  · cases h
    exact ⟨rfl, rfl, rfl⟩

theorem prePassIteration_cases {env : Env} {flagDict : FlagDict}
    {downloaded : List (String × String)} {sys : Sys} {specifier : Specifier}
    {out : Outcome Sys} (hout : prePassIteration env flagDict downloaded sys specifier = out) :
    out = .ok sys ∨
    (∃ failure, failure.isAfterFetchFailure = true ∧ failure ≠ .ConflictingFlags ∧
      out = .exit 1 failure sys) ∨
    (∃ path toothFile toothRecord sys1,
      specifier.kind = SpecifierKind.RequirementKind ∧
      downloaded.lookup specifier.canonical = some path ∧
      toothfileNew sys.world path = .ok toothFile ∧
      IsToothInstalled sys.world toothFile.metadata.ToothPath = true ∧
      toothrecordGet sys.world toothFile.metadata.ToothPath = .ok toothRecord ∧
      (flagDict.forceReinstallFlag = true ∨
        env.GreaterThan toothFile.metadata.Version toothRecord.Version = true) ∧
      Uninstall env sys (env.GetRecordFileName toothFile.metadata.ToothPath)
        toothFile.metadata.Possession flagDict.yesFlag = .ok sys1 ∧
      out = .ok sys1) := by
  unfold prePassIteration at hout
  by_cases hk : specifier.kind ≠ SpecifierKind.RequirementKind
  · rw [if_pos hk] at hout
    exact Or.inl hout.symm
  · rw [if_neg hk] at hout
    cases hl : downloaded.lookup specifier.canonical with
    | none =>
      simp only [hl] at hout
      exact Or.inl hout.symm
    | some path =>
      simp only [hl] at hout
      cases hopen : toothfileNew sys.world path with
      | error err =>
        simp only [hopen] at hout
        exact Or.inr (Or.inl ⟨.CorruptArchive err, rfl, by simp, hout.symm⟩)
      | ok toothFile =>
        simp only [hopen] at hout
        cases hinst : IsToothInstalled sys.world toothFile.metadata.ToothPath with
        | false =>
          simp only [hinst, Bool.not_false, ↓reduceIte] at hout
          exact Or.inl hout.symm
        | true =>
          simp only [hinst, Bool.not_true, Bool.false_eq_true, ↓reduceIte] at hout
          cases hdir : RecordDir env with
          | error err =>
            simp only [hdir] at hout
            exact Or.inr (Or.inl ⟨.FileError err, rfl, by simp, hout.symm⟩)
          | ok recordDir =>
            simp only [hdir] at hout
            cases hrec : toothrecordGet sys.world toothFile.metadata.ToothPath with
            | error err =>
              simp only [hrec] at hout
              exact Or.inr (Or.inl ⟨.RecordCorrupt err, rfl, by simp, hout.symm⟩)
            | ok toothRecord =>
              simp only [hrec] at hout
              by_cases hcond : (!flagDict.forceReinstallFlag &&
                  !env.GreaterThan toothFile.metadata.Version toothRecord.Version) = true
              · rw [if_pos hcond] at hout
                exact Or.inl hout.symm
              · rw [if_neg hcond] at hout
                cases hun : Uninstall env sys (env.GetRecordFileName toothFile.metadata.ToothPath)
                    toothFile.metadata.Possession flagDict.yesFlag with
                | error err =>
                  simp only [hun] at hout
                  exact Or.inr (Or.inl ⟨.ConfirmationRequired err, rfl, by simp, hout.symm⟩)
                | ok sys1 =>
                  simp only [hun] at hout
                  refine Or.inr (Or.inr ⟨path, toothFile, toothRecord, sys1,
                    by simpa using hk, rfl, hopen, hinst, hrec, ?_, hun, hout.symm⟩)
                  cases hf : flagDict.forceReinstallFlag with
                  | true => exact Or.inl rfl
                  | false =>
                    right
                    simpa [hf] using hcond

theorem prePassIteration_uninstallOnly {env : Env} {flagDict : FlagDict}
    {downloaded : List (String × String)} {sys : Sys} {specifier : Specifier}
    {out : Outcome Sys} (h : prePassIteration env flagDict downloaded sys specifier = out) :
    UninstallOnly sys out.finalSys ∧
      ∀ code failure sys1, out = .exit code failure sys1 →
        code = 1 ∧ failure.isAfterFetchFailure = true := by
  rcases prePassIteration_cases h with
    h | ⟨failure, hf, -, h⟩ | ⟨path, toothFile, toothRecord, sys1, -, -, -, -, -, -, hun, h⟩
  · rw [h]
    exact ⟨UninstallOnly_refl _, fun _ _ _ h => by cases h⟩
  · rw [h]
    refine ⟨UninstallOnly_refl _, ?_⟩
    intro code failure1 sys1 h1
    cases h1
    exact ⟨rfl, hf⟩
  · rw [h]
    obtain ⟨h1, h2, -⟩ := Uninstall_ok hun
    exact ⟨⟨h1, _, h2, by simp [Event.isUninstall]⟩, fun _ _ _ h => by cases h⟩

theorem prePassLoop_uninstallOnly {env : Env} {flagDict : FlagDict}
    {downloaded : List (String × String)} (specifiers : List Specifier) {sys : Sys}
    {out : Outcome Sys} (h : prePassLoop env flagDict downloaded sys specifiers = out) :
    UninstallOnly sys out.finalSys ∧
      ∀ code failure sys1, out = .exit code failure sys1 →
        code = 1 ∧ failure.isAfterFetchFailure = true := by
  induction specifiers generalizing sys with
  | nil =>
    simp only [prePassLoop] at h
    subst h
    exact ⟨UninstallOnly_refl _, fun _ _ _ h => by cases h⟩
  | cons specifier rest ih =>
    simp only [prePassLoop] at h
    split at h
    · rename_i code failure sys1 hiter
      subst h
      exact prePassIteration_uninstallOnly hiter
    · rename_i sys1 hiter
      have h1 : UninstallOnly sys sys1 := (prePassIteration_uninstallOnly hiter).1
      have h2 := ih h
      exact ⟨UninstallOnly_trans h1 h2.1, h2.2⟩

theorem prePass_uninstallOnly {env : Env} {flagDict : FlagDict} {roots : List Specifier}
    {downloaded : List (String × String)} {sys : Sys} {out : Outcome Sys}
    (h : prePass env flagDict roots downloaded sys = out) :
    UninstallOnly sys out.finalSys ∧
      ∀ code failure sys1, out = .exit code failure sys1 →
        code = 1 ∧ failure.isAfterFetchFailure = true := by
  unfold prePass at h
  split at h
  · split at h
    · subst h
      refine ⟨UninstallOnly_refl _, ?_⟩
      intro code failure sys1 h1
      cases h1
      exact ⟨rfl, rfl⟩
    · exact prePassLoop_uninstallOnly _ h
  · subst h
    exact ⟨UninstallOnly_refl _, fun _ _ _ h => by cases h⟩

theorem collectToothFiles_exit {roots : List Specifier} {sys : Sys}
    (downloaded : List (String × String)) {toothFiles : List ToothFile} {manual : List String}
    {code : Nat} {failure : Failure} {sys1 : Sys}
    (h : collectToothFiles roots sys downloaded toothFiles manual = .exit code failure sys1) :
    sys1 = sys ∧ code = 1 ∧ failure.isAfterFetchFailure = true := by
  induction downloaded generalizing toothFiles manual with
  | nil => simp [collectToothFiles] at h
  | cons entry rest ih =>
    obtain ⟨specifierString, path⟩ := entry
    simp only [collectToothFiles] at h
    split at h
    · cases h
      exact ⟨rfl, rfl, rfl⟩
    · exact ih h

theorem install_ok {env : Env} {sys sys1 : Sys} {toothFile : ToothFile} {manual yes : Bool}
    (h : install env sys toothFile manual yes = .ok sys1) :
    sys1.world.files = sys.world.files ∧
      sys1.trace = sys.trace ++ [Event.installed toothFile manual] := by
  unfold install at h
  split at h
  · cases h
  · cases h
    exact ⟨rfl, rfl⟩

theorem installLoop_installOnly {env : Env} {flagDict : FlagDict} {manual : List String}
    (toothFiles : List ToothFile) {sys : Sys} {out : Outcome Sys}
    (h : installLoop env flagDict manual sys toothFiles = out) :
    InstallOnly sys out.finalSys ∧
      ∀ code failure sys1, out = .exit code failure sys1 →
        code = 1 ∧ failure.isAfterFetchFailure = true := by
  induction toothFiles generalizing sys with
  | nil =>
    simp only [installLoop] at h
    subst h
    exact ⟨InstallOnly_refl _, fun _ _ _ h => by cases h⟩
  | cons toothFile rest ih =>
    simp only [installLoop] at h
    split at h
    · exact ih h
    · split at h
      · subst h
        refine ⟨InstallOnly_refl _, ?_⟩
        intro code failure sys1 h1
        cases h1
        exact ⟨rfl, rfl⟩
      · rename_i sys1 hinst
        obtain ⟨h1, h2⟩ := install_ok hinst
        have h3 := ih h
        exact ⟨InstallOnly_trans ⟨h1, _, h2, by simp [Event.isInstall]⟩ h3.1, h3.2⟩

theorem mainPass_installOnly {env : Env} {flagDict : FlagDict} {roots : List Specifier}
    {downloaded : List (String × String)} {sys : Sys} {out : Outcome Sys}
    (h : mainPass env flagDict roots downloaded sys = out) :
    InstallOnly sys out.finalSys ∧
      ∀ code failure sys1, out = .exit code failure sys1 →
        code = 1 ∧ failure.isAfterFetchFailure = true := by
  unfold mainPass at h
  split at h
  · rename_i code failure sys1 hcollect
    obtain ⟨h1, h2, h3⟩ := collectToothFiles_exit _ hcollect
    subst h h1
    refine ⟨InstallOnly_refl _, ?_⟩
    intro code1 failure1 sys2 h4
    cases h4
    exact ⟨h2, h3⟩
  · split at h
    · subst h
      refine ⟨InstallOnly_refl _, ?_⟩
      intro code failure sys1 h1
      cases h1
      exact ⟨rfl, rfl⟩
    · exact installLoop_installOnly _ h

theorem afterFetch_phases {env : Env} {flagDict : FlagDict} {roots : List Specifier}
    {st : FetchState} {out : Outcome Sys} (h : afterFetch env flagDict roots st = out) :
    (∃ mid, UninstallOnly st.sys mid ∧ InstallOnly mid out.finalSys) ∧
      ∀ code failure sys1, out = .exit code failure sys1 →
        code = 1 ∧ failure.isAfterFetchFailure = true := by
  unfold afterFetch at h
  split at h
  · rename_i code failure sys hpre
    subst h
    have h1 := prePass_uninstallOnly hpre
    exact ⟨⟨sys, h1.1, InstallOnly_refl _⟩, h1.2⟩
  · rename_i sys1 hpre
    have h1 := prePass_uninstallOnly hpre
    have h2 := mainPass_installOnly h
    exact ⟨⟨sys1, h1.1, h2.1⟩, h2.2⟩

theorem Run_cases {env : Env} {flagDict : FlagDict} {args : List String} {fuel : Nat}
    {w : World} {out : Outcome Sys} (h : Run env flagDict args fuel w = some out) :
    (flagDict.helpFlag = true ∧ out = .ok { world := w, trace := [] }) ∨
    (flagDict.helpFlag = false ∧ args = [] ∧
      out = .exit 1 .TooFewArguments { world := w, trace := [] }) ∨
    (flagDict.helpFlag = false ∧ args ≠ [] ∧ ∃ err, validateSpecifiers env args = .error err ∧
      out = .exit 1 (.InvalidSpecifier err) { world := w, trace := [] }) ∨
    (flagDict.helpFlag = false ∧ args ≠ [] ∧ ∃ roots, validateSpecifiers env args = .ok roots ∧
      ((∃ code failure sys,
          fetchLoop env flagDict fuel
            { sys := { world := w, trace := [] }, specifiersToFetch := roots,
              downloadedToothFilePathMap := [] } = some (.exit code failure sys) ∧
          out = .exit code failure sys) ∨
        (∃ st,
          fetchLoop env flagDict fuel
            { sys := { world := w, trace := [] }, specifiersToFetch := roots,
              downloadedToothFilePathMap := [] } = some (.ok st) ∧
          out = afterFetch env flagDict roots st))) := by
  unfold Run at h
  cases hhelp : flagDict.helpFlag with
  | true =>
    simp only [hhelp, ↓reduceIte, Option.some.injEq] at h
    exact Or.inl ⟨rfl, h.symm⟩
  | false =>
    simp only [hhelp, Bool.false_eq_true, ↓reduceIte] at h
    by_cases hargs : args.length = 0
    · simp only [hargs, ↓reduceIte, Option.some.injEq] at h
      exact Or.inr (Or.inl ⟨rfl, List.length_eq_zero.1 hargs, h.symm⟩)
    · rw [if_neg hargs] at h
      have hne : args ≠ [] := fun he => hargs (by simp [he])
      cases hval : validateSpecifiers env args with
      | error err =>
        simp only [hval, Option.some.injEq] at h
        exact Or.inr (Or.inr (Or.inl ⟨rfl, hne, err, rfl, h.symm⟩))
      | ok roots =>
        simp only [hval] at h
        refine Or.inr (Or.inr (Or.inr ⟨rfl, hne, roots, rfl, ?_⟩))
        cases hloop : fetchLoop env flagDict fuel
            { sys := { world := w, trace := [] }, specifiersToFetch := roots,
              downloadedToothFilePathMap := [] } with
        | none => simp [hloop] at h
        | some res =>
          cases res with
          | exit code failure sys =>
            simp only [hloop, Option.some.injEq] at h
            exact Or.inl ⟨code, failure, sys, rfl, h.symm⟩
          | ok st =>
            simp only [hloop, Option.some.injEq] at h
            exact Or.inr ⟨st, rfl, h.symm⟩

/-- Witness of C3: the index lists 1.0.0, 2.0.0 and 3.0.0 and the range is
`>=2.0.0`; the first match 2.0.0 is enqueued although 3.0.0 matches as well. -/
theorem first_match_selection_witness :
    resolveDependency libEnv app (initialState emptyWorld []) "example.com/lib" atLeast2 =
      .ok { sys := { world := emptyWorld, trace := [] }
            specifiersToFetch := [lib2]
            downloadedToothFilePathMap := [] } :=
  (first_match_selection libEnv app (initialState emptyWorld []) "example.com/lib" atLeast2
    [release 1 0 0, release 2 0 0, release 3 0 0] (by rfl) (by decide)).1
    [release 1 0 0] (release 2 0 0) [release 3 0 0] lib2 (by rfl) (by decide) (by decide)
    (by rfl)

/-! ## C4: an installed dependency is a hard conflict -/

theorem Run_exit_fetchFailure {env : Env} {flagDict : FlagDict} {args : List String}
    {fuel : Nat} {w : World} {code : Nat} {failure : Failure} {sys : Sys}
    (h : Run env flagDict args fuel w = some (.exit code failure sys))
    (hf : failure.isAfterFetchFailure = false) (hargs : failure ≠ .TooFewArguments) :
    code = 1 ∧ sys.world.records = w.records ∧ ∀ e ∈ sys.trace, e.isFetch = true := by
  rcases Run_cases h with ⟨-, h1⟩ | ⟨-, -, h1⟩ | ⟨-, -, err, -, h1⟩ | ⟨-, -, roots, -, h1⟩
  · cases h1
  · cases h1
    exact absurd rfl hargs
  · cases h1
    exact ⟨rfl, rfl, by simp⟩
  · rcases h1 with ⟨code1, failure1, sys1, hloop, h2⟩ | ⟨st, hloop, h2⟩
    · cases h2
      obtain ⟨⟨hrec, t, ht, he⟩, hcode⟩ := fetchLoop_fetchOnly fuel hloop
      refine ⟨(hcode _ _ _ rfl).1, hrec, ?_⟩
      simp only [Outcome.fetchSys, List.nil_append] at ht
      rw [ht]
      exact he
    · have h3 := (afterFetch_phases h2.symm).2 code failure sys rfl
      rw [hf] at h3
      exact absurd h3.2 (by simp)

/-- C4. An installed dependency is a hard conflict. For a dependency of a
processed tooth whose tooth path has a record and whose index query
succeeded: if the range (any clause of which all atoms match) matches the
recorded version, the dependency is accepted, and the state, the queue
included, stays as it is; otherwise the run exits with code 1 and
`UnsatisfiedInstalledDependency` in the unchanged state, so nothing is
enqueued for the dependency. And whenever `Run` ends with
`UnsatisfiedInstalledDependency`, the record store is the one it started
with and no `Uninstall` and no `install` was called. -/
theorem installed_dependency_conflict (env : Env) (specifier : Specifier) (st : FetchState)
    (toothPath : String) (versionRange : VersionRange) (versionList : List Version)
    (hindex : env.FetchVersionList toothPath = .ok versionList)
    (hinst : IsToothInstalled st.sys.world toothPath = true) :
    (∃ record, toothrecordGet st.sys.world toothPath = .ok record ∧
      record.ToothPath = toothPath ∧ record ∈ st.sys.world.records ∧
      ((versionRange.any fun clause => clause.all fun m => env.Match m record.Version) = true →
        resolveDependency env specifier st toothPath versionRange = .ok st) ∧
      ((versionRange.any fun clause => clause.all fun m => env.Match m record.Version) = false →
        resolveDependency env specifier st toothPath versionRange =
          .exit 1 (.UnsatisfiedInstalledDependency toothPath specifier.canonical) st.sys)) ∧
    (∀ flagDict args fuel w code a b sys,
      Run env flagDict args fuel w =
        some (.exit code (.UnsatisfiedInstalledDependency a b) sys) →
      code = 1 ∧ sys.world.records = w.records ∧ ∀ e ∈ sys.trace, e.isFetch = true) :=
  ⟨resolveDependency_installed env specifier st toothPath versionRange versionList hindex hinst,
    fun _ _ _ _ _ _ _ _ h => Run_exit_fetchFailure h rfl (by simp)⟩

/-- Witness of C4: with `example.com/lib@1.0.0` installed, installing
`example.com/app`, which requires `example.com/lib (>=2.0.0)`, exits with code
1 and `UnsatisfiedInstalledDependency`; only the archive of the application was
fetched and the record store is as before. -/
theorem installed_dependency_conflict_witness :
    Run libEnv plainFlags ["example.com/app@1.0.0"] 5 libWorld =
        some (.exit 1
          (.UnsatisfiedInstalledDependency "example.com/lib" "example.com/app@1.0.0")
          { world := { libWorld with files := [(appPath, some appManifest)] }
            trace := [Event.fetched "example.com/app@1.0.0" false appPath] }) ∧
      ∀ e ∈ [Event.fetched "example.com/app@1.0.0" false appPath], e.isFetch = true := by
  have hrun : Run libEnv plainFlags ["example.com/app@1.0.0"] 5 libWorld =
      some (.exit 1
        (.UnsatisfiedInstalledDependency "example.com/lib" "example.com/app@1.0.0")
        { world := { libWorld with files := [(appPath, some appManifest)] }
          trace := [Event.fetched "example.com/app@1.0.0" false appPath] }) := by decide
  exact ⟨hrun,
    ((installed_dependency_conflict libEnv app (initialState libWorld []) "example.com/lib"
      atLeast2 [release 1 0 0, release 2 0 0, release 3 0 0] (by rfl) (by decide)).2
      _ _ _ _ _ _ _ _ hrun).2.2⟩

/-! ## C8: a range with no clause -/

/-- Counterexample to C8 as stated: with the empty range, the installed
`example.com/lib@1.0.0` is rejected with `UnsatisfiedInstalledDependency`, and
when it is not installed the run fails with `NoMatchingVersion` although the
index lists three versions; the empty range matches none of them. -/
theorem empty_range_counterexample :
    resolveDependency libEnv app (initialState libWorld []) "example.com/lib" [] =
        .exit 1 (.UnsatisfiedInstalledDependency "example.com/lib" "example.com/app@1.0.0")
          { world := libWorld, trace := [] } ∧
      libEnv.FetchVersionList "example.com/lib" =
        .ok [release 1 0 0, release 2 0 0, release 3 0 0] ∧
      resolveDependency libEnv app (initialState emptyWorld []) "example.com/lib" [] =
        .exit 1 (.NoMatchingVersion "example.com/lib" "example.com/app@1.0.0")
          { world := emptyWorld, trace := [] } ∧
      isAnyMatched libEnv (release 1 0 0) [] = false := by
  refine ⟨by decide, by rfl, by decide, by decide⟩

/-- C8, amended. A range whose outer list is empty matches no version: for a
dependency with such a range whose index query succeeded, an installed
dependency is rejected with `UnsatisfiedInstalledDependency` whatever its
recorded version, and a dependency that is not installed fails with
`NoMatchingVersion` whatever the index lists. It is a clause with no atom that
matches every version. -/
theorem empty_range_matches_nothing (env : Env) (specifier : Specifier) (st : FetchState)
    (toothPath : String) (versionList : List Version)
    (hindex : env.FetchVersionList toothPath = .ok versionList) :
    (∀ version, isAnyMatched env version [] = false) ∧
    (IsToothInstalled st.sys.world toothPath = true →
      resolveDependency env specifier st toothPath [] =
        .exit 1 (.UnsatisfiedInstalledDependency toothPath specifier.canonical) st.sys) ∧
    (IsToothInstalled st.sys.world toothPath = false →
      resolveDependency env specifier st toothPath [] =
        .exit 1 (.NoMatchingVersion toothPath specifier.canonical) st.sys) ∧
    (∀ version rest, isAnyMatched env version ([] :: rest) = true) := by
  refine ⟨fun _ => rfl, ?_, ?_, fun _ _ => rfl⟩
  · intro hinst
    obtain ⟨record, -, -, -, -, hno⟩ :=
      resolveDependency_installed env specifier st toothPath [] versionList hindex hinst
    exact hno rfl
  · intro hnot
    have hnone : selectVersion env toothPath [] st.specifiersToFetch versionList = .ok none :=
      (selectVersion_none env toothPath [] _ versionList).2 fun _ _ => rfl
    unfold resolveDependency
    simp only [hindex, hnot, Bool.false_eq_true, ↓reduceIte, hnone]

/-- Witness of C8, amended: the installed `example.com/lib@1.0.0` is rejected
under the empty range. -/
theorem empty_range_matches_nothing_witness :
    resolveDependency libEnv app (initialState libWorld []) "example.com/lib" [] =
      .exit 1 (.UnsatisfiedInstalledDependency "example.com/lib" "example.com/app@1.0.0")
        { world := libWorld, trace := [] } :=
  (empty_range_matches_nothing libEnv app (initialState libWorld []) "example.com/lib"
    [release 1 0 0, release 2 0 0, release 3 0 0] (by rfl)).2.1 (by decide)

/-! ## C9: the possession list handed to `Uninstall` -/

/-- Counterexample to C9 as stated: `x.io/x@2.0.0` is installed and its record
owns `x/`; the downloaded `x.io/x@2.1.0` declares `x/` and `y/`. Under
`--upgrade` the pre-pass calls `Uninstall` with the list of the new archive,
which is not the list stored in the record. -/
theorem uninstall_possession_counterexample :
    prePassIteration xEnv upgradeFlags [("x.io/x@2.1.0", x21Path)]
        { world := { xWorld with files := [(x21Path, some x21Manifest)] }, trace := [] } x21 =
      .ok { world := { files := [(x21Path, some x21Manifest)], records := [] }
            trace := [Event.uninstalled "x.io/x.json" ["x/", "y/"]] } ∧
    toothrecordGet xWorld "x.io/x" = .ok (recordOf "x.io/x" (release 2 0 0) ["x/"]) ∧
    (recordOf "x.io/x" (release 2 0 0) ["x/"]).Possession ≠ ["x/", "y/"] := by
  refine ⟨by decide, by rfl, by decide⟩

theorem prePassIteration_uninstall (env : Env) (flagDict : FlagDict)
    (downloaded : List (String × String)) (sys : Sys) (specifier : Specifier) (path : String)
    (toothFile : ToothFile) (toothRecord : Record) (recordDir : String)
    (hkind : specifier.kind = SpecifierKind.RequirementKind)
    (hlookup : downloaded.lookup specifier.canonical = some path)
    (hopen : toothfileNew sys.world path = .ok toothFile)
    (hinst : IsToothInstalled sys.world toothFile.metadata.ToothPath = true)
    (hdir : RecordDir env = .ok recordDir)
    (hrec : toothrecordGet sys.world toothFile.metadata.ToothPath = .ok toothRecord) :
    prePassIteration env flagDict downloaded sys specifier =
      if !flagDict.forceReinstallFlag &&
          !env.GreaterThan toothFile.metadata.Version toothRecord.Version then .ok sys
      else
        match Uninstall env sys (env.GetRecordFileName toothFile.metadata.ToothPath)
            toothFile.metadata.Possession flagDict.yesFlag with
        | .error err => .exit 1 (.ConfirmationRequired err) sys
        | .ok sys1 => .ok sys1 := by
  unfold prePassIteration
  simp only [hkind, ne_eq, not_true_eq_false, ↓reduceIte, hlookup, hopen, hinst, Bool.not_true,
    Bool.false_eq_true, hdir, hrec]

/-- C9, amended. Whenever the upgrade and reinstall pre-pass uninstalls a
superseded tooth (the root specifier is a requirement, it is in `downloaded`,
its archive opens, its tooth path has a record, and `--force-reinstall` is set
or the archive is newer than the record, and the prompt is answered), the
possession list handed to `Uninstall` is the possession list that the manifest
of the newly downloaded archive declares, whatever list the record stores. -/
theorem uninstall_possession (env : Env) (flagDict : FlagDict)
    (downloaded : List (String × String)) (sys : Sys) (specifier : Specifier) (path : String)
    (toothFile : ToothFile) (toothRecord : Record) (recordDir : String)
    (hkind : specifier.kind = SpecifierKind.RequirementKind)
    (hlookup : downloaded.lookup specifier.canonical = some path)
    (hopen : toothfileNew sys.world path = .ok toothFile)
    (hinst : IsToothInstalled sys.world toothFile.metadata.ToothPath = true)
    (hdir : RecordDir env = .ok recordDir)
    (hrec : toothrecordGet sys.world toothFile.metadata.ToothPath = .ok toothRecord)
    (hcond : flagDict.forceReinstallFlag = true ∨
      env.GreaterThan toothFile.metadata.Version toothRecord.Version = true)
    (hyes : flagDict.yesFlag = true ∨ env.interactive = true) :
    ∃ sys1, prePassIteration env flagDict downloaded sys specifier = .ok sys1 ∧
      sys1.trace = sys.trace ++
        [Event.uninstalled (env.GetRecordFileName toothFile.metadata.ToothPath)
          toothFile.metadata.Possession] ∧
      Uninstall env sys (env.GetRecordFileName toothFile.metadata.ToothPath)
        toothFile.metadata.Possession flagDict.yesFlag = .ok sys1 := by
  have hno : (!flagDict.forceReinstallFlag &&
      !env.GreaterThan toothFile.metadata.Version toothRecord.Version) = false := by
    rcases hcond with h | h <;> simp [h]
  have hconfirm : (!flagDict.yesFlag && !env.interactive) = false := by
    rcases hyes with h | h <;> simp [h]
  rw [prePassIteration_uninstall env flagDict downloaded sys specifier path toothFile
    toothRecord recordDir hkind hlookup hopen hinst hdir hrec, hno]
  simp only [Bool.false_eq_true, ↓reduceIte]
  unfold Uninstall
  simp only [hconfirm, Bool.false_eq_true, ↓reduceIte]
  exact ⟨_, rfl, rfl, rfl⟩

/-- Witness of C9, amended: in the upgrade of `x.io/x` from 2.0.0 to 2.1.0 the
event of the uninstall carries the list `x/`, `y/` of the new archive. -/
theorem uninstall_possession_witness :
    ∃ sys1,
      prePassIteration xEnv upgradeFlags [("x.io/x@2.1.0", x21Path)]
        { world := { xWorld with files := [(x21Path, some x21Manifest)] }, trace := [] } x21 =
          .ok sys1 ∧
      sys1.trace = [] ++ [Event.uninstalled (xEnv.GetRecordFileName "x.io/x") ["x/", "y/"]] ∧
      Uninstall xEnv
        { world := { xWorld with files := [(x21Path, some x21Manifest)] }, trace := [] }
        (xEnv.GetRecordFileName "x.io/x") ["x/", "y/"] true = .ok sys1 :=
  uninstall_possession xEnv upgradeFlags [("x.io/x@2.1.0", x21Path)]
    { world := { xWorld with files := [(x21Path, some x21Manifest)] }, trace := [] } x21 x21Path
    { filePath := x21Path, metadata := x21Manifest } (recordOf "x.io/x" (release 2 0 0) ["x/"])
    "/work/.lip/records" (by decide) (by decide) (by rfl) (by decide) (by rfl) (by rfl)
    (Or.inr (by decide)) (Or.inl (by decide))

/-! ## C2: the decision of the upgrade and reinstall pre-pass -/

theorem Run_trace_phases {env : Env} {flagDict : FlagDict} {args : List String} {fuel : Nat}
    {w : World} {out : Outcome Sys} (h : Run env flagDict args fuel w = some out) :
    ∃ fetches uninstalls installs,
      out.finalSys.trace = fetches ++ uninstalls ++ installs ∧
      (∀ e ∈ fetches, e.isFetch = true) ∧
      (∀ e ∈ uninstalls, e.isUninstall = true) ∧
      (∀ e ∈ installs, e.isInstall = true) := by
  rcases Run_cases h with ⟨-, h1⟩ | ⟨-, -, h1⟩ | ⟨-, -, err, -, h1⟩ | ⟨-, -, roots, -, h1⟩
  · subst h1
    exact ⟨[], [], [], rfl, by simp, by simp, by simp⟩
  · subst h1
    exact ⟨[], [], [], rfl, by simp, by simp, by simp⟩
  · subst h1
    exact ⟨[], [], [], rfl, by simp, by simp, by simp⟩
  · rcases h1 with ⟨code1, failure1, sys1, hloop, h2⟩ | ⟨st, hloop, h2⟩
    · subst h2
      obtain ⟨⟨-, t, ht, he⟩, -⟩ := fetchLoop_fetchOnly fuel hloop
      simp only [Outcome.fetchSys, List.nil_append] at ht
      exact ⟨t, [], [], by simp [Outcome.finalSys, ht], he, by simp, by simp⟩
    · obtain ⟨⟨-, t1, ht1, he1⟩, -⟩ := fetchLoop_fetchOnly fuel hloop
      simp only [Outcome.fetchSys, List.nil_append] at ht1
      obtain ⟨⟨mid, ⟨-, t2, ht2, he2⟩, ⟨-, t3, ht3, he3⟩⟩, -⟩ := afterFetch_phases h2.symm
      exact ⟨t1, t2, t3, by rw [ht3, ht2, ht1], he1, he2, he3⟩

/-- C2. The decision of the upgrade and reinstall pre-pass. With exactly one of
`--force-reinstall` and `--upgrade` set, part 3 of `Run` is the loop over the
root specifiers. For a root requirement specifier that is in `downloaded`,
whose archive opens and whose tooth path has a record: if `--force-reinstall`
is set or the version of the downloaded archive is greater than the recorded
version, the iteration is the call of `Uninstall` and ends as that call ends;
otherwise nothing happens. In every run all calls of `Uninstall` come after
the fetches and before every call of `install`. With `--upgrade` and
`x.io/x@2.0.0` installed: a fetched `x.io/x@1.5.0` is followed by no uninstall
and no install, and a fetched `x.io/x@2.1.0` by the uninstall of the tooth and
then the install of 2.1.0; with `--force-reinstall` even the older
`x.io/x@1.5.0` is followed by the uninstall and then the install of 1.5.0. -/
theorem prepass_decision (env : Env) (flagDict : FlagDict)
    (downloaded : List (String × String)) (sys : Sys) (specifier : Specifier) (path : String)
    (toothFile : ToothFile) (toothRecord : Record) (recordDir : String)
    (hone : flagDict.forceReinstallFlag ≠ flagDict.upgradeFlag)
    (hkind : specifier.kind = SpecifierKind.RequirementKind)
    (hlookup : downloaded.lookup specifier.canonical = some path)
    (hopen : toothfileNew sys.world path = .ok toothFile)
    (hinst : IsToothInstalled sys.world toothFile.metadata.ToothPath = true)
    (hdir : RecordDir env = .ok recordDir)
    (hrec : toothrecordGet sys.world toothFile.metadata.ToothPath = .ok toothRecord) :
    (∀ roots, prePass env flagDict roots downloaded sys =
      prePassLoop env flagDict downloaded sys roots) ∧
    ((flagDict.forceReinstallFlag = true ∨
        env.GreaterThan toothFile.metadata.Version toothRecord.Version = true) →
      prePassIteration env flagDict downloaded sys specifier =
        match Uninstall env sys (env.GetRecordFileName toothFile.metadata.ToothPath)
            toothFile.metadata.Possession flagDict.yesFlag with
        | .error err => .exit 1 (.ConfirmationRequired err) sys
        | .ok sys1 => .ok sys1) ∧
    (¬ (flagDict.forceReinstallFlag = true ∨
        env.GreaterThan toothFile.metadata.Version toothRecord.Version = true) →
      prePassIteration env flagDict downloaded sys specifier = .ok sys) ∧
    (∀ args fuel w out, Run env flagDict args fuel w = some out →
      ∃ fetches uninstalls installs,
        out.finalSys.trace = fetches ++ uninstalls ++ installs ∧
        (∀ e ∈ fetches, e.isFetch = true) ∧
        (∀ e ∈ uninstalls, e.isUninstall = true) ∧
        (∀ e ∈ installs, e.isInstall = true)) ∧
    Run xEnv upgradeFlags ["x.io/x@1.5.0"] 5 xWorld =
      some (.ok
        { world := { xWorld with files := [(x15Path, some x15Manifest)] }
          trace := [Event.fetched "x.io/x@1.5.0" false x15Path] }) ∧
    Run xEnv upgradeFlags ["x.io/x@2.1.0"] 5 xWorld =
      some (.ok
        { world :=
            { files := [(x21Path, some x21Manifest)]
              records :=
                [{ ToothPath := "x.io/x", Version := release 2 1 0, Possession := ["x/", "y/"],
                   IsManuallyInstalled := true }] }
          trace :=
            [Event.fetched "x.io/x@2.1.0" false x21Path,
              Event.uninstalled "x.io/x.json" ["x/", "y/"],
              Event.installed { filePath := x21Path, metadata := x21Manifest } true] }) ∧
    Run xEnv forceReinstallFlags ["x.io/x@1.5.0"] 5 xWorld =
      some (.ok
        { world :=
            { files := [(x15Path, some x15Manifest)]
              records :=
                [{ ToothPath := "x.io/x", Version := release 1 5 0, Possession := ["x/"],
                   IsManuallyInstalled := true }] }
          trace :=
            [Event.fetched "x.io/x@1.5.0" false x15Path,
              Event.uninstalled "x.io/x.json" ["x/"],
              Event.installed { filePath := x15Path, metadata := x15Manifest } true] }) := by
  have hiter := prePassIteration_uninstall env flagDict downloaded sys specifier path toothFile
    toothRecord recordDir hkind hlookup hopen hinst hdir hrec
  refine ⟨?_, ?_, ?_, fun _ _ _ _ h => Run_trace_phases h, by decide, by decide, by decide⟩
  · intro roots
    unfold prePass
    cases hf : flagDict.forceReinstallFlag <;> cases hu : flagDict.upgradeFlag <;>
      simp_all
  · intro hcond
    have hno : (!flagDict.forceReinstallFlag &&
        !env.GreaterThan toothFile.metadata.Version toothRecord.Version) = false := by
      rcases hcond with h | h <;> simp [h]
    rw [hiter, hno]
    simp only [Bool.false_eq_true, ↓reduceIte]
  · intro hcond
    rw [not_or] at hcond
    have hyes : (!flagDict.forceReinstallFlag &&
        !env.GreaterThan toothFile.metadata.Version toothRecord.Version) = true := by
      simp [hcond.1, hcond.2]
    rw [hiter, hyes]
    simp only [↓reduceIte]

/-- Witness of C2: in the upgrade of the installed `x.io/x@2.0.0` to the
downloaded 2.1.0 the iteration of the pre-pass is the call of `Uninstall`. -/
theorem prepass_decision_witness :
    prePassIteration xEnv upgradeFlags [("x.io/x@2.1.0", x21Path)]
        { world := { xWorld with files := [(x21Path, some x21Manifest)] }, trace := [] } x21 =
      match Uninstall xEnv
          { world := { xWorld with files := [(x21Path, some x21Manifest)] }, trace := [] }
          (xEnv.GetRecordFileName "x.io/x") ["x/", "y/"] true with
      | .error err =>
        .exit 1 (.ConfirmationRequired err)
          { world := { xWorld with files := [(x21Path, some x21Manifest)] }, trace := [] }
      | .ok sys1 => .ok sys1 :=
  (prepass_decision xEnv upgradeFlags [("x.io/x@2.1.0", x21Path)]
    { world := { xWorld with files := [(x21Path, some x21Manifest)] }, trace := [] } x21 x21Path
    { filePath := x21Path, metadata := x21Manifest } (recordOf "x.io/x" (release 2 0 0) ["x/"])
    "/work/.lip/records" (by decide) (by decide) (by decide) (by rfl) (by decide) (by rfl)
    (by rfl)).2.1 (Or.inr (by decide))

/-! ## C5: both `--force-reinstall` and `--upgrade` -/

/-- Counterexample to C5 as stated: with both flags set and the specifier
`x.io/x@2.1.0`, the run does exit with code 1 and `ConflictingFlags`, but only
after the fetch loop: the archive has been fetched into the cache, which was
empty before. With a specifier that cannot be fetched the failure is not even
`ConflictingFlags`. -/
theorem conflicting_flags_counterexample :
    Run xEnv bothFlags ["x.io/x@2.1.0"] 5 xWorld =
        some (.exit 1 .ConflictingFlags
          { world := { xWorld with files := [(x21Path, some x21Manifest)] }
            trace := [Event.fetched "x.io/x@2.1.0" false x21Path] }) ∧
      xWorld.files = [] ∧
      Run (exampleEnv [(x21, x21Manifest)] []) bothFlags ["x.io/x@1.5.0"] 5 xWorld =
        some (.exit 1 (.InvalidSpecifier "invalid specifier x.io/x@1.5.0")
          { world := xWorld, trace := [] }) := by
  refine ⟨by decide, by rfl, by decide⟩

/-- C5, amended. For every argument list with one or more specifiers that sets
both `--force-reinstall` and `--upgrade` and not the help flag, every run that
ends exits with code 1, calls neither `Uninstall` nor `install`, and leaves
the record store as it was. The conflict is checked only after the specifiers
are validated and the fetch loop has run: when both go through, the failure is
`ConflictingFlags`, reported in the state in which the fetch loop ended, with
the archives it fetched in the cache; when one of them fails, that failure is
reported instead. -/
theorem conflicting_flags_rejected (env : Env) (flagDict : FlagDict) (args : List String)
    (fuel : Nat) (w : World) (out : Outcome Sys)
    (hforce : flagDict.forceReinstallFlag = true) (hupgrade : flagDict.upgradeFlag = true)
    (hhelp : flagDict.helpFlag = false) (hargs : args ≠ [])
    (hrun : Run env flagDict args fuel w = some out) :
    (∃ failure sys, out = .exit 1 failure sys ∧
      sys.world.records = w.records ∧ (∀ e ∈ sys.trace, e.isFetch = true) ∧
      (failure = .ConflictingFlags ∨ failure.isFetchFailure = true)) ∧
    (∀ roots st, validateSpecifiers env args = .ok roots →
      fetchLoop env flagDict fuel
        { sys := { world := w, trace := [] }, specifiersToFetch := roots,
          downloadedToothFilePathMap := [] } = some (.ok st) →
      out = .exit 1 .ConflictingFlags st.sys) := by
  have hafter : ∀ roots st, afterFetch env flagDict roots st =
      .exit 1 .ConflictingFlags st.sys := by
    intro roots st
    unfold afterFetch prePass
    simp only [hforce, hupgrade, Bool.or_self, ↓reduceIte, Bool.and_self]
  rcases Run_cases hrun with ⟨h0, -⟩ | ⟨-, h0, -⟩ | ⟨-, -, err, herr, h1⟩ |
    ⟨-, -, roots, hval, h1⟩
  · rw [hhelp] at h0
    cases h0
  · exact absurd h0 hargs
  · subst h1
    refine ⟨⟨_, _, rfl, rfl, by simp, Or.inr rfl⟩, ?_⟩
    intro roots st hval
    rw [herr] at hval
    cases hval
  · rcases h1 with ⟨code1, failure1, sys1, hloop, h2⟩ | ⟨st, hloop, h2⟩
    · subst h2
      obtain ⟨⟨hrec, t, ht, he⟩, hcode⟩ := fetchLoop_fetchOnly fuel hloop
      obtain ⟨hc, hf⟩ := hcode _ _ _ rfl
      subst hc
      simp only [Outcome.fetchSys, List.nil_append] at ht
      refine ⟨⟨_, _, rfl, hrec, by rw [ht]; exact he, Or.inr hf⟩, ?_⟩
      intro roots1 st1 hval1 hloop1
      rw [hval] at hval1
      cases hval1
      rw [hloop] at hloop1
      cases hloop1
    · rw [hafter] at h2
      subst h2
      obtain ⟨⟨hrec, t, ht, he⟩, -⟩ := fetchLoop_fetchOnly fuel hloop
      simp only [Outcome.fetchSys, List.nil_append] at ht
      refine ⟨⟨_, _, rfl, hrec, by rw [ht]; exact he, Or.inl rfl⟩, ?_⟩
      intro roots1 st1 hval1 hloop1
      rw [hval] at hval1
      cases hval1
      rw [hloop] at hloop1
      cases hloop1
      rfl

/-- Witness of C5, amended: the run with both flags on `x.io/x@2.1.0` ends with
`ConflictingFlags` after one fetch and with the record of 2.0.0 in place. -/
theorem conflicting_flags_rejected_witness :
    ∃ failure sys,
      (Outcome.exit 1 .ConflictingFlags
        { world := { xWorld with files := [(x21Path, some x21Manifest)] }
          trace := [Event.fetched "x.io/x@2.1.0" false x21Path] } : Outcome Sys) =
        .exit 1 failure sys ∧
      sys.world.records = xWorld.records ∧ (∀ e ∈ sys.trace, e.isFetch = true) ∧
      (failure = .ConflictingFlags ∨ failure.isFetchFailure = true) :=
  (conflicting_flags_rejected xEnv bothFlags ["x.io/x@2.1.0"] 5 xWorld _ (by decide)
    (by decide) (by decide) (by decide) (by decide)).1

/-! ## C10: a download that fails -/

theorem DownloadFile_error_keeps_files (net : DownloadEnv) (fs : List (String × List Nat))
    (url filePath : String) (err : String)
    (h : (DownloadFile net fs url filePath).1 = .error err) :
    (DownloadFile net fs url filePath).2 = fs := by
  unfold DownloadFile at h ⊢
  cases hdo : net.httpDo url with
  | error e => rfl
  | ok resp =>
    simp only [hdo] at h ⊢
    by_cases hs : resp.StatusCode ≠ 200
    · rw [if_pos hs]
    · rw [if_neg hs] at h ⊢
      cases hc : net.createError filePath with
      | some e => rfl
      | none =>
        simp only [hc] at h
        cases h

theorem DownloadFile_copy (net : DownloadEnv) (fs : List (String × List Nat))
    (url filePath : String) (resp : HttpResponse)
    (hdo : net.httpDo url = .ok resp) (hstatus : resp.StatusCode = 200)
    (hcreate : net.createError filePath = none) :
    DownloadFile net fs url filePath =
      (.ok (), (fs.filter fun e => e.1 != filePath) ++ [(filePath, resp.received)]) := by
  unfold DownloadFile
  simp only [hdo, hstatus, ne_eq, not_true_eq_false, ↓reduceIte, hcreate, ioCopy, osCreate,
    List.map_append, List.map_cons, List.nil_append, List.map_nil, Prod.mk.injEq, true_and]
  congr 1
  rw [List.map_congr_left, List.map_id]
  intro e he
  have := (List.mem_filter.1 he).2
  simp only [bne_iff_ne, ne_eq] at this
  simp [this]

/-- C10, the failing input. The server answers with status 200, two bytes of the
body arrive and then the connection breaks. `io.Copy` reports the error, but
`DownloadFile` drops it: it returns `nil` and leaves the two bytes in a file
at `filePath`, where there was no file before. -/
theorem download_copy_failure_unreported :
    DownloadFile brokenBodyNet [] "https://example.com/a.tth" "/home/u/.lip/cache/YQ==.tt" =
        (.ok (), [("/home/u/.lip/cache/YQ==.tt", [80, 75])]) ∧
      (ioCopy (osCreate [] "/home/u/.lip/cache/YQ==.tt") "/home/u/.lip/cache/YQ==.tt"
        { StatusCode := 200, received := [80, 75], readError := some "unexpected EOF" }).2 =
        some "unexpected EOF" := by
  refine ⟨by rfl, by rfl⟩

/-! ## The cache file name determines the specifier string -/

theorem utf8EncodeCodePoint_append_inj (c d : Nat) (hc : c < 0x110000) (hd : d < 0x110000)
    (r s : List Nat) (h : utf8EncodeCodePoint c ++ r = utf8EncodeCodePoint d ++ s) :
    c = d ∧ r = s := by
  unfold utf8EncodeCodePoint at h
  split_ifs at h <;>
    simp only [List.cons_append, List.nil_append, List.cons.injEq] at h <;>
    first
      | (obtain ⟨h1, h2⟩ := h; exact ⟨h1, h2⟩)
      | (refine ⟨?_, ?_⟩ <;> first | omega | (simp only [h]))

theorem utf8EncodeCodePoint_ne_nil (c : Nat) : utf8EncodeCodePoint c ≠ [] := by
  unfold utf8EncodeCodePoint
  split_ifs <;> simp

theorem utf8EncodeCodePoint_lt (c : Nat) (hc : c < 0x110000) :
    ∀ b ∈ utf8EncodeCodePoint c, b < 256 := by
  unfold utf8EncodeCodePoint
  split_ifs <;> simp <;> omega

theorem char_toNat_lt (c : Char) : c.toNat < 0x110000 := by
  have := c.valid
  simp only [UInt32.isValidChar, Nat.isValidChar] at this
  simp only [Char.toNat]
  omega

theorem char_toNat_inj (c d : Char) (h : c.toNat = d.toNat) : c = d := by
  rw [← Char.ofNat_toNat c, ← Char.ofNat_toNat d, h]

theorem flatMap_utf8_inj (cs ds : List Char)
    (h : (cs.flatMap fun c => utf8EncodeCodePoint c.toNat) =
      ds.flatMap fun c => utf8EncodeCodePoint c.toNat) : cs = ds := by
  induction cs generalizing ds with
  | nil =>
    cases ds with
    | nil => rfl
    | cons d ds =>
      simp only [List.flatMap_nil, List.flatMap_cons] at h
      have := utf8EncodeCodePoint_ne_nil d.toNat
      cases hd : utf8EncodeCodePoint d.toNat with
      | nil => exact absurd hd this
      | cons b bs => rw [hd] at h; cases h
  | cons c cs ih =>
    cases ds with
    | nil =>
      simp only [List.flatMap_nil, List.flatMap_cons] at h
      have := utf8EncodeCodePoint_ne_nil c.toNat
      cases hc : utf8EncodeCodePoint c.toNat with
      | nil => exact absurd hc this
      | cons b bs => rw [hc] at h; cases h
    | cons d ds =>
      simp only [List.flatMap_cons] at h
      obtain ⟨h1, h2⟩ := utf8EncodeCodePoint_append_inj _ _ (char_toNat_lt c) (char_toNat_lt d)
        _ _ h
      rw [char_toNat_inj c d h1, ih ds h2]

theorem stringBytes_inj (s t : String) (h : stringBytes s = stringBytes t) : s = t := by
  unfold stringBytes at h
  have := flatMap_utf8_inj s.data t.data h
  exact String.ext this

theorem stringBytes_lt (s : String) : ∀ b ∈ stringBytes s, b < 256 := by
  intro b hb
  unfold stringBytes at hb
  rw [List.mem_flatMap] at hb
  obtain ⟨c, -, hc⟩ := hb
  exact utf8EncodeCodePoint_lt _ (char_toNat_lt c) b hc

theorem stdAlphabetCode_inj (m n : Nat) (hm : m < 64) (hn : n < 64)
    (h : stdAlphabetCode m = stdAlphabetCode n) : m = n := by
  unfold stdAlphabetCode at h
  split_ifs at h <;> omega

theorem stdAlphabetCode_ne_pad (n : Nat) : stdAlphabetCode n ≠ 61 := by
  unfold stdAlphabetCode
  split_ifs <;> omega

theorem stdAlphabetCode_lt (n : Nat) : stdAlphabetCode n < 128 := by
  unfold stdAlphabetCode
  split_ifs <;> omega

theorem stdEncodeCodes_inj (l1 l2 : List Nat) (h1 : ∀ b ∈ l1, b < 256) (h2 : ∀ b ∈ l2, b < 256)
    (h : stdEncodeCodes l1 = stdEncodeCodes l2) : l1 = l2 := by
  induction l1 using stdEncodeCodes.induct generalizing l2 with
  | case1 =>
    match l2 with
    | [] => rfl
    | [_] => simp [stdEncodeCodes] at h
    | [_, _] => simp [stdEncodeCodes] at h
    | _ :: _ :: _ :: _ => simp [stdEncodeCodes] at h
  | case2 a =>
    match l2 with
    | [] => simp [stdEncodeCodes] at h
    | [a2] =>
      simp only [stdEncodeCodes, List.cons.injEq, and_true] at h
      have ha := h1 a (by simp)
      have ha2 := h2 a2 (by simp)
      have e1 := stdAlphabetCode_inj _ _ (by omega) (by omega) h.1
      have e2 := stdAlphabetCode_inj _ _ (by omega) (by omega) h.2
      have : a = a2 := by omega
      rw [this]
    | [_, _] =>
      simp only [stdEncodeCodes, List.cons.injEq, and_true] at h
      exact absurd h.2.2.symm (stdAlphabetCode_ne_pad _)
    | _ :: _ :: _ :: _ =>
      simp only [stdEncodeCodes, List.cons.injEq] at h
      exact absurd h.2.2.1.symm (stdAlphabetCode_ne_pad _)
  | case3 a b =>
    match l2 with
    | [] => simp [stdEncodeCodes] at h
    | [_] =>
      simp only [stdEncodeCodes, List.cons.injEq, and_true] at h
      exact absurd h.2.2 (stdAlphabetCode_ne_pad _)
    | [a2, b2] =>
      simp only [stdEncodeCodes, List.cons.injEq, and_true] at h
      have ha := h1 a (by simp)
      have hb := h1 b (by simp)
      have ha2 := h2 a2 (by simp)
      have hb2 := h2 b2 (by simp)
      have e1 := stdAlphabetCode_inj _ _ (by omega) (by omega) h.1
      have e2 := stdAlphabetCode_inj _ _ (by omega) (by omega) h.2.1
      have e3 := stdAlphabetCode_inj _ _ (by omega) (by omega) h.2.2
      have : a = a2 := by omega
      have : b = b2 := by omega
      subst_vars
      rfl
    | _ :: _ :: _ :: _ =>
      simp only [stdEncodeCodes, List.cons.injEq] at h
      exact absurd h.2.2.2.1.symm (stdAlphabetCode_ne_pad _)
  | case4 a b c rest ih =>
    match l2 with
    | [] => simp [stdEncodeCodes] at h
    | [_] =>
      simp only [stdEncodeCodes, List.cons.injEq] at h
      exact absurd h.2.2.1 (stdAlphabetCode_ne_pad _)
    | [_, _] =>
      simp only [stdEncodeCodes, List.cons.injEq] at h
      exact absurd h.2.2.2.1 (stdAlphabetCode_ne_pad _)
    | a2 :: b2 :: c2 :: rest2 =>
      simp only [stdEncodeCodes, List.cons.injEq] at h
      have ha := h1 a (by simp)
      have hb := h1 b (by simp)
      have hc := h1 c (by simp)
      have ha2 := h2 a2 (by simp)
      have hb2 := h2 b2 (by simp)
      have hc2 := h2 c2 (by simp)
      have e1 := stdAlphabetCode_inj _ _ (by omega) (by omega) h.1
      have e2 := stdAlphabetCode_inj _ _ (by omega) (by omega) h.2.1
      have e3 := stdAlphabetCode_inj _ _ (by omega) (by omega) h.2.2.1
      have e4 := stdAlphabetCode_inj _ _ (by omega) (by omega) h.2.2.2.1
      have hr := ih rest2 (fun x hx => h1 x (by simp [hx])) (fun x hx => h2 x (by simp [hx]))
        h.2.2.2.2
      have : a = a2 := by omega
      have : b = b2 := by omega
      have : c = c2 := by omega
      subst_vars
      rfl

theorem stdEncodeCodes_lt (l : List Nat) : ∀ x ∈ stdEncodeCodes l, x < 128 := by
  induction l using stdEncodeCodes.induct with
  | case1 => simp [stdEncodeCodes]
  | case2 a =>
    intro x hx
    simp only [stdEncodeCodes, List.mem_cons, List.mem_singleton, List.not_mem_nil,
      or_false] at hx
    rcases hx with h | h | h | h <;> subst h <;> first | exact stdAlphabetCode_lt _ | omega
  | case3 a b =>
    intro x hx
    simp only [stdEncodeCodes, List.mem_cons, List.mem_singleton, List.not_mem_nil,
      or_false] at hx
    rcases hx with h | h | h | h <;> subst h <;> first | exact stdAlphabetCode_lt _ | omega
  | case4 a b c rest ih =>
    intro x hx
    simp only [stdEncodeCodes, List.mem_cons] at hx
    rcases hx with h | h | h | h | h
    · subst h; exact stdAlphabetCode_lt _
    · subst h; exact stdAlphabetCode_lt _
    · subst h; exact stdAlphabetCode_lt _
    · subst h; exact stdAlphabetCode_lt _
    · exact ih x h

theorem toNat_ofNat_of_lt (n : Nat) (h : n < 128) : (Char.ofNat n).toNat = n := by
  have hv : n.isValidChar := Or.inl (by omega)
  simp only [Char.ofNat, hv, ↓reduceDIte, Char.ofNatAux, Char.toNat]
  rfl

theorem map_ofNat_inj (l1 l2 : List Nat) (h1 : ∀ x ∈ l1, x < 128) (h2 : ∀ x ∈ l2, x < 128)
    (h : l1.map Char.ofNat = l2.map Char.ofNat) : l1 = l2 := by
  induction l1 generalizing l2 with
  | nil =>
    cases l2 with
    | nil => rfl
    | cons y ys => simp at h
  | cons x xs ih =>
    cases l2 with
    | nil => simp at h
    | cons y ys =>
      simp only [List.map_cons, List.cons.injEq] at h
      have hx := toNat_ofNat_of_lt x (h1 x (by simp))
      have hy := toNat_ofNat_of_lt y (h2 y (by simp))
      have hxy : x = y := by rw [← hx, ← hy, h.1]
      rw [hxy, ih ys (fun z hz => h1 z (by simp [hz])) (fun z hz => h2 z (by simp [hz])) h.2]

theorem stdEncodeToString_inj (s t : String) (h : stdEncodeToString s = stdEncodeToString t) :
    s = t := by
  unfold stdEncodeToString at h
  have h1 : (stdEncodeCodes (stringBytes s)).map Char.ofNat =
      (stdEncodeCodes (stringBytes t)).map Char.ofNat := by
    injection h
  have h2 := map_ofNat_inj _ _ (stdEncodeCodes_lt _) (stdEncodeCodes_lt _) h1
  exact stringBytes_inj s t (stdEncodeCodes_inj _ _ (stringBytes_lt s) (stringBytes_lt t) h2)

theorem GetCachedToothFileName_inj (s t : String)
    (h : GetCachedToothFileName s = GetCachedToothFileName t) : s = t := by
  unfold GetCachedToothFileName at h
  apply stdEncodeToString_inj
  have h1 := congrArg String.data h
  simp only [String.data_append] at h1
  exact String.ext (List.append_cancel_right h1)

theorem cachePath_inj (cacheDir s t : String)
    (h : cacheDir ++ "/" ++ GetCachedToothFileName s =
      cacheDir ++ "/" ++ GetCachedToothFileName t) : s = t := by
  apply GetCachedToothFileName_inj
  have h1 := congrArg String.data h
  simp only [String.data_append] at h1
  exact String.ext (List.append_cancel_left h1)

/-! ## What one iteration of the fetch loop does to `downloaded` -/

theorem getTooth_ok {env : Env} {w w1 : World} {specifier : Specifier} {isCached : Bool}
    {path : String} (h : getTooth env w specifier = (.ok (isCached, path), w1)) :
    ∃ cacheDir, CacheDir env = .ok cacheDir ∧
      path = cacheDir ++ "/" ++ GetCachedToothFileName specifier.canonical := by
  unfold getTooth at h
  cases hdir : CacheDir env with
  | error err =>
    simp only [hdir] at h
    cases h
  | ok cacheDir =>
    simp only [hdir] at h
    refine ⟨cacheDir, rfl, ?_⟩
    cases hl : w.files.lookup (cacheDir ++ "/" ++ GetCachedToothFileName specifier.canonical) with
    | none =>
      simp only [hl] at h
      cases ho : env.origin specifier with
      | none => simp only [ho] at h; cases h
      | some content => simp only [ho] at h; cases h; rfl
    | some content =>
      cases content with
      | none =>
        simp only [hl] at h
        cases ho : env.origin specifier with
        | none => simp only [ho] at h; cases h
        | some content => simp only [ho] at h; cases h; rfl
      | some metadata =>
        simp only [hl] at h
        cases h
        rfl

theorem getTooth_hit {env : Env} {w : World} {specifier : Specifier} {cacheDir : String}
    {toothFile : ToothFile} (hdir : CacheDir env = .ok cacheDir)
    (hopen : toothfileNew w (cacheDir ++ "/" ++ GetCachedToothFileName specifier.canonical) =
      .ok toothFile) :
    getTooth env w specifier =
      (.ok (true, cacheDir ++ "/" ++ GetCachedToothFileName specifier.canonical), w) := by
  unfold toothfileNew at hopen
  unfold getTooth
  simp only [hdir]
  cases hl : w.files.lookup (cacheDir ++ "/" ++ GetCachedToothFileName specifier.canonical) with
  | none => simp only [hl] at hopen; cases hopen
  | some content =>
    cases content with
    | none => simp only [hl] at hopen; cases hopen
    | some metadata => rfl

theorem checkInstalled_of_records {env : Env} {flagDict : FlagDict} {sys : Sys}
    {toothFile : ToothFile} {proceed : Bool}
    (h : checkInstalled env flagDict sys toothFile = .ok proceed) (sys1 : Sys)
    (hrec : sys1.world.records = sys.world.records) :
    checkInstalled env flagDict sys1 toothFile = .ok proceed := by
  have h1 : IsToothInstalled sys1.world toothFile.metadata.ToothPath =
      IsToothInstalled sys.world toothFile.metadata.ToothPath := by
    unfold IsToothInstalled
    rw [hrec]
  have h2 : toothrecordGet sys1.world toothFile.metadata.ToothPath =
      toothrecordGet sys.world toothFile.metadata.ToothPath := by
    unfold toothrecordGet
    rw [hrec]
  unfold checkInstalled at h ⊢
  rw [h1, h2]
  cases hinst : IsToothInstalled sys.world toothFile.metadata.ToothPath with
  | false => simpa [hinst] using h
  | true =>
    simp only [hinst, ↓reduceIte] at h ⊢
    cases hf : flagDict.forceReinstallFlag <;> cases hu : flagDict.upgradeFlag <;>
      simp only [hf, hu, Bool.not_false, Bool.not_true, Bool.and_self, Bool.and_true,
        Bool.and_false, Bool.true_and, Bool.false_and, Bool.false_eq_true, ↓reduceIte] at h ⊢ <;>
      try exact h
    cases hget : toothrecordGet sys.world toothFile.metadata.ToothPath with
    | error err => simp only [hget] at h; cases h
    | ok record =>
      simp only [hget] at h ⊢
      exact h

theorem fetchIteration_ok_cases {env : Env} {flagDict : FlagDict} {st st1 : FetchState}
    {specifier : Specifier} (h : fetchIteration env flagDict st specifier = .ok st1) :
    ((st.downloadedToothFilePathMap.lookup specifier.canonical).isSome = true ∧ st1 = st) ∨
    (st.downloadedToothFilePathMap.lookup specifier.canonical = none ∧
      ∃ isCached path w toothFile proceed,
        getTooth env st.sys.world specifier = (.ok (isCached, path), w) ∧
        toothfileNew w path = .ok toothFile ∧
        checkInstalled env flagDict
          { world := w
            trace := st.sys.trace ++ [Event.fetched specifier.canonical isCached path] }
          toothFile = .ok proceed ∧
        st1.sys =
          { world := w
            trace := st.sys.trace ++ [Event.fetched specifier.canonical isCached path] } ∧
        ((proceed = false ∧ st1.downloadedToothFilePathMap = st.downloadedToothFilePathMap ∧
            st1.specifiersToFetch = st.specifiersToFetch) ∨
          (proceed = true ∧
            st1.downloadedToothFilePathMap =
              st.downloadedToothFilePathMap ++ [(specifier.canonical, path)] ∧
            (flagDict.noDependenciesFlag = true →
              st1.specifiersToFetch = st.specifiersToFetch)))) := by
  cases hnew : st.downloadedToothFilePathMap.lookup specifier.canonical with
  | some p =>
    rw [fetchIteration_dropped env flagDict st specifier (by simp [hnew])] at h
    cases h
    exact Or.inl ⟨rfl, rfl⟩
  | none =>
    right
    refine ⟨rfl, ?_⟩
    rcases hget : getTooth env st.sys.world specifier with ⟨res, w⟩
    cases res with
    | error err =>
      rw [fetchIteration_fetchFailed env flagDict st specifier err w hnew hget] at h
      cases h
    | ok res =>
      obtain ⟨isCached, path⟩ := res
      cases hopen : toothfileNew w path with
      | error err =>
        rw [fetchIteration_corrupt env flagDict st specifier isCached path w err hnew hget
          hopen] at h
        cases h
      | ok toothFile =>
        by_cases hbad : specifier.kind = SpecifierKind.RequirementKind ∧
            toothFile.metadata.ToothPath ≠ specifier.toothRepo
        · rw [fetchIteration_mismatch env flagDict st specifier isCached path w toothFile
            hnew hget hopen hbad] at h
          cases h
        · rw [fetchIteration_fetched env flagDict st specifier isCached path w toothFile
            hnew hget hopen (fun hk => by_contra fun hne => hbad ⟨hk, hne⟩)] at h
          cases hcheck : checkInstalled env flagDict
              { world := w
                trace := st.sys.trace ++ [Event.fetched specifier.canonical isCached path] }
              toothFile with
          | exit code failure sys =>
            rw [hcheck] at h
            cases h
          | ok proceed =>
            rw [hcheck] at h
            refine ⟨isCached, path, w, toothFile, proceed, rfl, hopen, hcheck, ?_⟩
            have hset : mapSet st.downloadedToothFilePathMap specifier.canonical path =
                st.downloadedToothFilePathMap ++ [(specifier.canonical, path)] := by
              unfold mapSet
              simp [hnew]
            cases proceed with
            | false =>
              simp only at h
              cases h
              exact ⟨rfl, Or.inl ⟨rfl, rfl, rfl⟩⟩
            | true =>
              simp only at h
              split at h
              · rename_i hdeps
                obtain ⟨h1, h2⟩ := resolveDependencies_ok _ h
                refine ⟨h1, Or.inr ⟨rfl, by rw [h2, hset], ?_⟩⟩
                intro hno
                rw [hno] at hdeps
                cases hdeps
              · cases h
                exact ⟨rfl, Or.inr ⟨rfl, hset, fun _ => rfl⟩⟩

/-! ## Invariants of the fetch loop -/

theorem not_mem_keys_of_lookup_none {m : List (String × String)} {key : String}
    (h : m.lookup key = none) : key ∉ m.map Prod.fst := by
  rw [List.lookup_eq_none_iff] at h
  intro hmem
  rw [List.mem_map] at hmem
  obtain ⟨e, he, hk⟩ := hmem
  have := h e he
  simp [hk] at this

theorem DownloadedInv_nil (env : Env) : DownloadedInv env [] :=
  ⟨by simp, by simp⟩

theorem DownloadedInv_key_of_path {env : Env} {m : List (String × String)}
    (h : DownloadedInv env m) {s t path : String} (hs : (s, path) ∈ m) (ht : (t, path) ∈ m) :
    s = t := by
  obtain ⟨c1, hc1, hp1⟩ := h.2 _ hs
  obtain ⟨c2, hc2, hp2⟩ := h.2 _ ht
  rw [hc1] at hc2
  cases hc2
  simp only at hp1 hp2
  exact cachePath_inj c1 s t (hp1.symm.trans hp2)

theorem DownloadedInv_paths_nodup {env : Env} {m : List (String × String)}
    (h : DownloadedInv env m) : (m.map Prod.snd).Nodup := by
  have hnodup : m.Nodup := List.Nodup.of_map _ h.1
  refine List.Nodup.map_on ?_ hnodup
  rintro ⟨s, p⟩ hs ⟨t, q⟩ ht hpq
  simp only at hpq
  subst hpq
  rw [DownloadedInv_key_of_path h hs ht]

theorem fetchIteration_inv {env : Env} {flagDict : FlagDict} {st st1 : FetchState}
    {specifier : Specifier} (h : fetchIteration env flagDict st specifier = .ok st1)
    (hinv : DownloadedInv env st.downloadedToothFilePathMap) :
    DownloadedInv env st1.downloadedToothFilePathMap := by
  rcases fetchIteration_ok_cases h with ⟨-, h1⟩ |
    ⟨hnew, isCached, path, w, toothFile, proceed, hget, -, -, -, h1⟩
  · rw [h1]
    exact hinv
  · rcases h1 with ⟨-, h2, -⟩ | ⟨-, h2, -⟩
    · rw [h2]
      exact hinv
    · rw [h2]
      refine ⟨?_, ?_⟩
      · rw [List.map_append, List.nodup_append]
        refine ⟨hinv.1, by simp, ?_⟩
        intro k hk1 hk2
        simp only [List.map_cons, List.map_nil, List.mem_singleton] at hk2
        subst hk2
        exact not_mem_keys_of_lookup_none hnew hk1
      · intro e he
        rcases List.mem_append.1 he with he | he
        · exact hinv.2 e he
        · simp only [List.mem_singleton] at he
          subst he
          exact getTooth_ok hget

theorem fetchLoop_inv {env : Env} {flagDict : FlagDict} (fuel : Nat) {st st1 : FetchState}
    (hinv : DownloadedInv env st.downloadedToothFilePathMap)
    (h : fetchLoop env flagDict fuel st = some (.ok st1)) :
    DownloadedInv env st1.downloadedToothFilePathMap := by
  induction fuel generalizing st with
  | zero =>
    unfold fetchLoop at h
    split at h
    · cases h
      exact hinv
    · cases h
  | succ fuel ih =>
    unfold fetchLoop at h
    split at h
    · cases h
      exact hinv
    · simp only at h
      split at h
      · cases h
      · rename_i st2 hiter
        exact ih (fetchIteration_inv hiter hinv) h

theorem fetchIteration_count {env : Env} {flagDict : FlagDict} {st st1 : FetchState}
    {specifier : Specifier} {key : String}
    (h : fetchIteration env flagDict st specifier = .ok st1)
    (hkey : key ∈ st.downloadedToothFilePathMap.map Prod.fst) :
    key ∈ st1.downloadedToothFilePathMap.map Prod.fst ∧
      st1.sys.trace.countP (Event.isFetchOf key) = st.sys.trace.countP (Event.isFetchOf key) := by
  rcases fetchIteration_ok_cases h with ⟨-, h1⟩ |
    ⟨hnew, isCached, path, w, toothFile, proceed, -, -, -, hsys, h1⟩
  · rw [h1]
    exact ⟨hkey, rfl⟩
  · have hne : specifier.canonical ≠ key := by
      intro heq
      rw [heq] at hnew
      exact not_mem_keys_of_lookup_none hnew hkey
    have hcount : st1.sys.trace.countP (Event.isFetchOf key) =
        st.sys.trace.countP (Event.isFetchOf key) := by
      rw [hsys]
      simp [List.countP_append, Event.isFetchOf, hne]
    rcases h1 with ⟨-, h2, -⟩ | ⟨-, h2, -⟩
    · rw [h2]
      exact ⟨hkey, hcount⟩
    · rw [h2]
      exact ⟨by simp only [List.map_append, List.mem_append]; exact Or.inl hkey, hcount⟩

theorem fetchLoop_count {env : Env} {flagDict : FlagDict} (fuel : Nat) {st st1 : FetchState}
    {key : String} (hkey : key ∈ st.downloadedToothFilePathMap.map Prod.fst)
    (h : fetchLoop env flagDict fuel st = some (.ok st1)) :
    key ∈ st1.downloadedToothFilePathMap.map Prod.fst ∧
      st1.sys.trace.countP (Event.isFetchOf key) = st.sys.trace.countP (Event.isFetchOf key) := by
  induction fuel generalizing st with
  | zero =>
    unfold fetchLoop at h
    split at h
    · cases h
      exact ⟨hkey, rfl⟩
    · cases h
  | succ fuel ih =>
    unfold fetchLoop at h
    split at h
    · cases h
      exact ⟨hkey, rfl⟩
    · simp only at h
      split at h
      · cases h
      · rename_i st2 hiter
        have h1 := fetchIteration_count hiter hkey
        have h2 := ih h1.1 h
        exact ⟨h2.1, h2.2.trans h1.2⟩

/-! ## C6: the resolver does not fetch or plan a specifier twice -/

theorem toothfileNew_filePath {w : World} {path : String} {toothFile : ToothFile}
    (h : toothfileNew w path = .ok toothFile) : toothFile.filePath = path := by
  unfold toothfileNew at h
  split at h
  · cases h
    rfl
  · cases h

theorem collectToothFiles_ok {roots : List Specifier} {sys : Sys}
    (entries : List (String × String)) {acc : List ToothFile} {accManual : List String}
    {plan : List ToothFile} {manual : List String}
    (h : collectToothFiles roots sys entries acc accManual = .ok (plan, manual)) :
    plan.map (fun toothFile => toothFile.filePath) =
        acc.map (fun toothFile => toothFile.filePath) ++ entries.map Prod.snd ∧
      manual = accManual ++
        (entries.filter fun e => roots.any fun r => r.canonical == e.1).map Prod.snd ∧
      ∀ toothFile ∈ plan, toothFile ∈ acc ∨
        toothfileNew sys.world toothFile.filePath = .ok toothFile := by
  induction entries generalizing acc accManual with
  | nil =>
    simp only [collectToothFiles, Outcome.ok.injEq, Prod.mk.injEq] at h
    obtain ⟨h1, h2⟩ := h
    subst h1 h2
    exact ⟨by simp, by simp, fun _ ht => Or.inl ht⟩
  | cons entry rest ih =>
    obtain ⟨specifierString, path⟩ := entry
    simp only [collectToothFiles] at h
    split at h
    · cases h
    · rename_i toothFile hopen
      have hpath := toothfileNew_filePath hopen
      obtain ⟨h1, h2, h3⟩ := ih h
      refine ⟨?_, ?_, ?_⟩
      · rw [h1]
        simp [hpath]
      · rw [h2]
        cases hroot : roots.any fun r => r.canonical == specifierString with
        | false => simp [List.filter_cons, hroot]
        | true => simp [List.filter_cons, hroot, hpath]
      · intro tf htf
        rcases h3 tf htf with h4 | h4
        · rcases List.mem_append.1 h4 with h5 | h5
          · exact Or.inl h5
          · simp only [List.mem_singleton] at h5
            subst h5
            right
            rw [hpath]
            exact hopen
        · exact Or.inr h4

theorem fetchLoop_nil (env : Env) (flagDict : FlagDict) (fuel : Nat) (st : FetchState)
    (h : st.specifiersToFetch = []) : fetchLoop env flagDict fuel st = some (.ok st) := by
  cases fuel <;> simp [fetchLoop, h]

theorem fetchLoop_cons_zero (env : Env) (flagDict : FlagDict) (st : FetchState)
    (specifier : Specifier) (rest : List Specifier)
    (h : st.specifiersToFetch = specifier :: rest) : fetchLoop env flagDict 0 st = none := by
  simp [fetchLoop, h]

theorem fetchLoop_cons_succ (env : Env) (flagDict : FlagDict) (fuel : Nat) (st : FetchState)
    (specifier : Specifier) (rest : List Specifier)
    (h : st.specifiersToFetch = specifier :: rest) :
    fetchLoop env flagDict (fuel + 1) st =
      match fetchIteration env flagDict { st with specifiersToFetch := rest } specifier with
      | .exit code failure sys => some (.exit code failure sys)
      | .ok st1 => fetchLoop env flagDict fuel st1 := by
  rw [fetchLoop]
  simp only [h]

theorem fetchLoop_duplicate_roots {env : Env} {flagDict : FlagDict} {fuel : Nat} {w : World}
    {A : Specifier} {st : FetchState}
    (h : fetchLoop env flagDict fuel (initialState w [A, A]) = some (.ok st))
    (hkey : A.canonical ∈ st.downloadedToothFilePathMap.map Prod.fst) :
    st.sys.trace.countP (Event.isFetchOf A.canonical) = 1 := by
  cases fuel with
  | zero =>
    rw [fetchLoop_cons_zero env flagDict _ A [A] rfl] at h
    cases h
  | succ fuel =>
    rw [fetchLoop_cons_succ env flagDict fuel _ A [A] rfl] at h
    split at h
    · cases h
    · rename_i st1 hiter
      rcases fetchIteration_ok_cases hiter with ⟨h0, -⟩ |
        ⟨-, isCached, path, w1, toothFile, proceed, hget, hopen, hcheck, hsys, h1⟩
      · simp [initialState] at h0
      · rcases h1 with ⟨hp, hmap, hqueue⟩ | ⟨-, hmap, -⟩
        · exfalso
          subst hp
          cases fuel with
          | zero =>
            rw [fetchLoop_cons_zero env flagDict _ A [] hqueue] at h
            cases h
          | succ fuel =>
            rw [fetchLoop_cons_succ env flagDict fuel _ A [] hqueue] at h
            split at h
            · cases h
            · rename_i st2 hiter2
              rcases fetchIteration_ok_cases hiter2 with ⟨h0, -⟩ |
                ⟨-, isCached2, path2, w2, toothFile2, proceed2, hget2, hopen2, hcheck2, hsys2,
                  h2⟩
              · rw [hmap] at h0
                simp [initialState] at h0
              · obtain ⟨cacheDir, hdir, hpath⟩ := getTooth_ok hget
                subst hpath
                simp only [hsys] at hget2 hcheck2
                rw [getTooth_hit hdir hopen] at hget2
                simp only [Prod.mk.injEq, Except.ok.injEq] at hget2
                obtain ⟨⟨hc, hp2⟩, hw⟩ := hget2
                subst hc hp2 hw
                rw [hopen] at hopen2
                cases hopen2
                have hcheck3 : Outcome.ok proceed2 = Outcome.ok false :=
                  hcheck2.symm.trans (checkInstalled_of_records hcheck _ rfl)
                cases hcheck3
                rcases h2 with ⟨-, hmap2, hqueue2⟩ | ⟨hp, -, -⟩
                · rw [fetchLoop_nil env flagDict fuel st2 hqueue2] at h
                  cases h
                  rw [hmap2, hmap] at hkey
                  simp [initialState] at hkey
                · cases hp
        · have hkey1 : A.canonical ∈ st1.downloadedToothFilePathMap.map Prod.fst := by
            rw [hmap]
            simp
          have hcount := (fetchLoop_count fuel hkey1 h).2
          rw [hcount, hsys]
          simp [Event.isFetchOf, initialState]

theorem fetchLoop_noDependencies_returns (env : Env) (flagDict : FlagDict)
    (hno : flagDict.noDependenciesFlag = true) (fuel : Nat) (st : FetchState)
    (hfuel : st.specifiersToFetch.length ≤ fuel) :
    ∃ out, fetchLoop env flagDict fuel st = some out := by
  induction fuel generalizing st with
  | zero =>
    have hnil : st.specifiersToFetch = [] := List.length_eq_zero.1 (by omega)
    exact ⟨_, fetchLoop_nil env flagDict 0 st hnil⟩
  | succ fuel ih =>
    cases hq : st.specifiersToFetch with
    | nil => exact ⟨_, fetchLoop_nil env flagDict _ st hq⟩
    | cons specifier rest =>
      rw [fetchLoop_cons_succ env flagDict fuel st specifier rest hq]
      have hlen : rest.length ≤ fuel := by
        rw [hq] at hfuel
        simp only [List.length_cons] at hfuel
        omega
      cases hiter : fetchIteration env flagDict { st with specifiersToFetch := rest }
          specifier with
      | exit code failure sys => exact ⟨_, rfl⟩
      | ok st1 =>
        simp only
        apply ih
        rcases fetchIteration_ok_cases hiter with ⟨-, h1⟩ |
          ⟨-, isCached, path, w1, toothFile, proceed, -, -, -, -, h1⟩
        · rw [h1]
          exact hlen
        · rcases h1 with ⟨-, -, hqueue⟩ | ⟨-, -, hqueue⟩
          · rw [hqueue]
            exact hlen
          · rw [hqueue hno]
            exact hlen

theorem lookup_mem_of_some {m : List (String × String)} {key value : String}
    (h : m.lookup key = some value) : (key, value) ∈ m := by
  rw [List.lookup_eq_some_iff] at h
  obtain ⟨l1, l2, hm, -⟩ := h
  rw [hm]
  simp

/-- C6. Resolver dedup. A specifier taken from the queue whose canonical string
is already a key of `downloaded` is dropped: the iteration changes nothing,
so it is neither fetched nor expanded again. Whenever the fetch loop ends, no
specifier string is a key of `downloaded` twice and no path is recorded twice,
and the plan built from `downloaded` holds one archive per entry, in the same
order, and no archive twice. For the root list `[A, A]`, if the loop ends and
`A` was entered in `downloaded` (it was not skipped as already installed),
then `A` was fetched exactly once, is a key exactly once, and exactly one
archive of the plan is the one recorded for `A`. With `--no-dependencies` the
loop ends within as many iterations as there are roots. -/
theorem resolver_dedup (env : Env) (flagDict : FlagDict) :
    (∀ st specifier,
      (st.downloadedToothFilePathMap.lookup specifier.canonical).isSome = true →
      fetchIteration env flagDict st specifier = .ok st) ∧
    (∀ fuel w roots st,
      fetchLoop env flagDict fuel (initialState w roots) = some (.ok st) →
      (st.downloadedToothFilePathMap.map Prod.fst).Nodup ∧
      (st.downloadedToothFilePathMap.map Prod.snd).Nodup ∧
      ∀ plan manual,
        collectToothFiles roots st.sys st.downloadedToothFilePathMap [] [] =
          .ok (plan, manual) →
        plan.map (fun toothFile => toothFile.filePath) =
          st.downloadedToothFilePathMap.map Prod.snd ∧ plan.Nodup) ∧
    (∀ fuel w A st path,
      fetchLoop env flagDict fuel (initialState w [A, A]) = some (.ok st) →
      st.downloadedToothFilePathMap.lookup A.canonical = some path →
      st.sys.trace.countP (Event.isFetchOf A.canonical) = 1 ∧
      (st.downloadedToothFilePathMap.map Prod.fst).count A.canonical = 1 ∧
      ∀ plan manual,
        collectToothFiles [A, A] st.sys st.downloadedToothFilePathMap [] [] =
          .ok (plan, manual) →
        plan.countP (fun toothFile => toothFile.filePath == path) = 1) ∧
    (flagDict.noDependenciesFlag = true →
      ∀ fuel w roots, roots.length ≤ fuel →
        ∃ out, fetchLoop env flagDict fuel (initialState w roots) = some out) := by
  have hgeneral : ∀ fuel w roots st,
      fetchLoop env flagDict fuel (initialState w roots) = some (.ok st) →
      (st.downloadedToothFilePathMap.map Prod.fst).Nodup ∧
      (st.downloadedToothFilePathMap.map Prod.snd).Nodup ∧
      ∀ plan manual,
        collectToothFiles roots st.sys st.downloadedToothFilePathMap [] [] =
          .ok (plan, manual) →
        plan.map (fun toothFile => toothFile.filePath) =
          st.downloadedToothFilePathMap.map Prod.snd ∧ plan.Nodup := by
    intro fuel w roots st hloop
    have hinv := fetchLoop_inv fuel (DownloadedInv_nil env) hloop
    refine ⟨hinv.1, DownloadedInv_paths_nodup hinv, ?_⟩
    intro plan manual hplan
    have hpaths := (collectToothFiles_ok _ hplan).1
    simp only [List.map_nil, List.nil_append] at hpaths
    refine ⟨hpaths, List.Nodup.of_map (fun toothFile => toothFile.filePath) ?_⟩
    rw [hpaths]
    exact DownloadedInv_paths_nodup hinv
  refine ⟨fetchIteration_dropped env flagDict, hgeneral, ?_,
    fun hno fuel w roots hfuel =>
      fetchLoop_noDependencies_returns env flagDict hno fuel (initialState w roots) hfuel⟩
  intro fuel w A st path hloop hlookup
  obtain ⟨hkeys, hpathsNodup, hplans⟩ := hgeneral fuel w [A, A] st hloop
  have hmem := lookup_mem_of_some hlookup
  have hkey : A.canonical ∈ st.downloadedToothFilePathMap.map Prod.fst :=
    List.mem_map.2 ⟨_, hmem, rfl⟩
  refine ⟨fetchLoop_duplicate_roots hloop hkey, List.count_eq_one_of_mem hkeys hkey, ?_⟩
  intro plan manual hplan
  have hpaths := (hplans plan manual hplan).1
  have hpath : path ∈ st.downloadedToothFilePathMap.map Prod.snd :=
    List.mem_map.2 ⟨_, hmem, rfl⟩
  have hcount := List.count_eq_one_of_mem hpathsNodup hpath
  rw [← hpaths, List.count_eq_countP, List.countP_map] at hcount
  exact hcount

/-- Witness of C6: `lip install` of `example.com/app` given twice, into an empty
workspace, fetches the archive of the application once and records it once. -/
theorem resolver_dedup_witness :
    fetchLoop libEnv plainFlags 5 (initialState emptyWorld [app, app]) = some (.ok appFetched) ∧
      appFetched.sys.trace.countP (Event.isFetchOf app.canonical) = 1 ∧
      (appFetched.downloadedToothFilePathMap.map Prod.fst).count app.canonical = 1 := by
  have hloop : fetchLoop libEnv plainFlags 5 (initialState emptyWorld [app, app]) =
      some (.ok appFetched) := by decide
  have h := (resolver_dedup libEnv plainFlags).2.2.1 5 emptyWorld app appFetched appPath hloop
    (by decide)
  exact ⟨hloop, h.1, h.2.1⟩

/-! ## C7: which installed tooth is marked manual -/

theorem installLoop_events {env : Env} {flagDict : FlagDict} {manual : List String}
    (toothFiles : List ToothFile) {sys : Sys} {out : Outcome Sys}
    (h : installLoop env flagDict manual sys toothFiles = out) :
    ∀ e ∈ out.finalSys.trace, e ∈ sys.trace ∨
      ∃ toothFile ∈ toothFiles,
        e = Event.installed toothFile (manual.any fun path => toothFile.filePath == path) := by
  induction toothFiles generalizing sys with
  | nil =>
    simp only [installLoop] at h
    subst h
    exact fun e he => Or.inl he
  | cons toothFile rest ih =>
    simp only [installLoop] at h
    split at h
    · intro e he
      rcases ih h e he with h1 | ⟨tf, htf, h1⟩
      · exact Or.inl h1
      · exact Or.inr ⟨tf, List.mem_cons_of_mem _ htf, h1⟩
    · split at h
      · subst h
        exact fun e he => Or.inl he
      · rename_i sys1 hinst
        obtain ⟨-, htrace⟩ := install_ok hinst
        intro e he
        rcases ih h e he with h1 | ⟨tf, htf, h1⟩
        · rw [htrace] at h1
          rcases List.mem_append.1 h1 with h2 | h2
          · exact Or.inl h2
          · simp only [List.mem_singleton] at h2
            exact Or.inr ⟨toothFile, List.mem_cons_self _ _, h2⟩
        · exact Or.inr ⟨tf, List.mem_cons_of_mem _ htf, h1⟩

theorem mainPass_events {env : Env} {flagDict : FlagDict} {roots : List Specifier}
    {downloaded : List (String × String)} {sys : Sys} {out : Outcome Sys}
    (h : mainPass env flagDict roots downloaded sys = out) :
    ∀ e ∈ out.finalSys.trace, e ∈ sys.trace ∨
      ∃ plan manual sorted toothFile,
        collectToothFiles roots sys downloaded [] [] = .ok (plan, manual) ∧
        env.sortToothFiles plan = .ok sorted ∧ toothFile ∈ sorted ∧
        e = Event.installed toothFile (manual.any fun path => toothFile.filePath == path) := by
  unfold mainPass at h
  split at h
  · rename_i code failure sys1 hcollect
    obtain ⟨h1, -, -⟩ := collectToothFiles_exit _ hcollect
    subst h h1
    exact fun e he => Or.inl he
  · rename_i plan manual hcollect
    split at h
    · subst h
      exact fun e he => Or.inl he
    · rename_i sorted hsort
      intro e he
      rcases installLoop_events _ h e he with h1 | ⟨tf, htf, h1⟩
      · exact Or.inl h1
      · exact Or.inr ⟨plan, manual, sorted, tf, hcollect, hsort, htf, h1⟩

theorem not_installed_of_fetch_or_uninstall {toothFile : ToothFile} {manual : Bool}
    {t1 t2 : List Event} (h1 : ∀ e ∈ t1, e.isFetch = true) (h2 : ∀ e ∈ t2, e.isUninstall = true)
    (h : Event.installed toothFile manual ∈ t1 ++ t2) : False := by
  rcases List.mem_append.1 h with h | h
  · have := h1 _ h
    simp [Event.isFetch] at this
  · have := h2 _ h
    simp [Event.isUninstall] at this

/-- C7. Manual marking. For every call of `install` in a run, on the tooth file
`toothFile` with the mark `isManuallyInstalled`: the specifiers were validated
and the fetch loop ended, and for the specifier string under which the path of
that archive is recorded in `downloaded`, the mark is true exactly when some
root specifier has that canonical string; so an archive recorded only under
the string of a dependency is installed with the mark false. Read off the
two loops of `Run`, the mark is true exactly when the path of the archive is
recorded under the string of some root; the two agree because the path in the
cache determines the specifier string. If the planner returns only tooth
files that it was given, the path of the archive is recorded in `downloaded`. -/
theorem manual_marking (env : Env) (flagDict : FlagDict) (args : List String) (fuel : Nat)
    (w : World) (out : Outcome Sys) (toothFile : ToothFile) (isManuallyInstalled : Bool)
    (hrun : Run env flagDict args fuel w = some out)
    (hev : Event.installed toothFile isManuallyInstalled ∈ out.finalSys.trace) :
    ∃ roots st, validateSpecifiers env args = .ok roots ∧
      fetchLoop env flagDict fuel (initialState w roots) = some (.ok st) ∧
      (∀ specifierString,
        (specifierString, toothFile.filePath) ∈ st.downloadedToothFilePathMap →
        (isManuallyInstalled = true ↔ ∃ r ∈ roots, r.canonical = specifierString)) ∧
      (isManuallyInstalled = true ↔
        ∃ specifierString, (specifierString, toothFile.filePath) ∈
          st.downloadedToothFilePathMap ∧ ∃ r ∈ roots, r.canonical = specifierString) ∧
      ((∀ l sorted, env.sortToothFiles l = .ok sorted → ∀ x ∈ sorted, x ∈ l) →
        ∃ specifierString,
          (specifierString, toothFile.filePath) ∈ st.downloadedToothFilePathMap) := by
  rcases Run_cases hrun with ⟨-, h1⟩ | ⟨-, -, h1⟩ | ⟨-, -, err, -, h1⟩ | ⟨-, -, roots, hval, h1⟩
  · subst h1
    simp [Outcome.finalSys] at hev
  · subst h1
    simp [Outcome.finalSys] at hev
  · subst h1
    simp [Outcome.finalSys] at hev
  · rcases h1 with ⟨code1, failure1, sys1, hloop, h2⟩ | ⟨st, hloop, h2⟩
    · subst h2
      obtain ⟨⟨-, t, ht, he⟩, -⟩ := fetchLoop_fetchOnly fuel hloop
      simp only [Outcome.fetchSys, List.nil_append] at ht
      simp only [Outcome.finalSys, ht] at hev
      have hnone : ∀ e ∈ ([] : List Event), e.isUninstall = true := by simp
      exact (not_installed_of_fetch_or_uninstall he hnone (by simpa using hev)).elim
    · obtain ⟨⟨-, t1, ht1, he1⟩, -⟩ := fetchLoop_fetchOnly fuel hloop
      simp only [Outcome.fetchSys, List.nil_append] at ht1
      have hinv := fetchLoop_inv fuel (DownloadedInv_nil env) hloop
      refine ⟨roots, st, hval, hloop, ?_⟩
      unfold afterFetch at h2
      cases hpre : prePass env flagDict roots st.downloadedToothFilePathMap st.sys with
      | exit code failure sys1 =>
        rw [hpre] at h2
        subst h2
        obtain ⟨⟨-, t2, ht2, he2⟩, -⟩ := prePass_uninstallOnly hpre
        simp only [Outcome.finalSys] at ht2 hev
        rw [ht2, ht1] at hev
        exact (not_installed_of_fetch_or_uninstall he1 he2 hev).elim
      | ok sys1 =>
        rw [hpre] at h2
        simp only at h2
        obtain ⟨⟨-, t2, ht2, he2⟩, -⟩ := prePass_uninstallOnly hpre
        simp only [Outcome.finalSys] at ht2
        rcases mainPass_events h2.symm _ hev with h3 | ⟨plan, manual, sorted, tf, hcollect, hsort,
          htf, h3⟩
        · rw [ht2, ht1] at h3
          exact (not_installed_of_fetch_or_uninstall he1 he2 h3).elim
        · simp only [Event.installed.injEq] at h3
          obtain ⟨h4, h5⟩ := h3
          subst h4
          obtain ⟨hpaths, hmanual, hplan⟩ := collectToothFiles_ok _ hcollect
          simp only [List.map_nil, List.nil_append] at hpaths hmanual
          have hliteral : isManuallyInstalled = true ↔
              ∃ specifierString, (specifierString, toothFile.filePath) ∈
                st.downloadedToothFilePathMap ∧ ∃ r ∈ roots, r.canonical = specifierString := by
            rw [h5, List.any_eq_true]
            constructor
            · rintro ⟨path, hpath, heq⟩
              rw [hmanual, List.mem_map] at hpath
              obtain ⟨⟨s, p⟩, hs, hp⟩ := hpath
              simp only at hp
              subst hp
              rw [List.mem_filter] at hs
              obtain ⟨hs1, hs2⟩ := hs
              have heq1 : toothFile.filePath = p := by simpa using heq
              rw [List.any_eq_true] at hs2
              obtain ⟨r, hr, hrs⟩ := hs2
              exact ⟨s, by rw [heq1]; exact hs1, r, hr, by simpa using hrs⟩
            · rintro ⟨specifierString, hentry, r, hr, hrs⟩
              refine ⟨toothFile.filePath, ?_, by simp⟩
              rw [hmanual, List.mem_map]
              refine ⟨(specifierString, toothFile.filePath), ?_, rfl⟩
              rw [List.mem_filter]
              refine ⟨hentry, ?_⟩
              rw [List.any_eq_true]
              exact ⟨r, hr, by simp [hrs]⟩
          refine ⟨?_, hliteral, ?_⟩
          · intro specifierString hentry
            rw [hliteral]
            constructor
            · rintro ⟨s, hs, r, hr, hrs⟩
              have hkey := DownloadedInv_key_of_path hinv hentry hs
              exact ⟨r, hr, by rw [hkey]; exact hrs⟩
            · rintro ⟨r, hr, hrs⟩
              exact ⟨specifierString, hentry, r, hr, hrs⟩
          · intro hplanner
            have hmem := hplanner plan sorted hsort toothFile htf
            have hpath : toothFile.filePath ∈ plan.map fun tf => tf.filePath :=
              List.mem_map.2 ⟨toothFile, hmem, rfl⟩
            rw [hpaths, List.mem_map] at hpath
            obtain ⟨⟨s, p⟩, hs, hp⟩ := hpath
            simp only at hp
            subst hp
            exact ⟨s, hs⟩

/-- Witness of C7: in `lip install example.com/app@1.0.0` into an empty workspace
the library, fetched only as a dependency, is installed with the mark false,
and its specifier string is not the string of a root. -/
theorem manual_marking_witness :
    ∃ roots st, validateSpecifiers libEnv ["example.com/app@1.0.0"] = .ok roots ∧
      fetchLoop libEnv plainFlags 5 (initialState emptyWorld roots) = some (.ok st) ∧
      (∀ specifierString,
        (specifierString, lib2Path) ∈ st.downloadedToothFilePathMap →
        (false = true ↔ ∃ r ∈ roots, r.canonical = specifierString)) ∧
      (false = true ↔
        ∃ specifierString, (specifierString, lib2Path) ∈
          st.downloadedToothFilePathMap ∧ ∃ r ∈ roots, r.canonical = specifierString) ∧
      ((∀ l sorted, libEnv.sortToothFiles l = .ok sorted → ∀ x ∈ sorted, x ∈ l) →
        ∃ specifierString, (specifierString, lib2Path) ∈ st.downloadedToothFilePathMap) :=
  manual_marking libEnv plainFlags ["example.com/app@1.0.0"] 5 emptyWorld (.ok appInstalled)
    { filePath := lib2Path, metadata := lib2Manifest } false (by decide) (by decide)

/-! ## C11: the name of a cached tooth file -/

/-- C11, the failing input. For the remote archive specifier
`https://example.com/get?id=7.tth` the name that `GetCachedToothFileName`
returns contains a slash, because `base64.StdEncoding` writes the digit 63 as a
slash; it is not the URL-safe encoding, which writes it as an underscore, and
it is not a single path component under the cache directory. For
`example.com/f@~1.0.0` the name contains a plus sign. -/
theorem cached_file_name_has_slash :
    GetCachedToothFileName "https://example.com/get?id=7.tth" =
        "aHR0cHM6Ly9leGFtcGxlLmNvbS9nZXQ/aWQ9Ny50dGg=.tt" ∧
      '/' ∈ (GetCachedToothFileName "https://example.com/get?id=7.tth").data ∧
      urlSafeCachedToothFileName "https://example.com/get?id=7.tth" =
        "aHR0cHM6Ly9leGFtcGxlLmNvbS9nZXQ_aWQ9Ny50dGg=.tt" ∧
      GetCachedToothFileName "https://example.com/get?id=7.tth" ≠
        urlSafeCachedToothFileName "https://example.com/get?id=7.tth" ∧
      GetCachedToothFileName "example.com/f@~1.0.0" = "ZXhhbXBsZS5jb20vZkB+MS4wLjA=.tt" ∧
      '+' ∈ (GetCachedToothFileName "example.com/f@~1.0.0").data := by
  refine ⟨by decide, by decide, by decide, by decide, by decide, by decide⟩

/-! ## C12: exit codes -/

theorem Run_exit_code {env : Env} {flagDict : FlagDict} {args : List String} {fuel : Nat}
    {w : World} {code : Nat} {failure : Failure} {sys : Sys}
    (h : Run env flagDict args fuel w = some (.exit code failure sys)) : code = 1 := by
  rcases Run_cases h with ⟨-, h1⟩ | ⟨-, -, h1⟩ | ⟨-, -, err, -, h1⟩ | ⟨-, -, roots, -, h1⟩
  · cases h1
  · cases h1
    rfl
  · cases h1
    rfl
  · rcases h1 with ⟨code1, failure1, sys1, hloop, h2⟩ | ⟨st, hloop, h2⟩
    · cases h2
      exact ((fetchLoop_fetchOnly fuel hloop).2 _ _ _ rfl).1
    · exact ((afterFetch_phases h2.symm).2 _ _ _ rfl).1

theorem parseOne_ne_errHelp (flagDict : FlagDict) (s : String) :
    parseOne flagDict s ≠ .errHelp := by
  unfold parseOne
  split
  · simp
  · simp
  · rename_i first second tail _
    by_cases hfirst : first ≠ '-'
    · rw [if_pos hfirst]
      simp
    · rw [if_neg hfirst]
      by_cases hterm : second = '-' ∧ tail = []
      · rw [if_pos hterm]
        simp
      · rw [if_neg hterm]
        split
        · simp
        · rename_i c more _
          by_cases hbad : c = '-' ∨ c = '='
          · rw [if_pos hbad]
            simp
          · rw [if_neg hbad]
            by_cases hdefined : String.mk (c :: (splitValue more).1) ∈ flagNames
            · rw [if_pos hdefined]
              split
              · simp
              · split <;> simp
            · rw [if_neg hdefined]
              by_cases hhelp : String.mk (c :: (splitValue more).1) = "help" ∨
                  String.mk (c :: (splitValue more).1) = "h"
              · exfalso
                apply hdefined
                rcases hhelp with h | h <;> rw [h] <;> decide
              · rw [if_neg hhelp]
                simp

theorem flagSetParse_exit_code {arguments : List String} {flagDict : FlagDict} {code : Nat}
    {argument : String} (h : flagSetParse flagDict arguments = .exit code argument) :
    code = 2 ∧ argument ∈ arguments := by
  induction arguments generalizing flagDict with
  | nil => simp [flagSetParse] at h
  | cons s rest ih =>
    unfold flagSetParse at h
    cases hone : parseOne flagDict s with
    | seen flagDict1 =>
      rw [hone] at h
      have := ih h
      exact ⟨this.1, List.mem_cons_of_mem _ this.2⟩
    | terminator =>
      rw [hone] at h
      cases h
    | positional =>
      rw [hone] at h
      cases h
    | failed =>
      rw [hone] at h
      cases h
      exact ⟨rfl, List.mem_cons_self _ _⟩
    | errHelp => exact absurd hone (parseOne_ne_errHelp flagDict s)

theorem RunFromArguments_of_parsed {env : Env} {arguments : List String} {fuel : Nat}
    {w : World} {flagDict : FlagDict} {args : List String}
    (h : flagSetParse defaultFlagDict arguments = .ok flagDict args) :
    RunFromArguments env arguments fuel w = Run env flagDict args fuel w := by
  unfold RunFromArguments
  rw [h]

theorem RunFromArguments_of_exit {env : Env} {arguments : List String} {fuel : Nat}
    {w : World} {code : Nat} {argument : String}
    (h : flagSetParse defaultFlagDict arguments = .exit code argument) :
    RunFromArguments env arguments fuel w =
      some (.exit code (.BadFlag argument) { world := w, trace := [] }) := by
  unfold RunFromArguments
  rw [h]

/-- Every value of the flags and every list of remaining arguments comes from a
command line: the statements about `Run` on arbitrary flags are statements
about runs of `lip install`. -/
theorem flagSetParse_commandLine (flagDict : FlagDict) (args : List String) :
    flagSetParse defaultFlagDict (commandLine flagDict args) = .ok flagDict args := by
  obtain ⟨helpFlag, upgradeFlag, forceReinstallFlag, yesFlag, numericProgressFlag,
    noDependenciesFlag⟩ := flagDict
  cases helpFlag <;> cases upgradeFlag <;> cases forceReinstallFlag <;> cases yesFlag <;>
    cases numericProgressFlag <;> cases noDependenciesFlag <;> rfl

/-- Counterexample to C12 as stated: `lip install` and `lip install -y`, without
a specifier and without the help flag, exit with code 1, not 2. -/
theorem usage_error_counterexample :
    RunFromArguments xEnv [] 5 xWorld =
        some (.exit 1 .TooFewArguments { world := xWorld, trace := [] }) ∧
      RunFromArguments xEnv ["-y"] 5 xWorld =
        some (.exit 1 .TooFewArguments { world := xWorld, trace := [] }) ∧
      (Outcome.exit 1 .TooFewArguments { world := xWorld, trace := [] }).exitCode ≠ 2 := by
  refine ⟨by decide, by decide, by decide⟩

/-- C12, amended. For every argument list of `lip install`, whatever the
environment, the fuel and the world: when the flag parser accepts the list and
leaves no specifier, and the help flag is not set, the run ends with exit code
1 and the failure `TooFewArguments`, in the world it started in and with no
action performed; when the flag parser rejects the list, the run ends with
exit code 2, also in the world it started in and with no action performed, and
the parser exits with no other code; every outcome has exit code 0, 1 or 2,
exit code 0 exactly when `Run` returns, exit code 2 exactly when the flag
parser rejects the list, and exit code 1 exactly when the parser accepts the
list and the rest of `Run` ends in a failure. -/
theorem usage_error_exit_code (env : Env) (arguments : List String) (fuel : Nat) (w : World) :
    (∀ flagDict, flagSetParse defaultFlagDict arguments = .ok flagDict [] →
        flagDict.helpFlag = false →
        RunFromArguments env arguments fuel w =
          some (.exit 1 .TooFewArguments { world := w, trace := [] })) ∧
      (∀ code argument, flagSetParse defaultFlagDict arguments = .exit code argument →
        code = 2 ∧
        RunFromArguments env arguments fuel w =
          some (.exit 2 (.BadFlag argument) { world := w, trace := [] })) ∧
      (∀ out, RunFromArguments env arguments fuel w = some out →
        (out.exitCode = 0 ∨ out.exitCode = 1 ∨ out.exitCode = 2) ∧
        (out.exitCode = 0 ↔ ∃ sys, out = .ok sys) ∧
        (out.exitCode = 2 ↔
          ∃ argument, flagSetParse defaultFlagDict arguments = .exit 2 argument) ∧
        (out.exitCode = 1 ↔
          ∃ flagDict args failure sys,
            flagSetParse defaultFlagDict arguments = .ok flagDict args ∧
            Run env flagDict args fuel w = some (.exit 1 failure sys) ∧
            out = .exit 1 failure sys)) := by
  refine ⟨?_, ?_, ?_⟩
  · intro flagDict hparse hhelp
    rw [RunFromArguments_of_parsed hparse]
    unfold Run
    simp [hhelp]
  · intro code argument hparse
    have hcode := (flagSetParse_exit_code hparse).1
    subst hcode
    exact ⟨rfl, RunFromArguments_of_exit hparse⟩
  · intro out hrun
    cases hparse : flagSetParse defaultFlagDict arguments with
    | exit code argument =>
      have hcode := (flagSetParse_exit_code hparse).1
      subst hcode
      rw [RunFromArguments_of_exit hparse] at hrun
      cases hrun
      simp [Outcome.exitCode]
    | ok flagDict args =>
      rw [RunFromArguments_of_parsed hparse] at hrun
      cases out with
      | ok sys => simp [Outcome.exitCode]
      | exit code failure sys =>
        have hcode := Run_exit_code hrun
        subst hcode
        simp only [Outcome.exitCode, true_or, or_true, OfNat.ofNat_ne_zero, false_iff,
          not_exists, OfNat.one_ne_ofNat, true_iff, true_and]
        refine ⟨by simp, by simp, flagDict, args, failure, sys, rfl, hrun, rfl⟩

/-- Witness of C12, amended, in the world with `x.io/x@2.0.0` installed:
`lip install --upgrade -y` without a specifier exits with code 1, and
`lip install --bogus x.io/x`, `lip install -y=maybe` and `lip install ---y`
exit with code 2. -/
theorem usage_error_exit_code_witness :
    RunFromArguments xEnv ["--upgrade", "-y"] 5 xWorld =
        some (.exit 1 .TooFewArguments { world := xWorld, trace := [] }) ∧
      RunFromArguments xEnv ["--bogus", "x.io/x"] 5 xWorld =
        some (.exit 2 (.BadFlag "--bogus") { world := xWorld, trace := [] }) ∧
      RunFromArguments xEnv ["-y=maybe"] 5 xWorld =
        some (.exit 2 (.BadFlag "-y=maybe") { world := xWorld, trace := [] }) ∧
      RunFromArguments xEnv ["---y"] 5 xWorld =
        some (.exit 2 (.BadFlag "---y") { world := xWorld, trace := [] }) :=
  ⟨(usage_error_exit_code xEnv ["--upgrade", "-y"] 5 xWorld).1
      { defaultFlagDict with upgradeFlag := true, yesFlag := true } (by decide) (by decide),
    ((usage_error_exit_code xEnv ["--bogus", "x.io/x"] 5 xWorld).2.1 2 "--bogus"
      (by decide)).2,
    ((usage_error_exit_code xEnv ["-y=maybe"] 5 xWorld).2.1 2 "-y=maybe" (by decide)).2,
    ((usage_error_exit_code xEnv ["---y"] 5 xWorld).2.1 2 "---y" (by decide)).2⟩

/-! ## C14: the fetch loop ends -/

theorem lookup_filter_append (files : List (String × Option Metadata)) (path query : String)
    (content : Option Metadata) :
    ((files.filter fun e => e.1 != path) ++ [(path, content)]).lookup query =
      if query = path then some content else files.lookup query := by
  induction files with
  | nil =>
    by_cases hq : query = path
    · simp [List.lookup, hq]
    · have hq1 : (query == path) = false := by simpa using hq
      simp [List.lookup, hq, hq1]
  | cons e rest ih =>
    obtain ⟨k, v⟩ := e
    by_cases hk : k = path
    · subst hk
      have hf : ((k, v) :: rest).filter (fun e => e.1 != k) = rest.filter fun e => e.1 != k := by
        simp [List.filter_cons]
      rw [hf, ih]
      by_cases hq : query = k
      · simp [hq]
      · have hq1 : (query == k) = false := by simpa using hq
        simp [hq, List.lookup, hq1]
    · have hf : ((k, v) :: rest).filter (fun e => e.1 != path) =
          (k, v) :: rest.filter fun e => e.1 != path := by
        simp [List.filter_cons, hk]
      rw [hf, List.cons_append]
      by_cases hqk : query = k
      · subst hqk
        simp [List.lookup, hk]
      · have hq1 : (query == k) = false := by simpa using hqk
        simp only [List.lookup, hq1]
        exact ih

theorem lookup_filter (files : List (String × Option Metadata)) (path query : String) :
    (files.filter fun e => e.1 != path).lookup query =
      if query = path then none else files.lookup query := by
  induction files with
  | nil => simp [List.lookup]
  | cons e rest ih =>
    obtain ⟨k, v⟩ := e
    by_cases hk : k = path
    · subst hk
      have hf : ((k, v) :: rest).filter (fun e => e.1 != k) = rest.filter fun e => e.1 != k := by
        simp [List.filter_cons]
      rw [hf, ih]
      by_cases hq : query = k
      · simp [hq]
      · have hq1 : (query == k) = false := by simpa using hq
        simp [hq, List.lookup, hq1]
    · have hf : ((k, v) :: rest).filter (fun e => e.1 != path) =
          (k, v) :: rest.filter fun e => e.1 != path := by
        simp [List.filter_cons, hk]
      rw [hf]
      by_cases hqk : query = k
      · subst hqk
        simp [List.lookup, hk]
      · have hq1 : (query == k) = false := by simpa using hqk
        simp only [List.lookup, hq1]
        exact ih

theorem getTooth_filesInv {env : Env} {w0 w w1 : World} {specifier : Specifier}
    {res : Except String (Bool × String)} (hinv : FilesInv env w0 w)
    (hget : getTooth env w specifier = (res, w1)) : FilesInv env w0 w1 := by
  unfold getTooth at hget
  cases hdir : CacheDir env with
  | error err =>
    simp only [hdir, Prod.mk.injEq] at hget
    rw [← hget.2]
    exact hinv
  | ok cacheDir =>
    simp only [hdir] at hget
    have hmiss : ∀ res1 : Except String (Bool × String),
        (match env.origin specifier with
          | none =>
            ((Except.error ("cannot fetch " ++ specifier.canonical) :
                Except String (Bool × String)),
              osRemove w (cacheDir ++ "/" ++ GetCachedToothFileName specifier.canonical))
          | some content =>
            (.ok (false, cacheDir ++ "/" ++ GetCachedToothFileName specifier.canonical),
              { osRemove w (cacheDir ++ "/" ++ GetCachedToothFileName specifier.canonical) with
                files :=
                  (osRemove w
                    (cacheDir ++ "/" ++ GetCachedToothFileName specifier.canonical)).files ++
                    [(cacheDir ++ "/" ++ GetCachedToothFileName specifier.canonical,
                      content)] })) = (res1, w1) →
        FilesInv env w0 w1 := by
      intro res1 h
      cases horigin : env.origin specifier with
      | none =>
        simp only [horigin, Prod.mk.injEq] at h
        rw [← h.2]
        intro cacheDir1 canonical m hdir1 hlook
        simp only [osRemove, lookup_filter] at hlook
        split at hlook
        · cases hlook
        · exact hinv cacheDir1 canonical m hdir1 hlook
      | some content =>
        simp only [horigin, Prod.mk.injEq] at h
        rw [← h.2]
        intro cacheDir1 canonical m hdir1 hlook
        simp only [osRemove, lookup_filter_append] at hlook
        split at hlook
        · rename_i hpath
          rw [hdir] at hdir1
          cases hdir1
          have hkey := cachePath_inj cacheDir canonical specifier.canonical hpath
          simp only [Option.some.injEq] at hlook
          exact Or.inr ⟨specifier, hkey.symm, by rw [horigin, hlook]⟩
        · exact hinv cacheDir1 canonical m hdir1 hlook
    cases hl : w.files.lookup (cacheDir ++ "/" ++ GetCachedToothFileName specifier.canonical) with
    | none =>
      simp only [hl] at hget
      exact hmiss res hget
    | some content =>
      cases content with
      | none =>
        simp only [hl] at hget
        exact hmiss res hget
      | some metadata =>
        simp only [hl, Prod.mk.injEq] at hget
        rw [← hget.2]
        exact hinv

theorem selectVersion_some {env : Env} {toothPath : String} {versionRange : VersionRange}
    {queue queue1 : List Specifier} (versionList : List Version)
    (h : selectVersion env toothPath versionRange queue versionList = .ok (some queue1)) :
    ∃ version s, version ∈ versionList ∧ isAnyMatched env version versionRange = true ∧
      env.specifiersNew (toothPath ++ "@" ++ env.versionString version) = .ok s ∧
      queue1 = queue ++ [s] := by
  induction versionList with
  | nil => simp [selectVersion] at h
  | cons v rest ih =>
    simp only [selectVersion] at h
    by_cases hv : isAnyMatched env v versionRange = true
    · rw [if_pos hv] at h
      cases hnew : env.specifiersNew (toothPath ++ "@" ++ env.versionString v) with
      | error err =>
        simp only [hnew] at h
        cases h
      | ok s =>
        simp only [hnew, Except.ok.injEq, Option.some.injEq] at h
        exact ⟨v, s, List.mem_cons_self _ _, hv, hnew, h.symm⟩
    · rw [if_neg hv] at h
      obtain ⟨version, s, hmem, h1, h2, h3⟩ := ih h
      exact ⟨version, s, List.mem_cons_of_mem _ hmem, h1, h2, h3⟩

theorem resolveDependency_queue {env : Env} {specifier : Specifier} {st st1 : FetchState}
    {toothPath : String} {versionRange : VersionRange}
    (h : resolveDependency env specifier st toothPath versionRange = .ok st1) :
    ∀ s ∈ st1.specifiersToFetch, s ∈ st.specifiersToFetch ∨
      EnqueuedFrom env [(toothPath, versionRange)] s := by
  unfold resolveDependency at h
  cases hindex : env.FetchVersionList toothPath with
  | error err =>
    simp only [hindex] at h
    cases h
  | ok versionList =>
    simp only [hindex] at h
    by_cases hinst : IsToothInstalled st.sys.world toothPath = true
    · rw [if_pos hinst] at h
      cases hrec : toothrecordGet st.sys.world toothPath with
      | error err =>
        simp only [hrec] at h
        cases h
      | ok record =>
        simp only [hrec] at h
        split at h
        · cases h
          exact fun s hs => Or.inl hs
        · cases h
    · rw [if_neg hinst] at h
      cases hsel : selectVersion env toothPath versionRange st.specifiersToFetch versionList with
      | error err =>
        simp only [hsel] at h
        cases h
      | ok res =>
        cases res with
        | none =>
          simp only [hsel] at h
          cases h
        | some queue =>
          simp only [hsel, Outcome.ok.injEq] at h
          obtain ⟨version, s1, hmem, hmatch, hnew, hqueue⟩ := selectVersion_some _ hsel
          rw [← h]
          intro s hs
          simp only [hqueue, List.mem_append, List.mem_singleton] at hs
          rcases hs with hs | hs
          · exact Or.inl hs
          · subst hs
            exact Or.inr ⟨toothPath, versionRange, versionList, version, by simp, hindex, hmem,
              hmatch, hnew⟩

theorem resolveDependencies_queue {env : Env} {specifier : Specifier}
    (dependencies : List (String × VersionRange)) {st st1 : FetchState}
    (h : resolveDependencies env specifier st dependencies = .ok st1) :
    ∀ s ∈ st1.specifiersToFetch, s ∈ st.specifiersToFetch ∨
      EnqueuedFrom env dependencies s := by
  induction dependencies generalizing st with
  | nil =>
    simp only [resolveDependencies, Outcome.ok.injEq] at h
    subst h
    exact fun s hs => Or.inl hs
  | cons dependency rest ih =>
    obtain ⟨toothPath, versionRange⟩ := dependency
    simp only [resolveDependencies] at h
    split at h
    · cases h
    · rename_i st2 h2
      intro s hs
      rcases ih h s hs with h3 | ⟨tp, vr, vl, v, hmem, h4⟩
      · rcases resolveDependency_queue h2 s h3 with h5 | ⟨tp, vr, vl, v, hmem, h4⟩
        · exact Or.inl h5
        · simp only [List.mem_singleton] at hmem
          exact Or.inr ⟨tp, vr, vl, v, by rw [hmem]; exact List.mem_cons_self _ _, h4⟩
      · exact Or.inr ⟨tp, vr, vl, v, List.mem_cons_of_mem _ hmem, h4⟩

theorem toothfileNew_lookup {w : World} {path : String} {toothFile : ToothFile}
    (h : toothfileNew w path = .ok toothFile) :
    w.files.lookup path = some (some toothFile.metadata) := by
  unfold toothfileNew at h
  split at h
  · rename_i metadata hl
    cases h
    exact hl
  · cases h

theorem fetchIteration_ok_queue {env : Env} {flagDict : FlagDict} {st st1 : FetchState}
    {specifier : Specifier} (h : fetchIteration env flagDict st specifier = .ok st1) :
    ∀ s ∈ st1.specifiersToFetch, s ∈ st.specifiersToFetch ∨
      ∃ isCached path w toothFile,
        getTooth env st.sys.world specifier = (.ok (isCached, path), w) ∧
        toothfileNew w path = .ok toothFile ∧
        EnqueuedFrom env toothFile.metadata.Dependencies s := by
  cases hnew : st.downloadedToothFilePathMap.lookup specifier.canonical with
  | some p =>
    rw [fetchIteration_dropped env flagDict st specifier (by simp [hnew])] at h
    cases h
    exact fun s hs => Or.inl hs
  | none =>
    rcases hget : getTooth env st.sys.world specifier with ⟨res, w⟩
    cases res with
    | error err =>
      rw [fetchIteration_fetchFailed env flagDict st specifier err w hnew hget] at h
      cases h
    | ok res =>
      obtain ⟨isCached, path⟩ := res
      cases hopen : toothfileNew w path with
      | error err =>
        rw [fetchIteration_corrupt env flagDict st specifier isCached path w err hnew hget
          hopen] at h
        cases h
      | ok toothFile =>
        by_cases hbad : specifier.kind = SpecifierKind.RequirementKind ∧
            toothFile.metadata.ToothPath ≠ specifier.toothRepo
        · rw [fetchIteration_mismatch env flagDict st specifier isCached path w toothFile
            hnew hget hopen hbad] at h
          cases h
        · rw [fetchIteration_fetched env flagDict st specifier isCached path w toothFile
            hnew hget hopen (fun hk => by_contra fun hne => hbad ⟨hk, hne⟩)] at h
          cases hcheck : checkInstalled env flagDict
              { world := w
                trace := st.sys.trace ++ [Event.fetched specifier.canonical isCached path] }
              toothFile with
          | exit code failure sys =>
            rw [hcheck] at h
            cases h
          | ok proceed =>
            rw [hcheck] at h
            cases proceed with
            | false =>
              simp only at h
              cases h
              exact fun s hs => Or.inl hs
            | true =>
              simp only at h
              split at h
              · intro s hs
                rcases resolveDependencies_queue _ h s hs with h1 | h1
                · exact Or.inl h1
                · exact Or.inr ⟨isCached, path, w, toothFile, rfl, hopen, h1⟩
              · cases h
                exact fun s hs => Or.inl hs

theorem fetchIteration_loopInv {env : Env} {flagDict : FlagDict} {w0 : World}
    {reachable : List String} {st st1 : FetchState} {specifier : Specifier}
    (hclosed : DependencyClosed env w0 reachable) (hinv : LoopInv env w0 reachable st)
    (hspec : specifier.canonical ∈ reachable)
    (h : fetchIteration env flagDict st specifier = .ok st1) :
    LoopInv env w0 reachable st1 ∧
      ((st1.downloadedToothFilePathMap = st.downloadedToothFilePathMap ∧
          st1.specifiersToFetch = st.specifiersToFetch) ∨
        st1.downloadedToothFilePathMap.length = st.downloadedToothFilePathMap.length + 1) := by
  obtain ⟨hqueue, hkeys, hnodup, hfiles⟩ := hinv
  have hq := fetchIteration_ok_queue h
  rcases fetchIteration_ok_cases h with ⟨-, h1⟩ |
    ⟨hnew, isCached, path, w, toothFile, proceed, hget, hopen, -, hsys, h1⟩
  · rw [h1]
    exact ⟨⟨hqueue, hkeys, hnodup, hfiles⟩, Or.inl ⟨rfl, rfl⟩⟩
  · have hfiles1 : FilesInv env w0 st1.sys.world := by
      rw [hsys]
      exact getTooth_filesInv hfiles hget
    have hqueue1 : ∀ s ∈ st1.specifiersToFetch, s.canonical ∈ reachable := by
      intro s hs
      rcases hq s hs with h2 | ⟨isCached2, path2, w2, toothFile2, hget2, hopen2, henq⟩
      · exact hqueue s h2
      · rw [hget] at hget2
        simp only [Prod.mk.injEq, Except.ok.injEq] at hget2
        obtain ⟨⟨-, hp⟩, hw⟩ := hget2
        subst hp hw
        rw [hopen] at hopen2
        cases hopen2
        obtain ⟨cacheDir, hdir, hpath⟩ := getTooth_ok hget
        have hlook := toothfileNew_lookup hopen
        rw [hpath] at hlook
        have harchive := getTooth_filesInv hfiles hget cacheDir specifier.canonical
          toothFile.metadata hdir hlook
        exact hclosed specifier.canonical hspec toothFile.metadata harchive s henq
    rcases h1 with ⟨-, hmap, hsame⟩ | ⟨-, hmap, -⟩
    · refine ⟨⟨hqueue1, ?_, ?_, hfiles1⟩, Or.inl ⟨hmap, hsame⟩⟩
      · rw [hmap]
        exact hkeys
      · rw [hmap]
        exact hnodup
    · refine ⟨⟨hqueue1, ?_, ?_, hfiles1⟩, Or.inr (by rw [hmap]; simp)⟩
      · rw [hmap]
        intro key hkey
        simp only [List.map_append, List.map_cons, List.map_nil, List.mem_append,
          List.mem_singleton] at hkey
        rcases hkey with hkey | hkey
        · exact hkeys key hkey
        · rw [hkey]
          exact hspec
      · rw [hmap, List.map_append, List.nodup_append]
        refine ⟨hnodup, by simp, ?_⟩
        intro k hk1 hk2
        simp only [List.map_cons, List.map_nil, List.mem_singleton] at hk2
        subst hk2
        exact not_mem_keys_of_lookup_none hnew hk1

theorem fetchLoop_more_fuel {env : Env} {flagDict : FlagDict} (fuel : Nat) {st : FetchState}
    {out : Outcome FetchState} (h : fetchLoop env flagDict fuel st = some out) (more : Nat) :
    fetchLoop env flagDict (fuel + more) st = some out := by
  induction fuel generalizing st with
  | zero =>
    cases hq : st.specifiersToFetch with
    | nil =>
      rw [fetchLoop_nil env flagDict 0 st hq] at h
      rw [fetchLoop_nil env flagDict _ st hq]
      exact h
    | cons specifier rest =>
      rw [fetchLoop_cons_zero env flagDict st specifier rest hq] at h
      cases h
  | succ fuel ih =>
    cases hq : st.specifiersToFetch with
    | nil =>
      rw [fetchLoop_nil env flagDict _ st hq] at h
      rw [fetchLoop_nil env flagDict _ st hq]
      exact h
    | cons specifier rest =>
      rw [fetchLoop_cons_succ env flagDict fuel st specifier rest hq] at h
      have hadd : fuel + 1 + more = (fuel + more) + 1 := by omega
      rw [hadd, fetchLoop_cons_succ env flagDict (fuel + more) st specifier rest hq]
      cases hiter : fetchIteration env flagDict { st with specifiersToFetch := rest }
          specifier with
      | exit code failure sys =>
        simp only [hiter] at h ⊢
        exact h
      | ok st1 =>
        simp only [hiter] at h ⊢
        exact ih h

theorem LoopInv_length_le {env : Env} {w0 : World} {reachable : List String} {st : FetchState}
    (hinv : LoopInv env w0 reachable st) :
    st.downloadedToothFilePathMap.length ≤ reachable.length := by
  have h := (List.subperm_of_subset hinv.2.2.1 fun k hk => hinv.2.1 k hk).length_le
  simpa using h

theorem fetchLoop_returns {env : Env} (flagDict : FlagDict) {w0 : World}
    {reachable : List String} (hclosed : DependencyClosed env w0 reachable) (n : Nat) :
    ∀ len st, LoopInv env w0 reachable st →
      reachable.length - st.downloadedToothFilePathMap.length ≤ n →
      st.specifiersToFetch.length ≤ len →
      ∃ fuel out, fetchLoop env flagDict fuel st = some out := by
  induction n using Nat.strong_induction_on with
  | _ n ihn =>
    intro len
    induction len with
    | zero =>
      intro st _ _ hlen
      have hnil : st.specifiersToFetch = [] := List.length_eq_zero.1 (by omega)
      exact ⟨0, _, fetchLoop_nil env flagDict 0 st hnil⟩
    | succ len ihlen =>
      intro st hinv hn hlen
      cases hq : st.specifiersToFetch with
      | nil => exact ⟨0, _, fetchLoop_nil env flagDict 0 st hq⟩
      | cons specifier rest =>
        have hspec : specifier.canonical ∈ reachable :=
          hinv.1 specifier (by rw [hq]; exact List.mem_cons_self _ _)
        have hinv0 : LoopInv env w0 reachable { st with specifiersToFetch := rest } :=
          ⟨fun s hs => hinv.1 s (by rw [hq]; exact List.mem_cons_of_mem _ hs), hinv.2.1,
            hinv.2.2.1, hinv.2.2.2⟩
        cases hiter : fetchIteration env flagDict { st with specifiersToFetch := rest }
            specifier with
        | exit code failure sys =>
          refine ⟨1, .exit code failure sys, ?_⟩
          rw [fetchLoop_cons_succ env flagDict 0 st specifier rest hq, hiter]
        | ok st1 =>
          obtain ⟨hinv1, hprogress⟩ := fetchIteration_loopInv hclosed hinv0 hspec hiter
          have hrec : ∃ fuel out, fetchLoop env flagDict fuel st1 = some out := by
            rcases hprogress with ⟨hmap, hqueue⟩ | hmore
            · apply ihlen st1 hinv1
              · rw [hmap]
                exact hn
              · rw [hqueue]
                rw [hq] at hlen
                simp only [List.length_cons] at hlen ⊢
                omega
            · have hle := LoopInv_length_le hinv1
              simp only at hmore
              exact ihn (reachable.length - st1.downloadedToothFilePathMap.length)
                (by omega) st1.specifiersToFetch.length st1 hinv1 (le_refl _) (le_refl _)
          obtain ⟨fuel, out, hloop⟩ := hrec
          refine ⟨fuel + 1, out, ?_⟩
          rw [fetchLoop_cons_succ env flagDict fuel st specifier rest hq, hiter]
          exact hloop

theorem LoopInv_initial (env : Env) (w : World) (reachable : List String)
    (roots : List Specifier) (hroots : ∀ r ∈ roots, r.canonical ∈ reachable) :
    LoopInv env w reachable (initialState w roots) :=
  ⟨hroots, by simp [initialState], by simp [initialState],
    fun cacheDir _ _ hdir hlook => Or.inl ⟨cacheDir, hdir, hlook⟩⟩

theorem fetchLoop_loopInv {env : Env} {flagDict : FlagDict} {w0 : World}
    {reachable : List String} (hclosed : DependencyClosed env w0 reachable) (fuel : Nat)
    {st st1 : FetchState} (hinv : LoopInv env w0 reachable st)
    (h : fetchLoop env flagDict fuel st = some (.ok st1)) : LoopInv env w0 reachable st1 := by
  induction fuel generalizing st with
  | zero =>
    cases hq : st.specifiersToFetch with
    | nil =>
      rw [fetchLoop_nil env flagDict 0 st hq] at h
      cases h
      exact hinv
    | cons specifier rest =>
      rw [fetchLoop_cons_zero env flagDict st specifier rest hq] at h
      cases h
  | succ fuel ih =>
    cases hq : st.specifiersToFetch with
    | nil =>
      rw [fetchLoop_nil env flagDict _ st hq] at h
      cases h
      exact hinv
    | cons specifier rest =>
      rw [fetchLoop_cons_succ env flagDict fuel st specifier rest hq] at h
      have hspec : specifier.canonical ∈ reachable :=
        hinv.1 specifier (by rw [hq]; exact List.mem_cons_self _ _)
      have hinv0 : LoopInv env w0 reachable { st with specifiersToFetch := rest } :=
        ⟨fun s hs => hinv.1 s (by rw [hq]; exact List.mem_cons_of_mem _ hs), hinv.2.1,
          hinv.2.2.1, hinv.2.2.2⟩
      cases hiter : fetchIteration env flagDict { st with specifiersToFetch := rest }
          specifier with
      | exit code failure sys =>
        simp only [hiter] at h
        cases h
      | ok st2 =>
        simp only [hiter] at h
        exact ih (fetchIteration_loopInv hclosed hinv0 hspec hiter).1 h

/-- C14. Resolver termination under cycles. Let `reachable` be a finite list of
canonical specifier strings that holds the strings of the roots and is closed
under dependencies: for every archive that a fetch of one of its strings can
open (from the cache or from the origin), every dependency, and every version
of the index list of that dependency that the range matches, the specifier
made of them has its string in the list. Then the fetch loop ends: some number
of iterations is enough, and every larger number gives the same outcome; this
holds also when the manifests depend on each other in a cycle. An iteration
changes the queue beyond taking its front only when it enters the string of
its specifier as a new key in `downloaded`; at the end no string is a key
twice, every key is in the list, and there are at most as many keys as the
list is long, so every string is expanded at most once. With the arguments
validated to these roots, `Run` itself returns an outcome. -/
theorem resolver_terminates (env : Env) (flagDict : FlagDict) (w : World)
    (roots : List Specifier) (reachable : List String)
    (hroots : ∀ r ∈ roots, r.canonical ∈ reachable)
    (hclosed : DependencyClosed env w reachable) :
    (∃ fuel out, ∀ more,
      fetchLoop env flagDict (fuel + more) (initialState w roots) = some out) ∧
    (∀ st specifier st1, fetchIteration env flagDict st specifier = .ok st1 →
      st1.specifiersToFetch ≠ st.specifiersToFetch →
      st.downloadedToothFilePathMap.lookup specifier.canonical = none ∧
      ∃ path, st1.downloadedToothFilePathMap =
        st.downloadedToothFilePathMap ++ [(specifier.canonical, path)]) ∧
    (∀ fuel st, fetchLoop env flagDict fuel (initialState w roots) = some (.ok st) →
      (st.downloadedToothFilePathMap.map Prod.fst).Nodup ∧
      (∀ key ∈ st.downloadedToothFilePathMap.map Prod.fst, key ∈ reachable) ∧
      st.downloadedToothFilePathMap.length ≤ reachable.length) ∧
    (∀ args, validateSpecifiers env args = .ok roots →
      ∃ fuel out, Run env flagDict args fuel w = some out) := by
  have hinit := LoopInv_initial env w reachable roots hroots
  obtain ⟨fuel, out, hloop⟩ := fetchLoop_returns flagDict hclosed
    (reachable.length - (initialState w roots).downloadedToothFilePathMap.length)
    (initialState w roots).specifiersToFetch.length (initialState w roots) hinit (le_refl _)
    (le_refl _)
  refine ⟨⟨fuel, out, fun more => fetchLoop_more_fuel fuel hloop more⟩, ?_, ?_, ?_⟩
  · intro st specifier st1 hiter hchanged
    rcases fetchIteration_ok_cases hiter with ⟨-, h1⟩ |
      ⟨hnew, isCached, path, w1, toothFile, proceed, -, -, -, -, h1⟩
    · rw [h1] at hchanged
      exact absurd rfl hchanged
    · rcases h1 with ⟨-, -, hsame⟩ | ⟨-, hmap, -⟩
      · exact absurd hsame hchanged
      · exact ⟨hnew, path, hmap⟩
  · intro fuel1 st hloop1
    have hinv := fetchLoop_loopInv hclosed fuel1 hinit hloop1
    exact ⟨hinv.2.2.1, hinv.2.1, LoopInv_length_le hinv⟩
  · intro args hval
    cases hhelp : flagDict.helpFlag with
    | true => exact ⟨0, .ok { world := w, trace := [] }, by simp [Run, hhelp]⟩
    | false =>
      by_cases hargs : args.length = 0
      · exact ⟨0, .exit 1 .TooFewArguments { world := w, trace := [] },
          by simp [Run, hhelp, hargs]⟩
      · have hloop0 : fetchLoop env flagDict fuel
            { sys := { world := w, trace := [] }, specifiersToFetch := roots,
              downloadedToothFilePathMap := [] } = some out := hloop
        cases out with
        | exit code failure sys =>
          exact ⟨fuel, .exit code failure sys, by simp [Run, hhelp, hargs, hval, hloop0]⟩
        | ok st =>
          exact ⟨fuel, afterFetch env flagDict roots st,
            by simp [Run, hhelp, hargs, hval, hloop0]⟩

theorem exampleEnv_specifiersNew {repo : List (Specifier × Metadata)}
    {index : List (String × List Version)} {str : String} {s : Specifier}
    (h : (exampleEnv repo index).specifiersNew str = .ok s) : s ∈ repo.map Prod.fst := by
  simp only [exampleEnv] at h
  split at h
  · rename_i e hfind
    cases h
    exact List.mem_map.2 ⟨e, List.mem_of_find?_eq_some hfind, rfl⟩
  · cases h

/-- Witness of C14: `c.io/a` and `c.io/b` depend on each other; the fetch loop
on the root `c.io/a@1.0.0` ends after three iterations with both fetched. -/
theorem resolver_terminates_witness :
    (∃ fuel out, ∀ more,
        fetchLoop cycleEnv plainFlags (fuel + more) (initialState emptyWorld [cycleA]) =
          some out) ∧
      fetchLoop cycleEnv plainFlags 3 (initialState emptyWorld [cycleA]) =
        some (.ok cycleFetched) ∧
      fetchLoop cycleEnv plainFlags 2 (initialState emptyWorld [cycleA]) = none := by
  have hclosed : DependencyClosed cycleEnv emptyWorld ["c.io/a@1.0.0", "c.io/b@1.0.0"] := by
    intro canonical _ m _ s henq
    obtain ⟨toothPath, versionRange, versionList, version, -, -, -, -, hnew⟩ := henq
    have hs := exampleEnv_specifiersNew hnew
    simp only [List.map_cons, List.map_nil, List.mem_cons, List.mem_singleton,
      List.not_mem_nil, or_false] at hs
    rcases hs with hs | hs <;> subst hs <;> decide
  exact ⟨(resolver_terminates cycleEnv plainFlags emptyWorld [cycleA]
    ["c.io/a@1.0.0", "c.io/b@1.0.0"] (by decide) hclosed).1, by decide, by decide⟩

end Lip
